import Mathlib

/-!
Shallow embedding of the Texas Hold'em rule engine of the `ai-poker`
repository (Go), together with proofs checking the natural-language
specification's claims against it.

Conventions of the embedding:
* Go `int` / `int64` are modelled as `Int` (no overflow occurs on the
  values the engine manipulates); loop indices and positions are `Nat`.
* Go truncated division `/` and remainder `%` on `int` are `Int.tdiv`
  and `Int.tmod`.
* Go slices are `List`s; mutation through a pointer into `Game.Players`
  is modelled as `List.set` at the corresponding seat index.
* `Cards` is `[]*poker.Card`; inside the game flow all dealt cards are
  non-nil, so cards are plain `Card` values.  The method-style hand
  evaluator (`HandEvaluator.EvaluateHand`) explicitly filters nil
  entries, so there (and only there) inputs are `Option Card`.
* Deck shuffling draws from the global RNG; a function that shuffles is
  modelled by passing the resulting (arbitrary) post-shuffle deck as an
  explicit argument.
* Go map iteration order is unspecified; `getRankCounts` is modelled by
  iterating the distinct ranks in first-occurrence order of the (sorted)
  card list.  Every property proved below about results of rank-count
  loops is independent of that order (only the existence of a count
  matters, or the loop touches a single rank).

The repository contains two variants of the `Game` type and two hand
evaluators.  `Game` below is `src/engine/holdem/game.go` (slice of
players, blind posting, betting actions); `GameS` is the seat-array
variant with per-phase action logs that the action validator of
`src/unnamed/part_008` operates on.  `EvaluatePlayerHand` and friends
are the function-style evaluator used by `Game.showdown`;
`HandEvaluator.*` is the method-style evaluator.
-/

namespace Holdem

/-- Card suit, from `poker` package: `SuitNone`, hearts, diamonds, clubs, spades. -/
inductive Suit where
  | none
  | heart
  | diamond
  | club
  | spade
deriving Repr, DecidableEq, Inhabited

/-- Card rank, from `poker` package: `RankNone`, A, 2..10, J, Q, K, jokers. -/
inductive Rank where
  | none
  | ace
  | two
  | three
  | four
  | five
  | six
  | seven
  | eight
  | nine
  | ten
  | jack
  | queen
  | king
  | joker
  | coloredJoker
deriving Repr, DecidableEq, Inhabited, Fintype

/-- `poker.Card`: an immutable suit/rank pair. -/
structure Card where
  suit : Suit
  rank : Rank
deriving Repr, DecidableEq, Inhabited

/-- `holdem.Player` (from the player file of `src/unnamed/part_008`):
id and name from `poker.BasePlayer`, private fields cards, chips, bet,
totalBet, folded. -/
structure Player where
  id : Int
  name : String
  cards : List Card
  chips : Int
  bet : Int
  totalBet : Int
  folded : Bool
deriving Repr, DecidableEq, Inhabited

/-- `NewPlayer(id, name, startingChips)`. -/
def NewPlayer (id : Int) (name : String) (startingChips : Int) : Player :=
  { id := id,
    name := name,
    cards := [],
    chips := startingChips,
    bet := 0,
    totalBet := 0,
    folded := false }

/-- `Player.DealCard`: append a card to the hand. -/
def Player.DealCard (p : Player) (c : Card) : Player :=
  { p with cards := p.cards ++ [c] }

/-- `Player.GrandChips`: add chips to the stack. -/
def Player.GrandChips (p : Player) (amount : Int) : Player :=
  { p with chips := p.chips + amount }

/-- `Player.Bet`: move `amount` from stack into the current and total wager. -/
def Player.Bet (p : Player) (amount : Int) : Player :=
  { p with
      bet := p.bet + amount,
      totalBet := p.totalBet + amount,
      chips := p.chips - amount }

/-- `Player.ResetBet`: zero the current-round wager. -/
def Player.ResetBet (p : Player) : Player :=
  { p with bet := 0 }

/-- `Player.Fold`: set the folded flag. -/
def Player.Fold (p : Player) : Player :=
  { p with folded := true }

/-- `Player.ResetForNewHand`: clear cards, wagers and the folded flag. -/
def Player.ResetForNewHand (p : Player) : Player :=
  { p with
      cards := [],
      bet := 0,
      totalBet := 0,
      folded := false }

/-- `holdem.GamePhase`: Preflop, Flop, Turn, River, Showdown (iota order). -/
inductive GamePhase where
  | Preflop
  | Flop
  | Turn
  | River
  | Showdown
deriving Repr, DecidableEq, Inhabited

/-- `holdem.ActionType` (player actions then system actions, iota order). -/
inductive ActionType where
  | ActionFold
  | ActionCheck
  | ActionCall
  | ActionRaise
  | ActionAllIn
  | ActionSystemShuffle
  | ActionSystemDealHole
  | ActionSystemDealFlop
  | ActionSystemDealTurn
  | ActionSystemDealRiver
  | ActionSystemPhaseChange
deriving Repr, DecidableEq, Inhabited

/-- `holdem.Action`: actor id, kind, amount. -/
structure Action where
  playerID : Int
  type : ActionType
  amount : Int
deriving Repr, DecidableEq, Inhabited

/-- `holdem.HandRank` (iota order, high card lowest). -/
inductive HandRank where
  | HighCard
  | OnePair
  | TwoPair
  | ThreeOfAKind
  | Straight
  | Flush
  | FullHouse
  | FourOfAKind
  | StraightFlush
  | RoyalFlush
deriving Repr, DecidableEq, Inhabited

/-- Numeric value of a `HandRank` constant (its Go iota value). -/
def HandRank.val : HandRank → Int
  | .HighCard => 0
  | .OnePair => 1
  | .TwoPair => 2
  | .ThreeOfAKind => 3
  | .Straight => 4
  | .Flush => 5
  | .FullHouse => 6
  | .FourOfAKind => 7
  | .StraightFlush => 8
  | .RoyalFlush => 9

/- ----------------------------------------------------------------
Function-style hand evaluator (second half of
`src/engine/holdem/evaluator.go`), used by `Game.showdown` through
`EvaluatePlayerHand`.  `HandResult.Value` is Go `int64`.
---------------------------------------------------------------- -/

/-- Function-style `holdem.HandResult` (no kicker list, `int64` value). -/
structure HandResult where
  rank : HandRank
  description : String
  value : Int
  cards : List Card
deriving Repr, DecidableEq, Inhabited

/-- `getRankValue`: ace 14 down to two 2, everything else 0. -/
def getRankValue : Rank → Int
  | .ace => 14
  | .king => 13
  | .queen => 12
  | .jack => 11
  | .ten => 10
  | .nine => 9
  | .eight => 8
  | .seven => 7
  | .six => 6
  | .five => 5
  | .four => 4
  | .three => 3
  | .two => 2
  | _ => 0

/-- Insertion of one card into a rank-descending list (used to model
`sort.Slice` with comparator `getRankValue(..) > getRankValue(..)`;
the Go sort is not stable, but every use below only depends on the
multiset of ranks being sorted descending by rank value). -/
def insertByRankDesc (c : Card) : List Card → List Card
  | [] => [c]
  | d :: ds =>
    if getRankValue c.rank > getRankValue d.rank then c :: d :: ds
    else d :: insertByRankDesc c ds

/-- Sort cards descending by `getRankValue`. -/
def sortByRankDesc (cards : List Card) : List Card :=
  cards.foldr insertByRankDesc []

/-- `checkFlush` (function variant): exactly five cards, all the same suit. -/
def checkFlush (cards : List Card) : Bool :=
  if cards.length ≠ 5 then false
  else
    match cards with
    | [] => true
    | c :: rest => rest.all (fun d => d.suit == c.suit)

/-- Insertion into an ascending `Int` list (structural model of
`sort.Ints`; equal elements are indistinguishable, so stability is
irrelevant). -/
def insertIntAsc (x : Int) : List Int → List Int
  | [] => [x]
  | y :: ys => if x ≤ y then x :: y :: ys else y :: insertIntAsc x ys

/-- Sort an `Int` list ascending (`sort.Ints`). -/
def sortIntsAsc (l : List Int) : List Int :=
  l.foldr insertIntAsc []

/-- Rank values of the cards sorted ascending (helper for `checkStraight`
and `isRoyalFlush`, which both sort the value slice with `sort.Ints`). -/
def sortedRankValues (cards : List Card) : List Int :=
  sortIntsAsc (cards.map (fun c => getRankValue c.rank))

/-- Consecutiveness test of `checkStraight`: each value is its
predecessor plus one. -/
def valuesConsecutive : List Int → Bool
  | [] => true
  | [_] => true
  | a :: b :: rest => b == a + 1 && valuesConsecutive (b :: rest)

/-- `checkStraight` (function variant): five consecutive sorted rank
values, or the explicit ace-low wheel 2-3-4-5-14. -/
def checkStraight (cards : List Card) : Bool :=
  if cards.length ≠ 5 then false
  else
    let values := sortedRankValues cards
    valuesConsecutive values ||
      (values.getD 0 0 == 2 && values.getD 1 0 == 3 && values.getD 2 0 == 4 &&
        values.getD 3 0 == 5 && values.getD 4 0 == 14)

/-- `isRoyalFlush`: a straight flush whose sorted values run 10..14. -/
def isRoyalFlush (cards : List Card) : Bool :=
  if ¬(checkFlush cards && checkStraight cards) then false
  else
    let values := sortedRankValues cards
    values.getD 0 0 == 10 && values.getD 4 0 == 14

/-- Count of a given rank among the cards (the map `getRankCounts`
queried at one key). -/
def rankCount (cards : List Card) (r : Rank) : Nat :=
  (cards.filter (fun c => c.rank == r)).length

/-- Distinct ranks of the cards in first-occurrence order: the key set
of the Go map `getRankCounts` (iteration order is unspecified in Go;
every use below is order-independent). -/
def distinctRanks (cards : List Card) : List Rank :=
  (cards.map (fun c => c.rank)).dedup

/-- The multiset `lo.Values(rankCounts)` as a list. -/
def rankCountValues (cards : List Card) : List Nat :=
  (distinctRanks cards).map (rankCount cards)

/-- `hasFourOfAKind`: some rank occurs exactly four times. -/
def hasFourOfAKind (cards : List Card) : Bool :=
  (rankCountValues cards).any (fun n => n == 4)

/-- `hasFullHouse`: some rank occurs exactly three times and some rank
exactly twice. -/
def hasFullHouse (cards : List Card) : Bool :=
  (rankCountValues cards).contains 3 && (rankCountValues cards).contains 2

/-- `hasThreeOfAKind`: some rank occurs exactly three times. -/
def hasThreeOfAKind (cards : List Card) : Bool :=
  (rankCountValues cards).contains 3

/-- `hasTwoPair`: exactly two ranks occur exactly twice. -/
def hasTwoPair (cards : List Card) : Bool :=
  ((rankCountValues cards).filter (fun n => n == 2)).length == 2

/-- `hasOnePair`: some rank occurs exactly twice. -/
def hasOnePair (cards : List Card) : Bool :=
  (rankCountValues cards).contains 2

/-- The indexed accumulation loop of `calculateValue`:
`value += rankValue(card) * (1000000000 / (i*10 + 1))` over the cards,
`i` being the position in the (rank-descending) list. -/
def calculateValueLoop (i : Nat) : List Card → Int
  | [] => 0
  | c :: rest =>
    getRankValue c.rank * ((1000000000 / (i * 10 + 1) : Nat) : Int) +
      calculateValueLoop (i + 1) rest

/-- `calculateValue`: category base `rank * 10^12` plus the positionally
weighted rank values of the five (descending-sorted) cards. -/
def calculateValue (handRank : HandRank) (cards : List Card) : Int :=
  handRank.val * 1000000000000 + calculateValueLoop 0 cards

/-- `evaluateFiveCards`: classify exactly five cards into the ten
categories and attach the `calculateValue` comparison key. -/
def evaluateFiveCards (cards : List Card) : HandResult :=
  if cards.length ≠ 5 then { rank := .HighCard, description := "", value := 0, cards := [] }
  else
    let sortedCards := sortByRankDesc cards
    let isF := checkFlush sortedCards
    let isS := checkStraight sortedCards
    if isS && isF then
      if isRoyalFlush sortedCards then
        { rank := .RoyalFlush,
          description := "Royal Flush",
          value := calculateValue .RoyalFlush sortedCards,
          cards := sortedCards }
      else
        { rank := .StraightFlush,
          description := "Straight Flush",
          value := calculateValue .StraightFlush sortedCards,
          cards := sortedCards }
    else if hasFourOfAKind sortedCards then
      { rank := .FourOfAKind,
        description := "Four of a Kind",
        value := calculateValue .FourOfAKind sortedCards,
        cards := sortedCards }
    else if hasFullHouse sortedCards then
      { rank := .FullHouse,
        description := "Full House",
        value := calculateValue .FullHouse sortedCards,
        cards := sortedCards }
    else if isF then
      { rank := .Flush,
        description := "Flush",
        value := calculateValue .Flush sortedCards,
        cards := sortedCards }
    else if isS then
      { rank := .Straight,
        description := "Straight",
        value := calculateValue .Straight sortedCards,
        cards := sortedCards }
    else if hasThreeOfAKind sortedCards then
      { rank := .ThreeOfAKind,
        description := "Three of a Kind",
        value := calculateValue .ThreeOfAKind sortedCards,
        cards := sortedCards }
    else if hasTwoPair sortedCards then
      { rank := .TwoPair,
        description := "Two Pair",
        value := calculateValue .TwoPair sortedCards,
        cards := sortedCards }
    else if hasOnePair sortedCards then
      { rank := .OnePair,
        description := "One Pair",
        value := calculateValue .OnePair sortedCards,
        cards := sortedCards }
    else
      { rank := .HighCard,
        description := "High Card",
        value := calculateValue .HighCard sortedCards,
        cards := sortedCards }

/-- `generateCombinations(cards, r)`: all `r`-element subsequences in
lexicographic index order (the Go recursion emits them in exactly this
order). -/
def combosAux : Nat → List Card → List (List Card)
  | 0, _ => [[]]
  | _ + 1, [] => []
  | r + 1, c :: rest =>
    ((combosAux r rest).map (fun combo => c :: combo)) ++ combosAux (r + 1) rest

/-- `generateCombinations(cards, r)` returns `nil` when `r` exceeds the
number of cards, else the recursion above. -/
def generateCombinations (cards : List Card) (r : Nat) : List (List Card) :=
  if r > cards.length then []
  else combosAux r cards

/-- `lo.MaxBy(results, a.Value > b.Value)`: first element of maximal
value (the accumulator is only replaced on strict improvement). -/
def maxByValue : List HandResult → HandResult
  | [] => default
  | h :: t => t.foldl (fun acc r => if r.value > acc.value then r else acc) h

/-- `EvaluatePlayerHand`: best five-card hand from hole plus community
cards; degenerate zero result with fewer than 2 hole or 5 total cards. -/
def EvaluatePlayerHand (player : Player) (communityCards : List Card) : HandResult :=
  let playerCards := player.cards
  if playerCards.length < 2 then
    { rank := .HighCard, description := "Insufficient cards", value := 0, cards := [] }
  else
    let allCards := playerCards ++ communityCards
    if allCards.length < 5 then
      { rank := .HighCard, description := "Insufficient cards", value := 0, cards := allCards }
    else
      maxByValue ((generateCombinations allCards 5).map evaluateFiveCards)

/- ----------------------------------------------------------------
The `Game` of `src/engine/holdem/game.go`: slice of players, pot,
phase, positions, blinds, betting actions and showdown.
---------------------------------------------------------------- -/

/-- `holdem.Game` of `game.go`. -/
structure Game where
  players : List Player
  deck : List Card
  pot : Int
  currentPhase : GamePhase
  currentPlayerPosition : Nat
  dealerPosition : Nat
  smallBlind : Int
  bigBlind : Int
  currentBet : Int
  communityCards : List Card
  actionsThisRound : Nat
deriving Repr, DecidableEq, Inhabited

/-- `NewGame(playerNames, smallBlind, bigBlind)`: one player per name
with id = index and 1000 starting chips; dealer and turn at 0, Preflop. -/
def NewGame (playerNames : List String) (smallBlind bigBlind : Int) : Game :=
  { players := playerNames.enum.map (fun p => NewPlayer (p.1 : Int) p.2 1000),
    deck := [],
    pot := 0,
    currentPhase := .Preflop,
    currentPlayerPosition := 0,
    dealerPosition := 0,
    smallBlind := smallBlind,
    bigBlind := bigBlind,
    currentBet := 0,
    communityCards := [],
    actionsThisRound := 0 }

/-- `Game.GetCurrentPlayer`: the player at the turn position (the Go
code indexes the slice directly; positions are always in range in
reachable states). -/
def Game.GetCurrentPlayer (g : Game) : Player :=
  g.players.getD g.currentPlayerPosition default

/-- Replace the player at index `i` (models the Go mutation through the
`IPlayer` pointer obtained from `g.Players[i]`). -/
def Game.setPlayer (g : Game) (i : Nat) (p : Player) : Game :=
  { g with players := g.players.set i p }

/-- `Game.GetActivePlayers`: the non-folded players in seat order. -/
def Game.GetActivePlayers (g : Game) : List Player :=
  g.players.filter (fun p => !p.folded)

/-- Seat indices of the non-folded players together with the players,
in seat order: the Go `GetActivePlayers` returns pointers into
`g.Players`, modelled here as indices. -/
def Game.activePairs (g : Game) : List (Nat × Player) :=
  g.players.enum.filter (fun ip => !ip.2.folded)

/-- `Game.resetForNewHand`: zero pot, bet, phase, board and action
count, and reset every player. -/
def Game.resetForNewHand (g : Game) : Game :=
  { g with
      pot := 0,
      currentBet := 0,
      currentPhase := .Preflop,
      communityCards := [],
      actionsThisRound := 0,
      players := g.players.map Player.ResetForNewHand }

/-- `Game.createDeck`: build a 54-card deck, remove the jokers and
shuffle.  The shuffle result is nondeterministic, so the post-shuffle
52-card deck is passed in as `shuffledDeck`. -/
def Game.createDeck (g : Game) (shuffledDeck : List Card) : Game :=
  { g with deck := shuffledDeck }

/-- One iteration of the inner loop of `dealHoleCards`: if the deck is
nonempty, deal its top card to player `j`. -/
def Game.dealOneTo (g : Game) (j : Nat) : Game :=
  match g.deck with
  | [] => g
  | c :: rest =>
    { g.setPlayer j ((g.players.getD j default).DealCard c) with deck := rest }

/-- `Game.dealHoleCards`: two rounds over all players, dealing one card
each while the deck lasts. -/
def Game.dealHoleCards (g : Game) : Game :=
  (List.range 2).foldl
    (fun g _ => (List.range g.players.length).foldl Game.dealOneTo g) g

/-- `Game.postBlinds`: the seat after the dealer posts the small blind,
the seat after that the big blind (each capped at the poster's stack);
both go into the pot and the big blind becomes the current bet. -/
def Game.postBlinds (g : Game) : Game :=
  let numPlayers := g.players.length
  let sbPos := (g.dealerPosition + 1) % numPlayers
  let bbPos := (g.dealerPosition + 2) % numPlayers
  let sbPlayer := g.players.getD sbPos default
  let sbAmount := min g.smallBlind sbPlayer.chips
  let g1 := { g.setPlayer sbPos (sbPlayer.Bet sbAmount) with pot := g.pot + sbAmount }
  let bbPlayer := g1.players.getD bbPos default
  let bbAmount := min g1.bigBlind bbPlayer.chips
  { g1.setPlayer bbPos (bbPlayer.Bet bbAmount) with
      pot := g1.pot + bbAmount,
      currentBet := bbAmount }

/-- `Game.setFirstPlayerToAct`: three seats after the dealer (UTG), or
the seat after the dealer when exactly two players. -/
def Game.setFirstPlayerToAct (g : Game) : Game :=
  let numPlayers := g.players.length
  let pos := (g.dealerPosition + 3) % numPlayers
  if numPlayers == 2 then
    { g with currentPlayerPosition := (g.dealerPosition + 1) % numPlayers }
  else
    { g with currentPlayerPosition := pos }

/-- `Game.StartHand`: reset, build the (shuffled) deck, deal hole
cards, post blinds, set the first player to act. -/
def Game.StartHand (g : Game) (shuffledDeck : List Card) : Game :=
  ((((g.resetForNewHand).createDeck shuffledDeck).dealHoleCards).postBlinds).setFirstPlayerToAct

/-- `Game.nextPlayer`: advance the turn position to the next non-folded
seat, wrapping around and stopping if it returns to the mover.  The Go
loop always increments before testing, so the search starts one past
the current position and stops after at most `n` steps (where the
position is the original one again, accepted regardless of its fold
flag, exactly as the Go break condition does). -/
def Game.nextPlayer (g : Game) : Game :=
  let n := g.players.length
  match (List.range n).find?
      (fun k => !(g.players.getD ((g.currentPlayerPosition + 1 + k) % n) default).folded) with
  | some k => { g with currentPlayerPosition := (g.currentPlayerPosition + 1 + k) % n }
  | none => g

/-- `Game.setFirstPlayerPostFlop`: seat after the dealer, advanced to
the first non-folded seat (wrapping; giving up when back at the start). -/
def Game.setFirstPlayerPostFlop (g : Game) : Game :=
  let n := g.players.length
  let start := (g.dealerPosition + 1) % n
  match (List.range n).find?
      (fun k => !(g.players.getD ((start + k) % n) default).folded) with
  | some k => { g with currentPlayerPosition := (start + k) % n }
  | none => { g with currentPlayerPosition := start }

/-- `Game.dealFlop`: burn one card, then deal three to the board. -/
def Game.dealFlop (g : Game) : Game :=
  let g := match g.deck with
    | [] => g
    | _ :: rest => { g with deck := rest }
  (List.range 3).foldl
    (fun g _ =>
      match g.deck with
      | [] => g
      | c :: rest =>
        { g with
            communityCards := g.communityCards ++ [c],
            deck := rest }) g

/-- `Game.dealTurn`: burn one card, then deal one to the board. -/
def Game.dealTurn (g : Game) : Game :=
  let g := match g.deck with
    | [] => g
    | _ :: rest => { g with deck := rest }
  match g.deck with
  | [] => g
  | c :: rest =>
    { g with
        communityCards := g.communityCards ++ [c],
        deck := rest }

/-- `Game.dealRiver`: burn one card, then deal one to the board. -/
def Game.dealRiver (g : Game) : Game :=
  let g := match g.deck with
    | [] => g
    | _ :: rest => { g with deck := rest }
  match g.deck with
  | [] => g
  | c :: rest =>
    { g with
        communityCards := g.communityCards ++ [c],
        deck := rest }

/-- Award `amt` chips to the player at seat `i` (Go:
`winner.GrandChips(amt)` through the pointer). -/
def Game.award (g : Game) (i : Nat) (amt : Int) : Game :=
  g.setPlayer i ((g.players.getD i default).GrandChips amt)

/-- The distribution loop of `showdown`: every winner gets `potShare`,
and the first winner additionally the remainder. -/
def Game.awardWinners (g : Game) (winners : List Nat) (potShare remainder : Int) : Game :=
  match winners with
  | [] => g
  | w0 :: rest => rest.foldl (fun g w => g.award w potShare) (g.award w0 (potShare + remainder))

/-- The running maximum of `lo.MaxBy(results, a.hand.Value > b.hand.Value)`
over the evaluated hand values (first maximum wins ties). -/
def loMaxValue (v0 : Int) (rest : List (Nat × Int)) : Int :=
  rest.foldl (fun acc r => if r.2 > acc then r.2 else acc) v0

/-- The `results` list of `showdown` / `GetWinners`: seat index and
evaluated hand value of every active player. -/
def Game.showdownResults (g : Game) : List (Nat × Int) :=
  g.activePairs.map (fun ip => (ip.1, (EvaluatePlayerHand ip.2 g.communityCards).value))

/-- The `bestValue` of `showdown`: the `lo.MaxBy` maximum of the
evaluated hand values. -/
def Game.showdownBestValue (g : Game) : Int :=
  loMaxValue (g.showdownResults.headD (0, 0)).2 g.showdownResults.tail

/-- The `winners` of `showdown`: seats whose hand value equals the
best, in seat order. -/
def Game.showdownWinners (g : Game) : List Nat :=
  (g.showdownResults.filter (fun r => r.2 == g.showdownBestValue)).map (fun r => r.1)

/-- `Game.showdown`: evaluate every active player's hand, find the best
value, split the pot by integer division among all players matching it,
give the remainder to the first winner, and move to Showdown. -/
def Game.showdown (g : Game) : Game :=
  match g.activePairs with
  | [] => g
  | _ :: _ =>
    let winners := g.showdownWinners
    let potShare := Int.tdiv g.pot winners.length
    let remainder := Int.tmod g.pot winners.length
    { g.awardWinners winners potShare remainder with currentPhase := .Showdown }

/-- `Game.endHandEarly`: if exactly one non-folded player remains, give
that player the whole pot and end the hand (the pot field itself is not
cleared). -/
def Game.endHandEarly (g : Game) : Game :=
  match g.activePairs with
  | [iw] => { g.award iw.1 g.pot with currentPhase := .Showdown }
  | _ => g

/-- `Game.IsBettingRoundComplete`: at most one active player, or enough
actions this round and every active player either matches the current
bet or is out of chips.  (The Go preflop and post-flop branches contain
the same two tests.) -/
def Game.IsBettingRoundComplete (g : Game) : Bool :=
  let activePlayers := g.GetActivePlayers
  if activePlayers.length ≤ 1 then true
  else if g.currentPhase == .Preflop then
    if g.actionsThisRound < activePlayers.length then false
    else activePlayers.all (fun p => !(p.bet != g.currentBet && p.chips > 0))
  else
    if g.actionsThisRound < activePlayers.length then false
    else activePlayers.all (fun p => !(p.bet != g.currentBet && p.chips > 0))

/-- `Game.advanceToNextPhase`: reset wagers, current bet and action
count, then advance the phase, dealing board cards (and at the river,
running the showdown). -/
def Game.advanceToNextPhase (g : Game) : Game × Bool :=
  let g := { g with
      players := g.players.map Player.ResetBet,
      currentBet := 0,
      actionsThisRound := 0 }
  match g.currentPhase with
  | .Preflop => ((({ g with currentPhase := .Flop }).dealFlop).setFirstPlayerPostFlop, false)
  | .Flop => ((({ g with currentPhase := .Turn }).dealTurn).setFirstPlayerPostFlop, false)
  | .Turn => ((({ g with currentPhase := .River }).dealRiver).setFirstPlayerPostFlop, false)
  | .River => (({ g with currentPhase := .Showdown }).showdown, true)
  | .Showdown => (g, true)

/-- `Game.checkAndAdvanceIfBettingComplete`: advance the phase if the
betting round is complete; the Bool reports whether it was. -/
def Game.checkAndAdvanceIfBettingComplete (g : Game) : Game × Bool :=
  if g.IsBettingRoundComplete then ((g.advanceToNextPhase).1, true) else (g, false)

/-- `Game.Call`: the current player matches the current bet (capped at
the stack), the pot grows, the turn advances and the round may
complete. -/
def Game.Call (g : Game) : Game × Bool :=
  let player := g.GetCurrentPlayer
  let callAmount := g.currentBet - player.bet
  let g :=
    if callAmount > 0 then
      let actualAmount := min callAmount player.chips
      { g.setPlayer g.currentPlayerPosition (player.Bet actualAmount) with
          pot := g.pot + actualAmount }
    else g
  let g := { g with actionsThisRound := g.actionsThisRound + 1 }
  (g.nextPlayer).checkAndAdvanceIfBettingComplete

/-- `Game.Raise`: the current player adds chips up to current bet plus
`raiseAmount` (capped at the stack); the current bet rises to the
player's wager if that now exceeds it. -/
def Game.Raise (g : Game) (raiseAmount : Int) : Game × Bool :=
  let player := g.GetCurrentPlayer
  let totalBet := g.currentBet + raiseAmount
  let betNeeded := totalBet - player.bet
  let actualAmount := min betNeeded player.chips
  let newPlayer := player.Bet actualAmount
  let g := { g.setPlayer g.currentPlayerPosition newPlayer with pot := g.pot + actualAmount }
  let g := if newPlayer.bet > g.currentBet then { g with currentBet := newPlayer.bet } else g
  let g := { g with actionsThisRound := g.actionsThisRound + 1 }
  (g.nextPlayer).checkAndAdvanceIfBettingComplete

/-- `Game.Check`: the action counter and turn advance, nothing else. -/
def Game.Check (g : Game) : Game × Bool :=
  let g := { g with actionsThisRound := g.actionsThisRound + 1 }
  (g.nextPlayer).checkAndAdvanceIfBettingComplete

/-- `Game.Fold`: the current player folds; if at most one active player
remains the hand ends early, otherwise the round may complete. -/
def Game.Fold (g : Game) : Game × Bool :=
  let player := g.GetCurrentPlayer
  let g := g.setPlayer g.currentPlayerPosition player.Fold
  let g := { g with actionsThisRound := g.actionsThisRound + 1 }
  let g := g.nextPlayer
  if g.GetActivePlayers.length ≤ 1 then (g.endHandEarly, true)
  else g.checkAndAdvanceIfBettingComplete

/-- `Game.IsHandComplete`: the hand is over at Showdown. -/
def Game.IsHandComplete (g : Game) : Bool :=
  g.currentPhase == .Showdown

/- ----------------------------------------------------------------
Method-style hand evaluator (`HandEvaluator` in the first half of
`src/engine/holdem/evaluator.go`).  Its `HandResult` carries a kicker
list and an `int` comparison value.  Go map iteration over
`getRankCounts` is modelled by iterating the distinct ranks in
first-occurrence order of the given card list; each property proved
below is independent of that order.
---------------------------------------------------------------- -/

namespace HandEvaluator

/-- Method-style `holdem.HandResult` (with kicker list). -/
structure HandResult where
  rank : HandRank
  description : String
  value : Int
  cards : List Card
  kickers : List Rank
deriving Repr, DecidableEq, Inhabited

/-- `HandEvaluator.rankValue`: ace 14 down to two 2, default 0. -/
def rankValue : Rank → Int
  | .ace => 14
  | .king => 13
  | .queen => 12
  | .jack => 11
  | .ten => 10
  | .nine => 9
  | .eight => 8
  | .seven => 7
  | .six => 6
  | .five => 5
  | .four => 4
  | .three => 3
  | .two => 2
  | _ => 0

/-- `HandEvaluator.valueToRank`: inverse of `rankValue`, default `RankNone`. -/
def valueToRank : Int → Rank
  | 14 => .ace
  | 13 => .king
  | 12 => .queen
  | 11 => .jack
  | 10 => .ten
  | 9 => .nine
  | 8 => .eight
  | 7 => .seven
  | 6 => .six
  | 5 => .five
  | 4 => .four
  | 3 => .three
  | 2 => .two
  | _ => .none

/-- Insertion into a rank-descending card list by
`HandEvaluator.rankValue` (models the method evaluator's `sort.Slice`
calls; only the multiset of ranks matters to every use below). -/
def insertCardDesc (c : Card) : List Card → List Card
  | [] => [c]
  | d :: ds =>
    if rankValue c.rank > rankValue d.rank then c :: d :: ds
    else d :: insertCardDesc c ds

/-- Sort cards descending by `HandEvaluator.rankValue` (the
`sort.Slice` calls of the method evaluator). -/
def sortCardsDesc (cards : List Card) : List Card :=
  cards.foldr insertCardDesc []

/-- Insertion into a rank-descending kicker list (models the
`sort.Slice` on kicker ranks). -/
def insertRankDesc (r : Rank) : List Rank → List Rank
  | [] => [r]
  | s :: ss =>
    if rankValue r > rankValue s then r :: s :: ss
    else s :: insertRankDesc r ss

/-- Sort ranks descending by `HandEvaluator.rankValue`. -/
def sortRanksDesc (ranks : List Rank) : List Rank :=
  ranks.foldr insertRankDesc []

/-- `HandEvaluator.isFlush`: at least five cards, all of the first
card's suit. -/
def isFlush (cards : List Card) : Bool :=
  if cards.length < 5 then false
  else
    match cards with
    | [] => false
    | c :: _ => cards.all (fun d => d.suit == c.suit)

/-- `HandEvaluator.isRoyalStraight`: the rank set contains A, K, Q, J, 10. -/
def isRoyalStraight (cards : List Card) : Bool :=
  [Rank.ace, Rank.king, Rank.queen, Rank.jack, Rank.ten].all
    (fun r => cards.any (fun c => c.rank == r))

/-- Distinct rank values of the cards, sorted ascending with
`sort.Ints` (collected in first-occurrence order, which the sort makes
irrelevant). -/
def distinctRankValuesAsc (cards : List Card) : List Int :=
  sortIntsAsc ((cards.map (fun c => rankValue c.rank)).dedup)

/-- `HandEvaluator.getStraightHighCard`: scan the length-5 windows of
the ascending distinct rank values from the top down for a run of
consecutive values (first+4 = last), else check the explicit ace-low
wheel, else `RankNone`. -/
def getStraightHighCard (cards : List Card) : Rank :=
  if cards.length < 5 then .none
  else
    let ranks := distinctRankValuesAsc cards
    let m := ranks.length
    let window := if 5 ≤ m then
        (List.range (m - 4)).reverse.find?
          (fun i => ranks.getD (i + 4) 0 - ranks.getD i 0 == 4)
      else Option.none
    match window with
    | some i => valueToRank (ranks.getD (i + 4) 0)
    | Option.none =>
      if ranks.contains 14 && ranks.contains 2 && ranks.contains 3 &&
          ranks.contains 4 && ranks.contains 5 then
        .five
      else .none

/-- Count of one rank among the cards (the method evaluator's
`getRankCounts` map queried at one key). -/
def countRank (cards : List Card) (r : Rank) : Nat :=
  (cards.filter (fun c => c.rank == r)).length

/-- Key set of `getRankCounts` in first-occurrence order. -/
def rankKeys (cards : List Card) : List Rank :=
  (cards.map (fun c => c.rank)).dedup

/-- `HandEvaluator.checkRoyalFlush`. -/
def checkRoyalFlush (cards : List Card) : Option HandResult :=
  if ¬isFlush cards then Option.none
  else if ¬isRoyalStraight cards then Option.none
  else
    some { rank := .RoyalFlush,
           description := "Royal Flush",
           value := 9000000,
           cards := cards,
           kickers := [] }

/-- `HandEvaluator.checkStraightFlush`. -/
def checkStraightFlush (cards : List Card) : Option HandResult :=
  if ¬isFlush cards then Option.none
  else
    let highCard := getStraightHighCard cards
    if highCard == Rank.none then Option.none
    else
      some { rank := .StraightFlush,
             description := "Straight Flush",
             value := 8000000 + rankValue highCard,
             cards := cards,
             kickers := [highCard] }

/-- The rank-count loop of `checkFourOfAKind`: remember the last rank
with count 4 and the last other present rank (the kicker). -/
def quadScan (cards : List Card) : Rank × Rank :=
  (rankKeys cards).foldl
    (fun qr r =>
      if countRank cards r == 4 then (r, qr.2)
      else if countRank cards r ≥ 1 then (qr.1, r)
      else qr)
    (Rank.none, Rank.none)

/-- `HandEvaluator.checkFourOfAKind`. -/
def checkFourOfAKind (cards : List Card) : Option HandResult :=
  let qk := quadScan cards
  if qk.1 == Rank.none then Option.none
  else
    some { rank := .FourOfAKind,
           description := "Four of a Kind",
           value := 7000000 + rankValue qk.1 * 1000 + rankValue qk.2,
           cards := cards,
           kickers := [qk.1, qk.2] }

/-- The rank-count loop of `checkFullHouse`: remember the last rank
with count 3 and the last rank with count 2. -/
def fullHouseScan (cards : List Card) : Rank × Rank :=
  (rankKeys cards).foldl
    (fun tp r =>
      if countRank cards r == 3 then (r, tp.2)
      else if countRank cards r == 2 then (tp.1, r)
      else tp)
    (Rank.none, Rank.none)

/-- `HandEvaluator.checkFullHouse`. -/
def checkFullHouse (cards : List Card) : Option HandResult :=
  let tp := fullHouseScan cards
  if tp.1 == Rank.none || tp.2 == Rank.none then Option.none
  else
    some { rank := .FullHouse,
           description := "Full House",
           value := 6000000 + rankValue tp.1 * 1000 + rankValue tp.2,
           cards := cards,
           kickers := [tp.1, tp.2] }

/-- The indexed kicker loop of `checkFlush`:
`value += rankValue(rank) * (1000 / (i + 1))`. -/
def flushValueLoop (i : Nat) : List Rank → Int
  | [] => 0
  | r :: rest => rankValue r * ((1000 / (i + 1) : Nat) : Int) + flushValueLoop (i + 1) rest

/-- `HandEvaluator.checkFlush`: all kicker ranks descending, summed
with weights `1000 / (i + 1)` on top of the 5000000 base. -/
def checkFlush (cards : List Card) : Option HandResult :=
  if ¬isFlush cards then Option.none
  else
    let kickers := sortRanksDesc (cards.map (fun c => c.rank))
    some { rank := .Flush,
           description := "Flush",
           value := 5000000 + flushValueLoop 0 kickers,
           cards := cards,
           kickers := kickers }

/-- `HandEvaluator.checkStraight`. -/
def checkStraight (cards : List Card) : Option HandResult :=
  let highCard := getStraightHighCard cards
  if highCard == Rank.none then Option.none
  else
    some { rank := .Straight,
           description := "Straight",
           value := 4000000 + rankValue highCard,
           cards := cards,
           kickers := [highCard] }

/-- The rank-count loop of `checkThreeOfAKind`: the last rank with
count 3, and every other present rank repeated `count` times. -/
def tripScan (cards : List Card) : Rank × List Rank :=
  (rankKeys cards).foldl
    (fun tk r =>
      if countRank cards r == 3 then (r, tk.2)
      else if countRank cards r ≥ 1 then
        (tk.1, tk.2 ++ List.replicate (countRank cards r) r)
      else tk)
    (Rank.none, [])

/-- The indexed kicker loop of `checkThreeOfAKind`: only the top two
kickers count, with weights `100 / (i + 1)`. -/
def tripsValueLoop (i : Nat) : List Rank → Int
  | [] => 0
  | r :: rest =>
    (if i < 2 then rankValue r * ((100 / (i + 1) : Nat) : Int) else 0) +
      tripsValueLoop (i + 1) rest

/-- `HandEvaluator.checkThreeOfAKind`. -/
def checkThreeOfAKind (cards : List Card) : Option HandResult :=
  let tk := tripScan cards
  if tk.1 == Rank.none then Option.none
  else
    let kickers := sortRanksDesc tk.2
    some { rank := .ThreeOfAKind,
           description := "Three of a Kind",
           value := 3000000 + rankValue tk.1 * 1000 + tripsValueLoop 0 kickers,
           cards := cards,
           kickers := tk.1 :: kickers }

/-- The rank-count loop of `checkTwoPair`: ranks with count 2 (in
iteration order) and the remaining present ranks repeated `count`
times. -/
def pairScan (cards : List Card) : List Rank × List Rank :=
  (rankKeys cards).foldl
    (fun pk r =>
      if countRank cards r == 2 then (pk.1 ++ [r], pk.2)
      else if countRank cards r ≥ 1 then
        (pk.1, pk.2 ++ List.replicate (countRank cards r) r)
      else pk)
    ([], [])

/-- `HandEvaluator.checkTwoPair`. -/
def checkTwoPair (cards : List Card) : Option HandResult :=
  let pk := pairScan cards
  if pk.1.length < 2 then Option.none
  else
    let pairs := sortRanksDesc pk.1
    let kickers := sortRanksDesc pk.2
    let value := 2000000 + rankValue (pairs.getD 0 .none) * 1000 +
      rankValue (pairs.getD 1 .none) * 100 +
      (match kickers with
       | [] => 0
       | k :: _ => rankValue k)
    some { rank := .TwoPair,
           description := "Two Pair",
           value := value,
           cards := cards,
           kickers := pairs ++ kickers }

/-- The rank-count loop of `checkOnePair`: the last rank with count 2,
and every other present rank repeated `count` times. -/
def onePairScan (cards : List Card) : Rank × List Rank :=
  (rankKeys cards).foldl
    (fun pk r =>
      if countRank cards r == 2 then (r, pk.2)
      else if countRank cards r ≥ 1 then
        (pk.1, pk.2 ++ List.replicate (countRank cards r) r)
      else pk)
    (Rank.none, [])

/-- The indexed kicker loop of `checkOnePair`: only the top three
kickers count, with weights `100 / (i + 1)`. -/
def pairValueLoop (i : Nat) : List Rank → Int
  | [] => 0
  | r :: rest =>
    (if i < 3 then rankValue r * ((100 / (i + 1) : Nat) : Int) else 0) +
      pairValueLoop (i + 1) rest

/-- `HandEvaluator.checkOnePair`. -/
def checkOnePair (cards : List Card) : Option HandResult :=
  let pk := onePairScan cards
  if pk.1 == Rank.none then Option.none
  else
    let kickers := sortRanksDesc pk.2
    some { rank := .OnePair,
           description := "One Pair",
           value := 1000000 + rankValue pk.1 * 1000 + pairValueLoop 0 kickers,
           cards := cards,
           kickers := pk.1 :: kickers }

/-- The indexed kicker loop of `checkHighCard`: only the top five cards
count, with weights `1000 / (i + 1)`. -/
def highCardValueLoop (i : Nat) : List Rank → Int
  | [] => 0
  | r :: rest =>
    (if i < 5 then rankValue r * ((1000 / (i + 1) : Nat) : Int) else 0) +
      highCardValueLoop (i + 1) rest

/-- `HandEvaluator.checkHighCard` (always succeeds). -/
def checkHighCard (cards : List Card) : HandResult :=
  let sortedCards := sortCardsDesc cards
  let kickers := sortedCards.map (fun c => c.rank)
  { rank := .HighCard,
    description := "High Card",
    value := highCardValueLoop 0 kickers,
    cards := cards,
    kickers := kickers }

/-- `HandEvaluator.compareKickers`: positional comparison, missing
entries valued 0. -/
def compareKickers (kickers1 kickers2 : List Rank) : Int :=
  let maxLen := max kickers1.length kickers2.length
  match (List.range maxLen).find?
      (fun i => rankValue (kickers1.getD i .none) ≠ rankValue (kickers2.getD i .none)) with
  | some i =>
    if rankValue (kickers1.getD i .none) > rankValue (kickers2.getD i .none) then 1 else -1
  | Option.none => 0

/-- `HandEvaluator.CompareHands`: category, then composite value, then
positional kickers. -/
def CompareHands (hand1 hand2 : HandResult) : Int :=
  if hand1.rank.val > hand2.rank.val then 1
  else if hand1.rank.val < hand2.rank.val then -1
  else if hand1.value > hand2.value then 1
  else if hand1.value < hand2.value then -1
  else compareKickers hand1.kickers hand2.kickers

/-- `HandEvaluator.evaluatePartialHand`: with fewer than five cards,
check four of a kind (from four cards), three of a kind (from three),
one pair (from two), then fall back to high card.  (Two pair, straights
and flushes are never checked on this path.) -/
def evaluatePartialHand (cards : List Card) : HandResult :=
  if cards.length == 0 then
    { rank := .HighCard,
      description := "No cards",
      value := 0,
      cards := cards,
      kickers := [] }
  else
    let sortedCards := sortCardsDesc cards
    let step1 : Option HandResult :=
      if cards.length ≥ 4 then checkFourOfAKind sortedCards else Option.none
    match step1 with
    | some r => r
    | Option.none =>
      let step2 : Option HandResult :=
        if cards.length ≥ 3 then checkThreeOfAKind sortedCards else Option.none
      match step2 with
      | some r => r
      | Option.none =>
        let step3 : Option HandResult :=
          if cards.length ≥ 2 then checkOnePair sortedCards else Option.none
        match step3 with
        | some r => r
        | Option.none => checkHighCard sortedCards

/-- `HandEvaluator.evaluateFiveCardHand`: sort descending and run the
checks from royal flush down to high card. -/
def evaluateFiveCardHand (cards : List Card) : HandResult :=
  if cards.length ≠ 5 then evaluatePartialHand cards
  else
    let sortedCards := sortCardsDesc cards
    match checkRoyalFlush sortedCards with
    | some r => r
    | Option.none =>
    match checkStraightFlush sortedCards with
    | some r => r
    | Option.none =>
    match checkFourOfAKind sortedCards with
    | some r => r
    | Option.none =>
    match checkFullHouse sortedCards with
    | some r => r
    | Option.none =>
    match checkFlush sortedCards with
    | some r => r
    | Option.none =>
    match checkStraight sortedCards with
    | some r => r
    | Option.none =>
    match checkThreeOfAKind sortedCards with
    | some r => r
    | Option.none =>
    match checkTwoPair sortedCards with
    | some r => r
    | Option.none =>
    match checkOnePair sortedCards with
    | some r => r
    | Option.none => checkHighCard sortedCards

/-- `HandEvaluator.findBestHand`: with fewer than five cards evaluate
the partial hand, otherwise keep the running best (under
`CompareHands`, strict improvement only) over all five-card
combinations.  The callback-based combination generator of the method
evaluator emits the same lexicographic-index order as
`generateCombinations`. -/
def findBestHand (cards : List Card) : HandResult :=
  if cards.length < 5 then evaluatePartialHand cards
  else
    (generateCombinations cards 5).foldl
      (fun best combo =>
        let hand := evaluateFiveCardHand combo
        if CompareHands hand best > 0 then hand else best)
      { rank := .HighCard,
        description := "",
        value := 0,
        cards := [],
        kickers := [] }

/-- `HandEvaluator.EvaluateHand`: nil-filter the hole and community
cards; degenerate zero result with fewer than 2 hole cards or fewer
than 2 valid cards; otherwise the best hand from the union. -/
def EvaluateHand (holeCards : List (Option Card)) (communityCards : List (Option Card)) :
    HandResult :=
  if holeCards.length < 2 then
    { rank := .HighCard,
      description := "No cards",
      value := 0,
      cards := [],
      kickers := [] }
  else
    let allCards := holeCards ++ communityCards
    let validCards := allCards.filterMap id
    if validCards.length < 2 then
      { rank := .HighCard,
        description := "Insufficient cards",
        value := 0,
        cards := validCards,
        kickers := [] }
    else findBestHand validCards

end HandEvaluator

/- ----------------------------------------------------------------
The seat-array `Game` variant with per-phase action logs (second half
of `src/unnamed/part_011`), called `GameS` here, and the action
validator of `src/unnamed/part_008` that operates on it.  Go passes
`*Game` and `IPlayer`, which may be nil; the validator's nil checks are
modelled by `Option` arguments.
---------------------------------------------------------------- -/

/-- Per-phase system action log (`holdem.SystemActions`). -/
structure SystemActions where
  preflop : List Action
  flop : List Action
  turn : List Action
  river : List Action
deriving Repr, DecidableEq, Inhabited

/-- Per-phase user action log (`holdem.UserActions`). -/
structure UserActions where
  preflop : List Action
  flop : List Action
  turn : List Action
  river : List Action
deriving Repr, DecidableEq, Inhabited

/-- The seat-array `holdem.Game` variant: ten seats (nil = empty),
deck, board, phase, blinds and the two action logs. -/
structure GameS where
  players : List (Option Player)
  deck : List Card
  communityCards : List Card
  currentPhase : GamePhase
  smallBlind : Int
  bigBlind : Int
  systemActions : SystemActions
  userActions : UserActions
deriving Repr, DecidableEq, Inhabited

/-- `Game.GetCurrentPlayer` of the seat-array variant: the first
non-empty, non-folded seat, nil when there is none. -/
def GameS.GetCurrentPlayer (g : GameS) : Option Player :=
  g.players.findSome?
    (fun op =>
      match op with
      | some p => if !p.folded then some p else Option.none
      | Option.none => Option.none)

/-- `holdem.ValidationErrorCode` (iota order). -/
inductive ValidationErrorCode where
  | ErrorInvalidPlayer
  | ErrorInvalidAction
  | ErrorInsufficientChips
  | ErrorInvalidAmount
  | ErrorOutOfTurn
  | ErrorGameState
  | ErrorActionNotAllowed
deriving Repr, DecidableEq, Inhabited

/-- `holdem.ValidationError`: message and code. -/
structure ValidationError where
  message : String
  code : ValidationErrorCode
deriving Repr, DecidableEq, Inhabited

/-- Go iota value of an `ActionType` (used by the unknown-action
message). -/
def ActionType.val : ActionType → Int
  | .ActionFold => 0
  | .ActionCheck => 1
  | .ActionCall => 2
  | .ActionRaise => 3
  | .ActionAllIn => 4
  | .ActionSystemShuffle => 5
  | .ActionSystemDealHole => 6
  | .ActionSystemDealFlop => 7
  | .ActionSystemDealTurn => 8
  | .ActionSystemDealRiver => 9
  | .ActionSystemPhaseChange => 10

namespace ActionValidator

/-- `validateBasicAction`: positive actor id, non-negative amount. -/
def validateBasicAction (action : Action) : Option ValidationError :=
  if action.playerID ≤ 0 then
    some { message := "Invalid player ID", code := .ErrorInvalidPlayer }
  else if action.amount < 0 then
    some { message := "Action amount cannot be negative", code := .ErrorInvalidAmount }
  else Option.none

/-- `validatePlayer`: non-nil, id matching the action, not folded. -/
def validatePlayer (player : Option Player) (actionPlayerID : Int) : Option ValidationError :=
  match player with
  | Option.none => some { message := "Player is nil", code := .ErrorInvalidPlayer }
  | some p =>
    if p.id ≠ actionPlayerID then
      some { message := "Player ID mismatch", code := .ErrorInvalidPlayer }
    else if p.folded then
      some { message := "Player has already folded", code := .ErrorActionNotAllowed }
    else Option.none

/-- `validateGameState`: non-nil game, not at showdown. -/
def validateGameState (game : Option GameS) : Option ValidationError :=
  match game with
  | Option.none => some { message := "Game is nil", code := .ErrorGameState }
  | some g =>
    if g.currentPhase == GamePhase.Showdown then
      some { message := "No actions allowed during showdown", code := .ErrorGameState }
    else Option.none

/-- `validatePlayerTurn`: the current player exists and is the actor. -/
def validatePlayerTurn (game : GameS) (player : Player) : Option ValidationError :=
  match game.GetCurrentPlayer with
  | Option.none => some { message := "No current player", code := .ErrorOutOfTurn }
  | some currentPlayer =>
    if currentPlayer.id ≠ player.id then
      some { message := "Not player's turn", code := .ErrorOutOfTurn }
    else Option.none

/-- `getCurrentPhaseActions`: the user action log of the current phase
(empty at showdown). -/
def getCurrentPhaseActions (game : GameS) : List Action :=
  match game.currentPhase with
  | .Preflop => game.userActions.preflop
  | .Flop => game.userActions.flop
  | .Turn => game.userActions.turn
  | .River => game.userActions.river
  | .Showdown => []

/-- `getCurrentBet`: the largest amount among the raise and call
actions logged for the current phase. -/
def getCurrentBet (game : GameS) : Int :=
  (getCurrentPhaseActions game).foldl
    (fun maxBet action =>
      if (action.type == ActionType.ActionRaise || action.type == ActionType.ActionCall) &&
          action.amount > maxBet then
        action.amount
      else maxBet)
    0

/-- The prev-bet scan of `GetMinRaiseAmount`: the amount of the last
logged raise strictly below the current bet (0 when there is none). -/
def prevBetScan (actions : List Action) (currentBet : Int) : Int :=
  actions.foldl
    (fun prevBet action =>
      if action.type == ActionType.ActionRaise && action.amount < currentBet then
        action.amount
      else prevBet)
    0

/-- `GetMinRaiseAmount`: call amount plus the big blind, except that
when the current bet is positive and some logged raise lies strictly
below it, the increment is current bet minus the last such raise. -/
def GetMinRaiseAmount (game : Option GameS) (player : Option Player) : Int :=
  match game, player with
  | some g, some p =>
    let currentBet := getCurrentBet g
    let callAmount := currentBet - p.bet
    let callAmount := if callAmount < 0 then 0 else callAmount
    let minRaise := g.bigBlind
    let minRaise :=
      if currentBet > 0 then
        let prevBet := prevBetScan (getCurrentPhaseActions g) currentBet
        if prevBet > 0 then currentBet - prevBet else minRaise
      else minRaise
    callAmount + minRaise
  | _, _ => 0

/-- `GetMaxRaiseAmount`: the player's whole stack (0 on nil inputs). -/
def GetMaxRaiseAmount (game : Option GameS) (player : Option Player) : Int :=
  match game, player with
  | some _, some p => p.chips
  | _, _ => 0

/-- `canPlayerRaise`: the stack covers the minimum raise. -/
def canPlayerRaise (game : GameS) (player : Player) : Bool :=
  player.chips ≥ GetMinRaiseAmount (some game) (some player)

/-- `GetAvailableActions`: fold always; check when nothing to call;
call when affordable; raise when the minimum raise is affordable;
all-in when chips remain.  Empty on nil inputs or a folded player. -/
def GetAvailableActions (game : Option GameS) (player : Option Player) : List ActionType :=
  match game, player with
  | some g, some p =>
    if p.folded then []
    else
      let currentBet := getCurrentBet g
      let callAmount := currentBet - p.bet
      let callAmount := if callAmount < 0 then 0 else callAmount
      let actions := [ActionType.ActionFold]
      let actions := if callAmount == 0 then actions ++ [ActionType.ActionCheck] else actions
      let actions :=
        if callAmount > 0 && p.chips ≥ callAmount then actions ++ [ActionType.ActionCall]
        else actions
      let actions := if canPlayerRaise g p then actions ++ [ActionType.ActionRaise] else actions
      let actions := if p.chips > 0 then actions ++ [ActionType.ActionAllIn] else actions
      actions
  | _, _ => []

/-- `validateFold`: amount must be 0. -/
def validateFold (game : GameS) (player : Player) (action : Action) : Option ValidationError :=
  if action.amount ≠ 0 then
    some { message := "Fold action should have amount 0", code := .ErrorInvalidAmount }
  else Option.none

/-- `validateCheck`: amount 0 and nothing to call. -/
def validateCheck (game : GameS) (player : Player) (action : Action) : Option ValidationError :=
  if action.amount ≠ 0 then
    some { message := "Check action should have amount 0", code := .ErrorInvalidAmount }
  else
    let currentBet := getCurrentBet game
    if currentBet > player.bet then
      some { message := "Cannot check when there is a bet to call", code := .ErrorActionNotAllowed }
    else Option.none

/-- `validateCall`: a positive call amount, declared exactly, and
affordable. -/
def validateCall (game : GameS) (player : Player) (action : Action) : Option ValidationError :=
  let currentBet := getCurrentBet game
  let callAmount := currentBet - player.bet
  if callAmount ≤ 0 then
    some { message := "No bet to call", code := .ErrorActionNotAllowed }
  else if action.amount ≠ callAmount then
    some { message := "Call amount should be " ++ toString callAmount ++ ", got " ++
             toString action.amount,
           code := .ErrorInvalidAmount }
  else if player.chips < callAmount then
    some { message := "Insufficient chips to call", code := .ErrorInsufficientChips }
  else Option.none

/-- `validateRaise`: positive declared raise, affordable together with
the call amount, and at least the minimum raise in total. -/
def validateRaise (game : GameS) (player : Player) (action : Action) : Option ValidationError :=
  if action.amount ≤ 0 then
    some { message := "Raise amount must be positive", code := .ErrorInvalidAmount }
  else
    let currentBet := getCurrentBet game
    let callAmount := currentBet - player.bet
    let callAmount := if callAmount < 0 then 0 else callAmount
    let totalRequired := callAmount + action.amount
    if player.chips < totalRequired then
      some { message := "Insufficient chips to raise", code := .ErrorInsufficientChips }
    else
      let minRaise := GetMinRaiseAmount (some game) (some player)
      if totalRequired < minRaise then
        some { message := "Raise amount too small. Minimum: " ++ toString minRaise ++
                 ", got: " ++ toString totalRequired,
               code := .ErrorInvalidAmount }
      else Option.none

/-- `validateAllIn`: the declared amount is the whole (positive) stack. -/
def validateAllIn (game : GameS) (player : Player) (action : Action) : Option ValidationError :=
  if action.amount ≠ player.chips then
    some { message := "All-in amount should be " ++ toString player.chips ++
             " (all chips), got " ++ toString action.amount,
           code := .ErrorInvalidAmount }
  else if player.chips ≤ 0 then
    some { message := "Player has no chips to go all-in", code := .ErrorInsufficientChips }
  else Option.none

/-- The per-kind dispatch of `ValidateAction` (after the basic, player,
game-state and turn checks have passed). -/
def validateByType (game : GameS) (player : Player) (action : Action) : Option ValidationError :=
  match action.type with
  | .ActionFold => validateFold game player action
  | .ActionCheck => validateCheck game player action
  | .ActionCall => validateCall game player action
  | .ActionRaise => validateRaise game player action
  | .ActionAllIn => validateAllIn game player action
  | t =>
    some { message := "Unknown action type: " ++ toString t.val, code := .ErrorInvalidAction }

/-- `ValidateAction`: basic, player, game-state and turn checks in
order, then the per-kind check; the first failure wins.  (In the two
arms marked unreachable the preceding check has already rejected a nil
input, so Go never reaches the later dereference.) -/
def ValidateAction (game : Option GameS) (player : Option Player) (action : Action) :
    Option ValidationError :=
  match validateBasicAction action with
  | some e => some e
  | Option.none =>
    match validatePlayer player action.playerID with
    | some e => some e
    | Option.none =>
      match player with
      | Option.none =>
        -- unreachable: validatePlayer rejects a nil player
        some { message := "Player is nil", code := .ErrorInvalidPlayer }
      | some p =>
        match validateGameState game with
        | some e => some e
        | Option.none =>
          match game with
          | Option.none =>
            -- unreachable: validateGameState rejects a nil game
            some { message := "Game is nil", code := .ErrorGameState }
          | some g =>
            match validatePlayerTurn g p with
            | some e => some e
            | Option.none => validateByType g p action

end ActionValidator

/- ----------------------------------------------------------------
Driver-level wrappers used by the claims: a hand-internal player
action, its application to the game (actions submitted after the hand
has completed are outside the hand and change nothing), and the chip
sums the conservation claim compares.
---------------------------------------------------------------- -/

/-- One of the four betting-action entry points of `game.go`. -/
inductive PlayerAction where
  | call
  | raise (amount : Int)
  | check
  | fold
deriving Repr, DecidableEq

/-- Apply one betting action (the Bool is the round-completion result
returned by the Go methods). -/
def Game.applyAction (g : Game) : PlayerAction → Game × Bool
  | .call => g.Call
  | .raise amount => g.Raise amount
  | .check => g.Check
  | .fold => g.Fold

/-- Apply an action "within the hand": once the hand has completed the
sequence is over, so later actions are ignored. -/
def Game.applyWithinHand (g : Game) (a : PlayerAction) : Game :=
  if g.IsHandComplete then g else (g.applyAction a).1

/-- Apply a sequence of within-hand actions. -/
def Game.applySeq (g : Game) (acts : List PlayerAction) : Game :=
  acts.foldl Game.applyWithinHand g

/-- Sum of all chip stacks. -/
def Game.totalChips (g : Game) : Int :=
  (g.players.map Player.chips).sum

/-- The quantity named by the conservation claim: sum over seats of
stack plus current-round wager, plus the pot. -/
def Game.claimedMoneySum (g : Game) : Int :=
  (g.players.map (fun p => p.chips + p.bet)).sum + g.pot

/- ----------------------------------------------------------------
State-threaded renderings of the four public validator entry points.
Go hands the validator pointers to the game and the player; a call
could in principle mutate through them.  The threaded forms make the
final state explicit at every exit; the purity claim is that it always
equals the input state and the result always equals the pure function
above.
---------------------------------------------------------------- -/

namespace ActionValidator

/-- State-threaded `ValidateAction`: result plus the game and player
state at exit. -/
def ValidateActionS (game : Option GameS) (player : Option Player) (action : Action) :
    Option ValidationError × Option GameS × Option Player :=
  match validateBasicAction action with
  | some e => (some e, game, player)
  | Option.none =>
    match validatePlayer player action.playerID with
    | some e => (some e, game, player)
    | Option.none =>
      match player with
      | Option.none =>
        (some { message := "Player is nil", code := .ErrorInvalidPlayer }, game, player)
      | some p =>
        match validateGameState game with
        | some e => (some e, game, player)
        | Option.none =>
          match game with
          | Option.none =>
            (some { message := "Game is nil", code := .ErrorGameState }, game, player)
          | some g =>
            match validatePlayerTurn g p with
            | some e => (some e, game, player)
            | Option.none => (validateByType g p action, game, player)

/-- State-threaded `GetAvailableActions`. -/
def GetAvailableActionsS (game : Option GameS) (player : Option Player) :
    List ActionType × Option GameS × Option Player :=
  (GetAvailableActions game player, game, player)

/-- State-threaded `GetMinRaiseAmount`. -/
def GetMinRaiseAmountS (game : Option GameS) (player : Option Player) :
    Int × Option GameS × Option Player :=
  (GetMinRaiseAmount game player, game, player)

/-- State-threaded `GetMaxRaiseAmount`. -/
def GetMaxRaiseAmountS (game : Option GameS) (player : Option Player) :
    Int × Option GameS × Option Player :=
  (GetMaxRaiseAmount game player, game, player)

end ActionValidator

/-- The conservation invariant actually maintained by the code: while
the hand is running, stacks plus pot equal the starting total `T` and
at least two seats are active (and the turn position is in range); once
the hand has completed, the pot has been paid out into the stacks (the
`Pot` field itself is stale), so the stacks alone sum to `T`. -/
def Game.MoneyInv (T : Int) (g : Game) : Prop :=
  2 ≤ g.players.length ∧
    (g.currentPhase = .Showdown → g.totalChips = T) ∧
    (g.currentPhase ≠ .Showdown →
      g.totalChips + g.pot = T ∧
        2 ≤ g.GetActivePlayers.length ∧
        g.currentPlayerPosition < g.players.length)

/-- The money- and activity-relevant projections of a game state: per
seat stack, wager and folded flag, plus pot, current bet, phase, and
the dealer, turn and blind data.  Card dealing leaves this whole view
unchanged. -/
def Game.moneyView (g : Game) :
    List Int × List Int × List Bool × Int × Int × GamePhase × Nat × Nat × Int × Int :=
  (g.players.map Player.chips, g.players.map Player.bet,
    g.players.map (fun p => p.folded), g.pot, g.currentBet, g.currentPhase,
    g.dealerPosition, g.currentPlayerPosition, g.smallBlind, g.bigBlind)

/- ----------------------------------------------------------------
Concrete states used by counterexamples and witnesses.
---------------------------------------------------------------- -/

/-- A seat-array game with big blind 20 whose preflop log holds an
opening raise to 20 re-raised to 60 (the minimum-raise scenario of the
claim, realised through the logged wagers the validator reads). -/
def c3GameTwoRaises : GameS :=
  { players := List.replicate 10 Option.none,
    deck := [],
    communityCards := [],
    currentPhase := .Preflop,
    smallBlind := 10,
    bigBlind := 20,
    systemActions := ⟨[], [], [], []⟩,
    userActions := ⟨[⟨1, .ActionRaise, 20⟩, ⟨2, .ActionRaise, 60⟩], [], [], []⟩ }

/-- A seat-array game with big blind 20 whose preflop log holds a
single raise to 60 (so the highest wager was set by a raise, but no
smaller logged raise exists). -/
def c3GameOneRaise : GameS :=
  { players := List.replicate 10 Option.none,
    deck := [],
    communityCards := [],
    currentPhase := .Preflop,
    smallBlind := 10,
    bigBlind := 20,
    systemActions := ⟨[], [], [], []⟩,
    userActions := ⟨[⟨1, .ActionRaise, 60⟩], [], [], []⟩ }

/-- A seat-array game with big blind 20 whose preflop log holds only a
call of 50 (a positive highest wager set without any raise). -/
def c3GameCallOnly : GameS :=
  { players := List.replicate 10 Option.none,
    deck := [],
    communityCards := [],
    currentPhase := .Preflop,
    smallBlind := 10,
    bigBlind := 20,
    systemActions := ⟨[], [], [], []⟩,
    userActions := ⟨[⟨1, .ActionCall, 50⟩], [], [], []⟩ }

/-- A player with no current wager and a 1000 stack, as used in the
minimum-raise scenario. -/
def c3Player : Player :=
  { id := 3, name := "C", cards := [], chips := 1000, bet := 0, totalBet := 0, folded := false }

/-- A mid-hand two-player game (phase Flop, pot 40, both active, seat 0
to act) for the early-fold scenario. -/
def c7FoldGame : Game :=
  { players :=
      [{ id := 0, name := "A", cards := [⟨.heart, .two⟩, ⟨.spade, .seven⟩], chips := 980,
         bet := 0, totalBet := 20, folded := false },
       { id := 1, name := "B", cards := [⟨.club, .ace⟩, ⟨.diamond, .ace⟩], chips := 980,
         bet := 0, totalBet := 20, folded := false }],
    deck := [],
    pot := 40,
    currentPhase := .Flop,
    currentPlayerPosition := 0,
    dealerPosition := 0,
    smallBlind := 5,
    bigBlind := 10,
    currentBet := 0,
    communityCards := [⟨.heart, .king⟩, ⟨.spade, .nine⟩, ⟨.diamond, .four⟩],
    actionsThisRound := 0 }

/-- A three-player river-complete game with pot 101 in which seats 0
and 1 hold identical pairs of aces (value-equal best hands) and seat 2
a losing high card: the split-pot scenario. -/
def c8SplitGame : Game :=
  { players :=
      [{ id := 0, name := "A", cards := [⟨.heart, .ace⟩, ⟨.diamond, .ace⟩], chips := 966,
         bet := 0, totalBet := 34, folded := false },
       { id := 1, name := "B", cards := [⟨.spade, .ace⟩, ⟨.club, .ace⟩], chips := 966,
         bet := 0, totalBet := 34, folded := false },
       { id := 2, name := "C", cards := [⟨.heart, .four⟩, ⟨.diamond, .five⟩], chips := 967,
         bet := 0, totalBet := 33, folded := false }],
    deck := [],
    pot := 101,
    currentPhase := .River,
    currentPlayerPosition := 1,
    dealerPosition := 0,
    smallBlind := 5,
    bigBlind := 10,
    currentBet := 0,
    communityCards :=
      [⟨.club, .two⟩, ⟨.diamond, .three⟩, ⟨.heart, .seven⟩, ⟨.spade, .eight⟩, ⟨.diamond, .jack⟩],
    actionsThisRound := 3 }

end Holdem

namespace Holdem

/- ----------------------------------------------------------------
Generic list helper lemmas.
---------------------------------------------------------------- -/

/-- Setting a slot to an element with the same `f`-image leaves the
`f`-image of the list unchanged. -/
theorem map_set_preserve {α β : Type} [Inhabited α] (l : List α) (n : Nat) (p : α) (f : α → β)
    (h : f p = f (l.getD n default)) : (l.set n p).map f = l.map f := by
  induction l generalizing n with
  | nil => simp
  | cons a l ih =>
    cases n with
    | zero => simp_all [List.getD]
    | succ m =>
      simp only [List.set, List.map_cons, List.cons.injEq, true_and]
      exact ih m (by simpa [List.getD] using h)

/-- Sum of the `f`-image after a `set` at an in-range index. -/
theorem sum_map_set {α : Type} [Inhabited α] (l : List α) (n : Nat) (p : α) (f : α → Int)
    (h : n < l.length) :
    ((l.set n p).map f).sum = (l.map f).sum - f (l.getD n default) + f p := by
  induction l generalizing n with
  | nil => simp at h
  | cons a l ih =>
    cases n with
    | zero => simp [List.getD]; ring
    | succ m =>
      have hm : m < l.length := by simpa using h
      simp only [List.set, List.map_cons, List.sum_cons, List.getD_cons_succ, ih m hm]
      ring

/-- `countP` of the image after a `set` whose new element satisfies the
predicate exactly when the old one did. -/
theorem countP_set_preserve {α : Type} [Inhabited α] (l : List α) (n : Nat) (p : α)
    (q : α → Bool) (h : q p = q (l.getD n default)) :
    (l.set n p).countP q = l.countP q := by
  induction l generalizing n with
  | nil => simp
  | cons a l ih =>
    cases n with
    | zero =>
      simp only [List.getD_cons_zero] at h
      simp [List.set, List.countP_cons, h]
    | succ m =>
      simp only [List.set, List.countP_cons, ih m (by simpa [List.getD] using h)]

/-- `countP` of the image after a `set` at an in-range index, in
general (stated over `Int` to avoid truncated subtraction). -/
theorem countP_set {α : Type} [Inhabited α] (l : List α) (n : Nat) (p : α)
    (q : α → Bool) (h : n < l.length) :
    (((l.set n p).countP q : Nat) : Int) =
      (l.countP q : Int) - (if q (l.getD n default) then 1 else 0) + (if q p then 1 else 0) := by
  induction l generalizing n with
  | nil => simp at h
  | cons a l ih =>
    cases n with
    | zero =>
      by_cases ha : q a <;> by_cases hp : q p <;>
        simp [List.set, List.countP_cons, List.getD, ha, hp]
    | succ m =>
      have hm : m < l.length := by simpa using h
      have ihm := ih m hm
      by_cases ha : q a <;> by_cases hd : q (l.getD m default) <;> by_cases hp : q p <;>
        simp only [List.set, List.countP_cons, List.getD_cons_succ, ha, hd, hp,
          if_true, if_false] at ihm ⊢ <;> push_cast at ihm ⊢ <;> omega

end Holdem

namespace Holdem

/- ----------------------------------------------------------------
C4.  Wheel straight.  Both evaluators classify A-2-3-4-5 (mixed suits)
as a Straight.  The method evaluator values it 4000005, strictly below
the 4000006 of a 6-high straight.  The function evaluator - the one
`Game.showdown` actually ranks hands with - computes its comparison
value by `calculateValue`, which still weights the ace at 14, so the
wheel is valued strictly ABOVE a 6-high straight there, contradicting
the specified "lowest straight" rule.
---------------------------------------------------------------- -/

/-- Claim C4 (status: code_bug).  At the failing input, the function
evaluator (`evaluateFiveCards` / `calculateValue`, used by showdown)
classifies both the wheel A-2-3-4-5 and the 6-high straight 6-5-4-3-2
as `Straight`, but assigns the wheel the LARGER comparison value
(4014790576316 > 4006790576316), because `calculateValue` keeps
rank-value 14 for the ace; the claim (and the spec) require the wheel
to rank strictly below every 6-high straight.  The method evaluator
(`HandEvaluator.evaluateFiveCardHand`) implements the claimed ordering
(4000005 < 4000006), which shows the intent. -/
theorem c4_wheel_value_bug :
    (evaluateFiveCards
        [⟨.spade, .ace⟩, ⟨.heart, .five⟩, ⟨.diamond, .four⟩, ⟨.club, .three⟩, ⟨.heart, .two⟩]).rank
      = .Straight ∧
    (evaluateFiveCards
        [⟨.spade, .six⟩, ⟨.heart, .five⟩, ⟨.diamond, .four⟩, ⟨.club, .three⟩, ⟨.heart, .two⟩]).rank
      = .Straight ∧
    (evaluateFiveCards
        [⟨.spade, .ace⟩, ⟨.heart, .five⟩, ⟨.diamond, .four⟩, ⟨.club, .three⟩, ⟨.heart, .two⟩]).value
      >
    (evaluateFiveCards
        [⟨.spade, .six⟩, ⟨.heart, .five⟩, ⟨.diamond, .four⟩, ⟨.club, .three⟩, ⟨.heart, .two⟩]).value ∧
    (HandEvaluator.evaluateFiveCardHand
        [⟨.spade, .ace⟩, ⟨.heart, .five⟩, ⟨.diamond, .four⟩, ⟨.club, .three⟩, ⟨.heart, .two⟩]).rank
      = .Straight ∧
    (HandEvaluator.evaluateFiveCardHand
        [⟨.spade, .ace⟩, ⟨.heart, .five⟩, ⟨.diamond, .four⟩, ⟨.club, .three⟩, ⟨.heart, .two⟩]).value
      = 4000005 ∧
    (HandEvaluator.evaluateFiveCardHand
        [⟨.spade, .six⟩, ⟨.heart, .five⟩, ⟨.diamond, .four⟩, ⟨.club, .three⟩, ⟨.heart, .two⟩]).value
      = 4000006 := by
  decide

/- ----------------------------------------------------------------
C5.  Kicker weighting.  The claim says a lexicographically greater
kicker vector forces a strictly greater composite value.  The
implemented weights 1000/(i+1) (method evaluator) are not separated
enough: the ace-high flush A-6-4-3-2 is valued 5019482, strictly below
the king-high flush K-Q-J-10-8 at 5026763, although its kicker vector
is lexicographically greater already at the first position.
---------------------------------------------------------------- -/

/-- Claim C5 (status: code_bug).  Two flushes, evaluated by the method
evaluator into the same category `Flush`; the first hand's descending
kickers (A,6,4,3,2) are lexicographically greater than the second's
(K,Q,J,10,8) - `compareKickers` itself returns 1 - yet its composite
value 5019482 is strictly SMALLER than the second's 5026763: a
lower-priority kicker difference outweighs the ace at the top
position, refuting the claimed monotonicity. -/
theorem c5_kicker_weighting_bug :
    (HandEvaluator.evaluateFiveCardHand
        [⟨.heart, .ace⟩, ⟨.heart, .six⟩, ⟨.heart, .four⟩, ⟨.heart, .three⟩, ⟨.heart, .two⟩]).rank
      = .Flush ∧
    (HandEvaluator.evaluateFiveCardHand
        [⟨.spade, .king⟩, ⟨.spade, .queen⟩, ⟨.spade, .jack⟩, ⟨.spade, .ten⟩, ⟨.spade, .eight⟩]).rank
      = .Flush ∧
    (HandEvaluator.evaluateFiveCardHand
        [⟨.heart, .ace⟩, ⟨.heart, .six⟩, ⟨.heart, .four⟩, ⟨.heart, .three⟩, ⟨.heart, .two⟩]).kickers
      = [.ace, .six, .four, .three, .two] ∧
    (HandEvaluator.evaluateFiveCardHand
        [⟨.spade, .king⟩, ⟨.spade, .queen⟩, ⟨.spade, .jack⟩, ⟨.spade, .ten⟩, ⟨.spade, .eight⟩]).kickers
      = [.king, .queen, .jack, .ten, .eight] ∧
    HandEvaluator.compareKickers [.ace, .six, .four, .three, .two]
      [.king, .queen, .jack, .ten, .eight] = 1 ∧
    (HandEvaluator.evaluateFiveCardHand
        [⟨.heart, .ace⟩, ⟨.heart, .six⟩, ⟨.heart, .four⟩, ⟨.heart, .three⟩, ⟨.heart, .two⟩]).value
      <
    (HandEvaluator.evaluateFiveCardHand
        [⟨.spade, .king⟩, ⟨.spade, .queen⟩, ⟨.spade, .jack⟩, ⟨.spade, .ten⟩, ⟨.spade, .eight⟩]).value := by
  decide

end Holdem

namespace Holdem

/- ----------------------------------------------------------------
Card dealing does not touch money, fold flags, phase or positions.
---------------------------------------------------------------- -/

/-- One hole-card deal step preserves the money view. -/
theorem dealOneTo_moneyView (g : Game) (j : Nat) : (g.dealOneTo j).moneyView = g.moneyView := by
  unfold Game.dealOneTo
  cases g.deck with
  | nil => rfl
  | cons c rest =>
    simp only [Game.moneyView, Game.setPlayer, Prod.mk.injEq]
    repeat' apply And.intro
    all_goals first
      | trivial
      | exact map_set_preserve _ _ _ _ rfl

/-- Folding hole-card deal steps preserves the money view. -/
theorem foldl_dealOneTo_moneyView (l : List Nat) :
    ∀ g : Game, ((l.foldl Game.dealOneTo g).moneyView = g.moneyView) := by
  induction l with
  | nil => intro g; rfl
  | cons j l ih => intro g; rw [List.foldl_cons, ih, dealOneTo_moneyView]

/-- `dealHoleCards` preserves the money view. -/
theorem dealHoleCards_moneyView (g : Game) : (g.dealHoleCards).moneyView = g.moneyView := by
  show ((List.range 2).foldl
    (fun g _ => (List.range g.players.length).foldl Game.dealOneTo g) g).moneyView = _
  have h2 : List.range 2 = [0, 1] := rfl
  rw [h2]
  simp only [List.foldl_cons, List.foldl_nil]
  rw [foldl_dealOneTo_moneyView, foldl_dealOneTo_moneyView]

/-- `dealHoleCards` preserves the stack list. -/
theorem dealHoleCards_chips (g : Game) :
    (g.dealHoleCards).players.map Player.chips = g.players.map Player.chips :=
  congrArg (fun t => t.1) (dealHoleCards_moneyView g)

/-- `dealHoleCards` preserves the wager list. -/
theorem dealHoleCards_bet (g : Game) :
    (g.dealHoleCards).players.map Player.bet = g.players.map Player.bet :=
  congrArg (fun t => t.2.1) (dealHoleCards_moneyView g)

/-- `dealHoleCards` preserves the folded-flag list. -/
theorem dealHoleCards_folded (g : Game) :
    (g.dealHoleCards).players.map (fun p => p.folded) = g.players.map (fun p => p.folded) :=
  congrArg (fun t => t.2.2.1) (dealHoleCards_moneyView g)

/-- `dealHoleCards` preserves the pot. -/
theorem dealHoleCards_pot (g : Game) : (g.dealHoleCards).pot = g.pot :=
  congrArg (fun t => t.2.2.2.1) (dealHoleCards_moneyView g)

/-- `dealHoleCards` preserves the current bet. -/
theorem dealHoleCards_currentBet (g : Game) : (g.dealHoleCards).currentBet = g.currentBet :=
  congrArg (fun t => t.2.2.2.2.1) (dealHoleCards_moneyView g)

/-- `dealHoleCards` preserves the phase. -/
theorem dealHoleCards_phase (g : Game) : (g.dealHoleCards).currentPhase = g.currentPhase :=
  congrArg (fun t => t.2.2.2.2.2.1) (dealHoleCards_moneyView g)

/-- `dealHoleCards` preserves the dealer position. -/
theorem dealHoleCards_dealer (g : Game) : (g.dealHoleCards).dealerPosition = g.dealerPosition :=
  congrArg (fun t => t.2.2.2.2.2.2.1) (dealHoleCards_moneyView g)

/-- `dealHoleCards` preserves the turn position. -/
theorem dealHoleCards_turnPos (g : Game) :
    (g.dealHoleCards).currentPlayerPosition = g.currentPlayerPosition :=
  congrArg (fun t => t.2.2.2.2.2.2.2.1) (dealHoleCards_moneyView g)

/-- `dealHoleCards` preserves the small blind. -/
theorem dealHoleCards_smallBlind (g : Game) : (g.dealHoleCards).smallBlind = g.smallBlind :=
  congrArg (fun t => t.2.2.2.2.2.2.2.2.1) (dealHoleCards_moneyView g)

/-- `dealHoleCards` preserves the big blind. -/
theorem dealHoleCards_bigBlind (g : Game) : (g.dealHoleCards).bigBlind = g.bigBlind :=
  congrArg (fun t => t.2.2.2.2.2.2.2.2.2) (dealHoleCards_moneyView g)

/-- `dealHoleCards` preserves the number of seats. -/
theorem dealHoleCards_length (g : Game) :
    (g.dealHoleCards).players.length = g.players.length := by
  have h := congrArg List.length (dealHoleCards_chips g)
  simpa using h

/- ----------------------------------------------------------------
C2.  Heads-up hand start.  The code puts the small blind on the seat
AFTER the dealer and the big blind two after - which heads-up is the
dealer itself.  So with seat A on the button, A posts the BIG blind
(10) and B the small blind (5), and the first seat to act is B, the
seat after the dealer.  Pot 15 and highest wager 10 do hold.
---------------------------------------------------------------- -/

/-- Claim C2, counterexample.  In the concrete heads-up game of the
claim (blinds 5/10, stacks 1000/1000, seat A = seat 0 on the button;
the post-shuffle deck is irrelevant to blinds, here empty), seat A
posts 10 - not the claimed small blind of 5 - and the first seat to
act is seat 1 (B), not A. -/
theorem c2_headsup_blinds_counterexample :
    ((((NewGame ["A", "B"] 5 10).StartHand []).players.getD 0 default).bet = 10 ∧
      ¬(((NewGame ["A", "B"] 5 10).StartHand []).players.getD 0 default).bet = 5) ∧
    ((((NewGame ["A", "B"] 5 10).StartHand []).players.getD 1 default).bet = 5 ∧
      ¬(((NewGame ["A", "B"] 5 10).StartHand []).players.getD 1 default).bet = 10) ∧
    (((NewGame ["A", "B"] 5 10).StartHand []).currentPlayerPosition = 1 ∧
      ¬((NewGame ["A", "B"] 5 10).StartHand []).currentPlayerPosition = 0) := by
  decide

/-- Claim C2, amended.  For the heads-up game with blinds 5/10, stacks
1000/1000 and seat A (index 0) holding the button, after `StartHand`
(with any shuffled deck): seat B (index 1, the seat after the button)
has posted the small blind 5, seat A (the button, reached as dealer+2
mod 2) has posted the big blind 10, the pot is 15, the highest wager is
10, and the first seat to act is seat B - the small-blind seat acts
first heads-up, but the code places the small blind on the non-button
seat. -/
theorem c2_headsup_start_amended (deck : List Card) :
    (((NewGame ["A", "B"] 5 10).StartHand deck).players.getD 0 default).bet = 10 ∧
    (((NewGame ["A", "B"] 5 10).StartHand deck).players.getD 0 default).chips = 990 ∧
    (((NewGame ["A", "B"] 5 10).StartHand deck).players.getD 1 default).bet = 5 ∧
    (((NewGame ["A", "B"] 5 10).StartHand deck).players.getD 1 default).chips = 995 ∧
    ((NewGame ["A", "B"] 5 10).StartHand deck).pot = 15 ∧
    ((NewGame ["A", "B"] 5 10).StartHand deck).currentBet = 10 ∧
    ((NewGame ["A", "B"] 5 10).StartHand deck).currentPlayerPosition = 1 := by
  set G := ((NewGame ["A", "B"] 5 10).resetForNewHand).createDeck deck with hG
  have hchips : G.dealHoleCards.players.map Player.chips = [1000, 1000] := by
    rw [dealHoleCards_chips]; rfl
  have hbet : G.dealHoleCards.players.map Player.bet = [0, 0] := by
    rw [dealHoleCards_bet]; rfl
  have hpot : G.dealHoleCards.pot = 0 := by rw [dealHoleCards_pot]; rfl
  have hdealer : G.dealHoleCards.dealerPosition = 0 := by rw [dealHoleCards_dealer]; rfl
  have hsb : G.dealHoleCards.smallBlind = 5 := by rw [dealHoleCards_smallBlind]; rfl
  have hbb : G.dealHoleCards.bigBlind = 10 := by rw [dealHoleCards_bigBlind]; rfl
  have hlen : G.dealHoleCards.players.length = 2 := by
    have h := congrArg List.length hchips
    simpa using h
  obtain ⟨q0, q1, hq⟩ := List.length_eq_two.mp hlen
  rw [hq] at hchips hbet
  simp only [List.map_cons, List.map_nil, List.cons.injEq, and_true] at hchips hbet
  obtain ⟨hq0c, hq1c⟩ := hchips
  obtain ⟨hq0b, hq1b⟩ := hbet
  have hSH : (NewGame ["A", "B"] 5 10).StartHand deck =
      (G.dealHoleCards.postBlinds).setFirstPlayerToAct := rfl
  rw [hSH]
  simp only [Game.postBlinds, Game.setFirstPlayerToAct, Game.setPlayer, hq, hdealer, hsb, hbb,
    hpot, List.length_cons, List.length_nil, Player.Bet, List.getD, List.set]
  norm_num [List.getD, hq0c, hq1c, hq0b, hq1b]

end Holdem

namespace Holdem

/- ----------------------------------------------------------------
C3.  Minimum raise.  `GetMinRaiseAmount` falls back to the big blind
unless the log contains a raise of positive amount strictly below the
current highest wager; a single raise that itself set the highest
wager therefore still yields call-amount plus big blind, not
call-amount plus the raise's increment.
---------------------------------------------------------------- -/

/-- The prev-bet scan never moves off its accumulator when the log
contains no raise action. -/
theorem prevBetScan_no_raise (acts : List Action) (currentBet : Int)
    (h : ∀ a ∈ acts, a.type ≠ .ActionRaise) :
    ActionValidator.prevBetScan acts currentBet = 0 := by
  unfold ActionValidator.prevBetScan
  induction acts with
  | nil => rfl
  | cons a acts ih =>
    have ha : a.type ≠ .ActionRaise := h a (List.mem_cons_self a acts)
    have hstep : (a.type == ActionType.ActionRaise) = false := by
      simpa using ha
    simp only [List.foldl_cons, hstep, Bool.false_and, if_neg Bool.false_ne_true]
    exact ih (fun b hb => h b (List.mem_cons_of_mem a hb))

/-- The prev-bet scan accumulator stays non-positive when every logged
raise below the current bet has non-positive amount. -/
theorem prevBetScan_step_nonpos (currentBet : Int) :
    ∀ (acts : List Action) (acc : Int), acc ≤ 0 →
      (∀ a ∈ acts, a.type = .ActionRaise → a.amount < currentBet → a.amount ≤ 0) →
      acts.foldl (fun prevBet action =>
        if action.type == ActionType.ActionRaise && action.amount < currentBet then
          action.amount
        else prevBet) acc ≤ 0 := by
  intro acts
  induction acts with
  | nil =>
    intro acc hacc _
    exact hacc
  | cons a acts ih =>
    intro acc hacc h
    rw [List.foldl_cons]
    apply ih
    · split
      · next hc =>
        simp only [Bool.and_eq_true, beq_iff_eq, decide_eq_true_eq] at hc
        exact h a (List.mem_cons_self a acts) hc.1 hc.2
      · exact hacc
    · intro b hb hr hlt
      exact h b (List.mem_cons_of_mem a hb) hr hlt

/-- The prev-bet scan returns a non-positive value whenever no logged
raise of positive amount lies strictly below the current bet, so the
`prevBet > 0` branch of `GetMinRaiseAmount` cannot fire. -/
theorem prevBetScan_nonpos (acts : List Action) (currentBet : Int)
    (h : ∀ a ∈ acts, a.type = .ActionRaise → a.amount < currentBet → a.amount ≤ 0) :
    ActionValidator.prevBetScan acts currentBet ≤ 0 :=
  prevBetScan_step_nonpos currentBet acts 0 le_rfl h

/-- Claim C3, counterexample.  In the game whose preflop log holds the
single raise to 60 (big blind 20), a prior raise did set the highest
wager 60, yet `GetMinRaiseAmount` for a player with wager 0 returns
call-amount + big blind = 80 - neither call-amount plus the increment
over the 20 big blind (100) nor call-amount plus the raise's full
increment over the logged wagers (120), refuting the claim's
"call-amount plus the most recent raise increment otherwise" rule. -/
theorem c3_min_raise_counterexample :
    (⟨1, .ActionRaise, 60⟩ : Action) ∈ ActionValidator.getCurrentPhaseActions c3GameOneRaise ∧
    ActionValidator.getCurrentBet c3GameOneRaise = 60 ∧
    ActionValidator.GetMinRaiseAmount (some c3GameOneRaise) (some c3Player) = 80 ∧
    ¬ActionValidator.GetMinRaiseAmount (some c3GameOneRaise) (some c3Player) = 100 ∧
    ¬ActionValidator.GetMinRaiseAmount (some c3GameOneRaise) (some c3Player) = 120 := by
  decide

/-- Claim C3, amended.  (a) Whenever the current-phase log contains no
raise of positive amount strictly below the current highest wager - in
particular for raise-free logs, a lone raise of any amount that itself
set the wager, or tied raises at the wager - `GetMinRaiseAmount` is
call-amount plus the big blind.  (b) When the current bet is positive
and the prev-bet scan finds a positive logged raise strictly below it,
the result is call-amount plus (current bet minus that last smaller
raise) - the most recent raise increment as reconstructed from the
log.  (c) In the claim's scenario
realised through logged wagers - big blind 20, an opening raise to 20
re-raised to 60 - the minimum total wager of the next re-raise is 100
for a player with current wager 0, and (d) `validateRaise` rejects any
affordable positive raise with total strictly below 100 with
`InvalidAmount`. -/
theorem c3_min_raise_amended :
    (∀ (g : GameS) (p : Player),
      (∀ a ∈ ActionValidator.getCurrentPhaseActions g,
        ¬(a.type = .ActionRaise ∧ 0 < a.amount ∧
          a.amount < ActionValidator.getCurrentBet g)) →
      ActionValidator.GetMinRaiseAmount (some g) (some p) =
        (if ActionValidator.getCurrentBet g - p.bet < 0 then 0
         else ActionValidator.getCurrentBet g - p.bet) + g.bigBlind) ∧
    (∀ (g : GameS) (p : Player),
      0 < ActionValidator.getCurrentBet g →
      0 < ActionValidator.prevBetScan (ActionValidator.getCurrentPhaseActions g)
            (ActionValidator.getCurrentBet g) →
      ActionValidator.GetMinRaiseAmount (some g) (some p) =
        (if ActionValidator.getCurrentBet g - p.bet < 0 then 0
         else ActionValidator.getCurrentBet g - p.bet) +
          (ActionValidator.getCurrentBet g -
            ActionValidator.prevBetScan (ActionValidator.getCurrentPhaseActions g)
              (ActionValidator.getCurrentBet g))) ∧
    (∀ p : Player, p.bet = 0 →
      ActionValidator.GetMinRaiseAmount (some c3GameTwoRaises) (some p) = 100) ∧
    (∀ (p : Player) (a : Action), p.bet = 0 → 0 < a.amount → 60 + a.amount < 100 →
      60 + a.amount ≤ p.chips →
      (ActionValidator.validateRaise c3GameTwoRaises p a).map ValidationError.code =
        some .ErrorInvalidAmount) := by
  refine ⟨?_, ?_, ?_, ?_⟩
  · intro g p hnone
    have hscan : ActionValidator.prevBetScan (ActionValidator.getCurrentPhaseActions g)
        (ActionValidator.getCurrentBet g) ≤ 0 :=
      prevBetScan_nonpos _ _ (fun a ha hr hlt =>
        le_of_not_lt (fun hgt => hnone a ha ⟨hr, hgt, hlt⟩))
    simp only [ActionValidator.GetMinRaiseAmount]
    by_cases hcb : ActionValidator.getCurrentBet g > 0
    · rw [if_pos hcb, if_neg (by omega : ¬ActionValidator.prevBetScan
        (ActionValidator.getCurrentPhaseActions g) (ActionValidator.getCurrentBet g) > 0)]
    · rw [if_neg hcb]
  · intro g p hcb hprev
    simp only [ActionValidator.GetMinRaiseAmount, if_pos hcb, if_pos hprev]
  · intro p hbet
    have hcb : ActionValidator.getCurrentBet c3GameTwoRaises = 60 := by decide
    have hprev : ActionValidator.prevBetScan
        (ActionValidator.getCurrentPhaseActions c3GameTwoRaises) 60 = 20 := by decide
    simp only [ActionValidator.GetMinRaiseAmount, hcb, hprev, hbet]
    norm_num
  · intro p a hbet hpos hsmall haff
    have hcb : ActionValidator.getCurrentBet c3GameTwoRaises = 60 := by decide
    have hmin : ActionValidator.GetMinRaiseAmount (some c3GameTwoRaises) (some p) = 100 := by
      have hprev : ActionValidator.prevBetScan
          (ActionValidator.getCurrentPhaseActions c3GameTwoRaises) 60 = 20 := by decide
      simp only [ActionValidator.GetMinRaiseAmount, hcb, hprev, hbet]
      norm_num
    simp only [ActionValidator.validateRaise, hcb, hbet, hmin]
    have h60 : ((if (60 : Int) - 0 < 0 then 0 else 60 - 0) : Int) = 60 := by norm_num
    rw [h60, if_neg (by omega : ¬a.amount ≤ 0), if_neg (by omega : ¬p.chips < 60 + a.amount),
      if_pos (by omega : 60 + a.amount < 100)]
    rfl

/-- Witness for the amended C3 theorem at concrete inputs: the
call-only log yields 50 + 20 = 70; the lone-raise-to-60 log falls under
the no-smaller-raise clause and yields 60 + 20 = 80; the two-raise log
yields 100; a re-raise attempt with total 99 is rejected as
`InvalidAmount`. -/
theorem c3_min_raise_amended_witness :
    ActionValidator.GetMinRaiseAmount (some c3GameCallOnly) (some c3Player) = 70 ∧
    ActionValidator.GetMinRaiseAmount (some c3GameOneRaise) (some c3Player) = 80 ∧
    ActionValidator.GetMinRaiseAmount (some c3GameTwoRaises) (some c3Player) = 100 ∧
    (ActionValidator.validateRaise c3GameTwoRaises c3Player ⟨3, .ActionRaise, 39⟩).map
        ValidationError.code = some .ErrorInvalidAmount := by
  refine ⟨?_, ?_, ?_, ?_⟩
  · have h := c3_min_raise_amended.1 c3GameCallOnly c3Player (by decide)
    simpa using h
  · have h := c3_min_raise_amended.1 c3GameOneRaise c3Player (by decide)
    simpa using h
  · exact c3_min_raise_amended.2.2.1 c3Player (by decide)
  · exact c3_min_raise_amended.2.2.2 c3Player ⟨3, .ActionRaise, 39⟩ (by decide) (by decide)
      (by decide) (by decide)

end Holdem

namespace Holdem

/- ----------------------------------------------------------------
C10.  Seat-zero player ids.  `NewGame` numbers players from 0, and
`validateBasicAction` rejects every action whose actor id is ≤ 0 with
`InvalidPlayer` before any other check, so the seat-0 player can never
submit a valid action: with its own id the basic check fails, with any
other id the id-match check fails.
---------------------------------------------------------------- -/

/-- Claim C10 (confirmed).  (a) The player at seat index 0 of `NewGame`
carries id 0.  (b) Every action whose `PlayerID` is 0 or negative is
rejected with the `InvalidPlayer` basic error, whatever the game,
player and remaining action fields.  (c) For a player whose id is 0, no
action whatsoever validates successfully. -/
theorem c10_seat_zero_invalid :
    (∀ (names : List String) (sb bb : Int), names ≠ [] →
      ((NewGame names sb bb).players.getD 0 default).id = 0) ∧
    (∀ (g : Option GameS) (p : Option Player) (a : Action), a.playerID ≤ 0 →
      ActionValidator.ValidateAction g p a =
        some { message := "Invalid player ID", code := .ErrorInvalidPlayer }) ∧
    (∀ (g : Option GameS) (p : Player) (a : Action), p.id = 0 →
      (ActionValidator.ValidateAction g (some p) a).isSome = true) := by
  refine ⟨?_, ?_, ?_⟩
  · intro names sb bb hne
    cases names with
    | nil => exact absurd rfl hne
    | cons n rest => simp [NewGame, NewPlayer, List.getD]
  · intro g p a h
    simp [ActionValidator.ValidateAction, ActionValidator.validateBasicAction, if_pos h]
  · intro g p a hid
    by_cases h1 : a.playerID ≤ 0
    · simp [ActionValidator.ValidateAction, ActionValidator.validateBasicAction, if_pos h1]
    · by_cases h2 : a.amount < 0
      · simp [ActionValidator.ValidateAction, ActionValidator.validateBasicAction, h1, h2]
      · have hmm : p.id ≠ a.playerID := by omega
        simp [ActionValidator.ValidateAction, ActionValidator.validateBasicAction,
          ActionValidator.validatePlayer, h1, h2, hmm]

/-- Witness for C10 at concrete inputs: the two-player game of the
tests, the seat-0 player, a well-formed check action declared with id 0
(rejected as `InvalidPlayer`) and one declared with id 5 (rejected for
the id mismatch). -/
theorem c10_seat_zero_invalid_witness :
    (((NewGame ["Alice", "Bob"] 5 10).players.getD 0 default).id = 0) ∧
    (ActionValidator.ValidateAction (some c3GameTwoRaises)
        (some ((NewGame ["Alice", "Bob"] 5 10).players.getD 0 default))
        ⟨0, .ActionCheck, 0⟩ =
      some { message := "Invalid player ID", code := .ErrorInvalidPlayer }) ∧
    ((ActionValidator.ValidateAction (some c3GameTwoRaises)
        (some ((NewGame ["Alice", "Bob"] 5 10).players.getD 0 default))
        ⟨5, .ActionCheck, 0⟩).isSome = true) :=
  ⟨c10_seat_zero_invalid.1 ["Alice", "Bob"] 5 10 (by decide),
    c10_seat_zero_invalid.2.1 (some c3GameTwoRaises)
      (some ((NewGame ["Alice", "Bob"] 5 10).players.getD 0 default))
      ⟨0, .ActionCheck, 0⟩ (by decide),
    c10_seat_zero_invalid.2.2 (some c3GameTwoRaises)
      ((NewGame ["Alice", "Bob"] 5 10).players.getD 0 default)
      ⟨5, .ActionCheck, 0⟩ (by decide)⟩

/- ----------------------------------------------------------------
C9.  Validator purity.  The validator entry points contain no writes;
their state-threaded renderings return the input game and player
unchanged at every exit, and the result agrees with the pure
functions.
---------------------------------------------------------------- -/

/-- Claim C9 (confirmed).  Running any of the four validator entry
points on any game, player and action returns exactly the pure result
together with the untouched game and player states - acceptance and
every rejection alike leave the state unchanged, and with it every
seat's stack, wager, folded flag and hole cards, the pot, the phase and
the turn data. -/
theorem c9_validator_purity (game : Option GameS) (player : Option Player) (action : Action) :
    ActionValidator.ValidateActionS game player action =
      (ActionValidator.ValidateAction game player action, game, player) ∧
    ActionValidator.GetAvailableActionsS game player =
      (ActionValidator.GetAvailableActions game player, game, player) ∧
    ActionValidator.GetMinRaiseAmountS game player =
      (ActionValidator.GetMinRaiseAmount game player, game, player) ∧
    ActionValidator.GetMaxRaiseAmountS game player =
      (ActionValidator.GetMaxRaiseAmount game player, game, player) := by
  refine ⟨?_, rfl, rfl, rfl⟩
  unfold ActionValidator.ValidateActionS ActionValidator.ValidateAction
  cases hb : ActionValidator.validateBasicAction action with
  | some e => simp [hb]
  | none =>
    simp only [hb]
    cases hp : ActionValidator.validatePlayer player action.playerID with
    | some e => simp [hp]
    | none =>
      simp only [hp]
      cases player with
      | none => rfl
      | some p =>
        cases hg : ActionValidator.validateGameState game with
        | some e => simp [hg]
        | none =>
          simp only [hg]
          cases game with
          | none => rfl
          | some g =>
            cases ht : ActionValidator.validatePlayerTurn g p with
            | some e => simp [ht]
            | none => simp [ht]

end Holdem

namespace Holdem

/- ----------------------------------------------------------------
C6.  Partial-hand evaluation.  `evaluatePartialHand` checks only four
of a kind, three of a kind, one pair and high card - never two pair
(nor straights or flushes, unreachable with fewer than five cards).
---------------------------------------------------------------- -/

/-- A successful `checkFourOfAKind` is categorized `FourOfAKind`. -/
theorem checkFourOfAKind_rank {cards : List Card} {r : HandEvaluator.HandResult}
    (h : HandEvaluator.checkFourOfAKind cards = some r) : r.rank = .FourOfAKind := by
  unfold HandEvaluator.checkFourOfAKind at h
  dsimp only at h
  split at h
  · exact absurd h (by simp)
  · simp only [Option.some.injEq] at h
    rw [← h]

/-- A successful `checkThreeOfAKind` is categorized `ThreeOfAKind`. -/
theorem checkThreeOfAKind_rank {cards : List Card} {r : HandEvaluator.HandResult}
    (h : HandEvaluator.checkThreeOfAKind cards = some r) : r.rank = .ThreeOfAKind := by
  unfold HandEvaluator.checkThreeOfAKind at h
  dsimp only at h
  split at h
  · exact absurd h (by simp)
  · simp only [Option.some.injEq] at h
    rw [← h]

/-- A successful `checkOnePair` is categorized `OnePair`. -/
theorem checkOnePair_rank {cards : List Card} {r : HandEvaluator.HandResult}
    (h : HandEvaluator.checkOnePair cards = some r) : r.rank = .OnePair := by
  unfold HandEvaluator.checkOnePair at h
  dsimp only at h
  split at h
  · exact absurd h (by simp)
  · simp only [Option.some.injEq] at h
    rw [← h]

/-- `evaluatePartialHand` only ever produces the four categories it
checks. -/
theorem evaluatePartialHand_rank (cards : List Card) :
    (HandEvaluator.evaluatePartialHand cards).rank = .HighCard ∨
    (HandEvaluator.evaluatePartialHand cards).rank = .OnePair ∨
    (HandEvaluator.evaluatePartialHand cards).rank = .ThreeOfAKind ∨
    (HandEvaluator.evaluatePartialHand cards).rank = .FourOfAKind := by
  unfold HandEvaluator.evaluatePartialHand
  dsimp only
  repeat' split
  all_goals first
    | exact Or.inl rfl
    | (rename_i hr
       split at hr <;> first
         | exact Or.inr (Or.inr (Or.inr (checkFourOfAKind_rank hr)))
         | exact Or.inr (Or.inr (Or.inl (checkThreeOfAKind_rank hr)))
         | exact Or.inr (Or.inl (checkOnePair_rank hr))
         | exact absurd hr (by simp))

/-- Every rank value is at most 14. -/
theorem rankValue_le_14 (r : Rank) : HandEvaluator.rankValue r ≤ 14 := by
  cases r <;> decide

/-- Every rank value is non-negative. -/
theorem rankValue_nonneg (r : Rank) : 0 ≤ HandEvaluator.rankValue r := by
  cases r <;> decide

/-- The high-card kicker loop is bounded by 14000 per remaining counted
position. -/
theorem highCardValueLoop_le (ks : List Rank) :
    ∀ i : Nat, HandEvaluator.highCardValueLoop i ks ≤ 14000 * ((5 - i : Nat) : Int) := by
  induction ks with
  | nil => intro i; simp only [HandEvaluator.highCardValueLoop]; positivity
  | cons r ks ih =>
    intro i
    have hterm : (if i < 5 then HandEvaluator.rankValue r * ((1000 / (i + 1) : Nat) : Int) else 0)
        ≤ 14000 * ((5 - i : Nat) : Int) - 14000 * ((5 - (i + 1) : Nat) : Int) := by
      by_cases hi : i < 5
      · have hw : ((1000 / (i + 1) : Nat) : Int) ≤ 1000 := by
          have := Nat.div_le_self 1000 (i + 1)
          omega
        have hw0 : (0 : Int) ≤ ((1000 / (i + 1) : Nat) : Int) := by positivity
        have hmul : HandEvaluator.rankValue r * ((1000 / (i + 1) : Nat) : Int) ≤ 14 * 1000 :=
          mul_le_mul (rankValue_le_14 r) hw hw0 (by norm_num)
        rw [if_pos hi]
        omega
      · rw [if_neg hi]
        omega
    have := ih (i + 1)
    calc HandEvaluator.highCardValueLoop i (r :: ks)
        = (if i < 5 then HandEvaluator.rankValue r * ((1000 / (i + 1) : Nat) : Int) else 0) +
            HandEvaluator.highCardValueLoop (i + 1) ks := rfl
      _ ≤ _ := by omega

/-- The composite value of any high-card result stays below 70000. -/
theorem checkHighCard_value_lt (cards : List Card) :
    (HandEvaluator.checkHighCard cards).value < 3000000 := by
  have h := highCardValueLoop_le
    ((HandEvaluator.sortCardsDesc cards).map (fun c => c.rank)) 0
  have : (HandEvaluator.checkHighCard cards).value =
      HandEvaluator.highCardValueLoop 0
        ((HandEvaluator.sortCardsDesc cards).map (fun c => c.rank)) := rfl
  omega

/-- Claim C6, counterexample.  Four valid cards holding two distinct
pairs (2-2-3-3): the rank-count scan does find both pairs, but
`evaluatePartialHand` never calls `checkTwoPair`, so `EvaluateHand`
returns a One-Pair result - not the best reachable partial structure
Two Pair that the claim requires. -/
theorem c6_two_pair_counterexample :
    (HandEvaluator.pairScan (HandEvaluator.sortCardsDesc
        [⟨.heart, .two⟩, ⟨.spade, .two⟩, ⟨.heart, .three⟩, ⟨.spade, .three⟩])).1.length = 2 ∧
    (HandEvaluator.EvaluateHand [some ⟨.heart, .two⟩, some ⟨.spade, .two⟩]
        [some ⟨.heart, .three⟩, some ⟨.spade, .three⟩]).rank = .OnePair ∧
    ¬(HandEvaluator.EvaluateHand [some ⟨.heart, .two⟩, some ⟨.spade, .two⟩]
        [some ⟨.heart, .three⟩, some ⟨.spade, .three⟩]).rank = .TwoPair := by
  decide

end Holdem

namespace Holdem

/-- One-step rank count on a cons cell. -/
theorem countRank_cons (d : Card) (t : List Card) (r : Rank) :
    HandEvaluator.countRank (d :: t) r =
      (if d.rank == r then 1 else 0) + HandEvaluator.countRank t r := by
  unfold HandEvaluator.countRank
  rw [List.filter_cons]
  split
  · simp only [List.length_cons]
    omega
  · omega

/-- Rank counts are invariant under the descending insertion step. -/
theorem countRank_insertCardDesc (x : Card) (l : List Card) (r : Rank) :
    HandEvaluator.countRank (HandEvaluator.insertCardDesc x l) r =
      HandEvaluator.countRank (x :: l) r := by
  induction l with
  | nil => rfl
  | cons d ds ih =>
    show HandEvaluator.countRank
      (if HandEvaluator.rankValue x.rank > HandEvaluator.rankValue d.rank
       then x :: d :: ds
       else d :: HandEvaluator.insertCardDesc x ds) r = _
    split
    · rfl
    · rw [countRank_cons d (HandEvaluator.insertCardDesc x ds) r, ih,
        countRank_cons x (d :: ds) r, countRank_cons d ds r,
        countRank_cons x ds r]
      omega

/-- Rank counts are invariant under the descending card sort. -/
theorem countRank_sortCardsDesc (l : List Card) (r : Rank) :
    HandEvaluator.countRank (HandEvaluator.sortCardsDesc l) r =
      HandEvaluator.countRank l r := by
  induction l with
  | nil => rfl
  | cons x t ih =>
    show HandEvaluator.countRank
      (HandEvaluator.insertCardDesc x (HandEvaluator.sortCardsDesc t)) r = _
    rw [countRank_insertCardDesc, countRank_cons x (HandEvaluator.sortCardsDesc t) r, ih,
      countRank_cons x t r]

/-- A rank count is positive exactly when a card of that rank is
present. -/
theorem countRank_pos_iff (cards : List Card) (r : Rank) :
    0 < HandEvaluator.countRank cards r ↔ ∃ c ∈ cards, c.rank = r := by
  unfold HandEvaluator.countRank
  rw [← List.countP_eq_length_filter, List.countP_pos_iff]
  simp

/-- A rank count never exceeds the number of cards. -/
theorem countRank_le_length (cards : List Card) (r : Rank) :
    HandEvaluator.countRank cards r ≤ cards.length :=
  List.length_filter_le _ _

/-- The rank-count key set holds exactly the ranks with positive
count. -/
theorem mem_rankKeys (cards : List Card) (k : Rank) :
    k ∈ HandEvaluator.rankKeys cards ↔ 0 < HandEvaluator.countRank cards k := by
  unfold HandEvaluator.rankKeys
  rw [List.mem_dedup, List.mem_map, countRank_pos_iff]

/-- The first component of the rank-count scans is moved only by keys
whose count equals the target: with no such key it keeps its initial
value. -/
theorem scanFst_unchanged {β : Type} (cards : List Card) (K : Nat)
    (f g : Rank × β → Rank → β) :
    ∀ (keys : List Rank) (acc : Rank × β),
      (∀ r ∈ keys, HandEvaluator.countRank cards r ≠ K) →
      (keys.foldl (fun a r =>
        if HandEvaluator.countRank cards r == K then (r, f a r)
        else if HandEvaluator.countRank cards r ≥ 1 then (a.1, g a r)
        else a) acc).1 = acc.1 := by
  intro keys
  induction keys with
  | nil =>
    intro acc _
    rfl
  | cons k keys ih =>
    intro acc h
    rw [List.foldl_cons]
    have hk : HandEvaluator.countRank cards k ≠ K := h k (List.mem_cons_self k keys)
    have htail : ∀ r ∈ keys, HandEvaluator.countRank cards r ≠ K :=
      fun r hr => h r (List.mem_cons_of_mem k hr)
    have hbeq : (HandEvaluator.countRank cards k == K) = false := by
      simpa using hk
    rw [hbeq]
    by_cases hge : HandEvaluator.countRank cards k ≥ 1
    · rw [if_neg (by simp), if_pos hge]
      exact ih _ htail
    · rw [if_neg (by simp), if_neg hge]
      exact ih _ htail

/-- The first component of the rank-count scans ends on a real rank
whenever some key attains the target count and every key that does is a
real rank. -/
theorem scanFst_ne_none {β : Type} (cards : List Card) (K : Nat)
    (f g : Rank × β → Rank → β) :
    ∀ (keys : List Rank) (acc : Rank × β),
      (∀ r ∈ keys, HandEvaluator.countRank cards r = K → r ≠ Rank.none) →
      (acc.1 ≠ Rank.none ∨ ∃ r ∈ keys, HandEvaluator.countRank cards r = K) →
      (keys.foldl (fun a r =>
        if HandEvaluator.countRank cards r == K then (r, f a r)
        else if HandEvaluator.countRank cards r ≥ 1 then (a.1, g a r)
        else a) acc).1 ≠ Rank.none := by
  intro keys
  induction keys with
  | nil =>
    intro acc _ hor
    rcases hor with hacc | ⟨r, hr, -⟩
    · exact hacc
    · exact absurd hr (List.not_mem_nil r)
  | cons k keys ih =>
    intro acc h hor
    rw [List.foldl_cons]
    have htail : ∀ r ∈ keys, HandEvaluator.countRank cards r = K → r ≠ Rank.none :=
      fun r hr => h r (List.mem_cons_of_mem k hr)
    by_cases hk : HandEvaluator.countRank cards k = K
    · have hbeq : (HandEvaluator.countRank cards k == K) = true := by
        simpa using hk
      rw [hbeq, if_pos rfl]
      exact ih _ htail (Or.inl (h k (List.mem_cons_self k keys) hk))
    · have hbeq : (HandEvaluator.countRank cards k == K) = false := by
        simpa using hk
      rw [hbeq]
      have hor2 : acc.1 ≠ Rank.none ∨ ∃ r ∈ keys, HandEvaluator.countRank cards r = K := by
        rcases hor with hacc | ⟨r, hr, hcnt⟩
        · exact Or.inl hacc
        · rcases List.mem_cons.mp hr with he | hr2
          · exact absurd (he ▸ hcnt) hk
          · exact Or.inr ⟨r, hr2, hcnt⟩
      by_cases hge : HandEvaluator.countRank cards k ≥ 1
      · rw [if_neg (by simp), if_pos hge]
        exact ih _ htail hor2
      · rw [if_neg (by simp), if_neg hge]
        exact ih _ htail hor2

/-- `checkFourOfAKind` fails when no rank counts four. -/
theorem checkFourOfAKind_eq_none (cards : List Card)
    (h : ∀ k ∈ HandEvaluator.rankKeys cards, HandEvaluator.countRank cards k ≠ 4) :
    HandEvaluator.checkFourOfAKind cards = Option.none := by
  have h1 : (HandEvaluator.quadScan cards).1 = Rank.none :=
    scanFst_unchanged cards 4 (fun a r => a.2) (fun a r => r)
      (HandEvaluator.rankKeys cards) (Rank.none, Rank.none) h
  unfold HandEvaluator.checkFourOfAKind
  dsimp only
  rw [if_pos (by simp [h1])]

/-- `checkFourOfAKind` succeeds when a real rank counts four. -/
theorem checkFourOfAKind_some (cards : List Card)
    (hreal : ∀ k ∈ HandEvaluator.rankKeys cards,
      HandEvaluator.countRank cards k = 4 → k ≠ Rank.none)
    (hex : ∃ k ∈ HandEvaluator.rankKeys cards, HandEvaluator.countRank cards k = 4) :
    ∃ res, HandEvaluator.checkFourOfAKind cards = some res ∧ res.rank = .FourOfAKind := by
  have h1 : (HandEvaluator.quadScan cards).1 ≠ Rank.none :=
    scanFst_ne_none cards 4 (fun a r => a.2) (fun a r => r)
      (HandEvaluator.rankKeys cards) (Rank.none, Rank.none) hreal (Or.inr hex)
  unfold HandEvaluator.checkFourOfAKind
  dsimp only
  rw [if_neg (by simpa using h1)]
  exact ⟨_, rfl, rfl⟩

/-- `checkThreeOfAKind` fails when no rank counts three. -/
theorem checkThreeOfAKind_eq_none (cards : List Card)
    (h : ∀ k ∈ HandEvaluator.rankKeys cards, HandEvaluator.countRank cards k ≠ 3) :
    HandEvaluator.checkThreeOfAKind cards = Option.none := by
  have h1 : (HandEvaluator.tripScan cards).1 = Rank.none :=
    scanFst_unchanged cards 3 (fun a r => a.2)
      (fun a r => a.2 ++ List.replicate (HandEvaluator.countRank cards r) r)
      (HandEvaluator.rankKeys cards) (Rank.none, []) h
  unfold HandEvaluator.checkThreeOfAKind
  dsimp only
  rw [if_pos (by simp [h1])]

/-- `checkThreeOfAKind` succeeds when a real rank counts three. -/
theorem checkThreeOfAKind_some (cards : List Card)
    (hreal : ∀ k ∈ HandEvaluator.rankKeys cards,
      HandEvaluator.countRank cards k = 3 → k ≠ Rank.none)
    (hex : ∃ k ∈ HandEvaluator.rankKeys cards, HandEvaluator.countRank cards k = 3) :
    ∃ res, HandEvaluator.checkThreeOfAKind cards = some res ∧ res.rank = .ThreeOfAKind := by
  have h1 : (HandEvaluator.tripScan cards).1 ≠ Rank.none :=
    scanFst_ne_none cards 3 (fun a r => a.2)
      (fun a r => a.2 ++ List.replicate (HandEvaluator.countRank cards r) r)
      (HandEvaluator.rankKeys cards) (Rank.none, []) hreal (Or.inr hex)
  unfold HandEvaluator.checkThreeOfAKind
  dsimp only
  rw [if_neg (by simpa using h1)]
  exact ⟨_, rfl, rfl⟩

/-- `checkOnePair` fails when no rank counts two. -/
theorem checkOnePair_eq_none (cards : List Card)
    (h : ∀ k ∈ HandEvaluator.rankKeys cards, HandEvaluator.countRank cards k ≠ 2) :
    HandEvaluator.checkOnePair cards = Option.none := by
  have h1 : (HandEvaluator.onePairScan cards).1 = Rank.none :=
    scanFst_unchanged cards 2 (fun a r => a.2)
      (fun a r => a.2 ++ List.replicate (HandEvaluator.countRank cards r) r)
      (HandEvaluator.rankKeys cards) (Rank.none, []) h
  unfold HandEvaluator.checkOnePair
  dsimp only
  rw [if_pos (by simp [h1])]

/-- `checkOnePair` succeeds when a real rank counts two. -/
theorem checkOnePair_some (cards : List Card)
    (hreal : ∀ k ∈ HandEvaluator.rankKeys cards,
      HandEvaluator.countRank cards k = 2 → k ≠ Rank.none)
    (hex : ∃ k ∈ HandEvaluator.rankKeys cards, HandEvaluator.countRank cards k = 2) :
    ∃ res, HandEvaluator.checkOnePair cards = some res ∧ res.rank = .OnePair := by
  have h1 : (HandEvaluator.onePairScan cards).1 ≠ Rank.none :=
    scanFst_ne_none cards 2 (fun a r => a.2)
      (fun a r => a.2 ++ List.replicate (HandEvaluator.countRank cards r) r)
      (HandEvaluator.rankKeys cards) (Rank.none, []) hreal (Or.inr hex)
  unfold HandEvaluator.checkOnePair
  dsimp only
  rw [if_neg (by simpa using h1)]
  exact ⟨_, rfl, rfl⟩

/-- For 2-4 real-ranked cards the partial evaluator returns the best
structure among the four categories it checks, decided by the maximal
rank multiplicity: a count of four gives four of a kind, else a count
of three gives trips, else a pair gives one pair, else high card. -/
theorem evaluatePartialHand_best (c : List Card)
    (h2 : 2 ≤ c.length) (h5 : c.length < 5)
    (hreal : ∀ x ∈ c, x.rank ≠ Rank.none) :
    ((∃ r, HandEvaluator.countRank c r = 4) →
      (HandEvaluator.evaluatePartialHand c).rank = .FourOfAKind) ∧
    ((∀ r, HandEvaluator.countRank c r ≤ 3) →
      (∃ r, HandEvaluator.countRank c r = 3) →
      (HandEvaluator.evaluatePartialHand c).rank = .ThreeOfAKind) ∧
    ((∀ r, HandEvaluator.countRank c r ≤ 2) →
      (∃ r, HandEvaluator.countRank c r = 2) →
      (HandEvaluator.evaluatePartialHand c).rank = .OnePair) ∧
    ((∀ r, HandEvaluator.countRank c r ≤ 1) →
      (HandEvaluator.evaluatePartialHand c).rank = .HighCard) := by
  classical
  have hcnt : ∀ r, HandEvaluator.countRank (HandEvaluator.sortCardsDesc c) r =
      HandEvaluator.countRank c r := fun r => countRank_sortCardsDesc c r
  have hkreal : ∀ k ∈ HandEvaluator.rankKeys (HandEvaluator.sortCardsDesc c),
      k ≠ Rank.none := by
    intro k hk
    have hpos : 0 < HandEvaluator.countRank c k := by
      have := (mem_rankKeys _ k).mp hk
      rw [hcnt] at this
      exact this
    obtain ⟨x, hx, hxr⟩ := (countRank_pos_iff c k).mp hpos
    rw [← hxr]
    exact hreal x hx
  have h0 : ¬((c.length == 0) = true) := by
    simp only [beq_iff_eq]
    omega
  refine ⟨?_, ?_, ?_, ?_⟩
  · rintro ⟨r, hr4⟩
    have hrk : r ∈ HandEvaluator.rankKeys (HandEvaluator.sortCardsDesc c) := by
      rw [mem_rankKeys, hcnt, hr4]
      omega
    obtain ⟨res, hres, hrank⟩ := checkFourOfAKind_some (HandEvaluator.sortCardsDesc c)
      (fun k hk _ => hkreal k hk)
      ⟨r, hrk, by rw [hcnt]; exact hr4⟩
    have hge4 : c.length ≥ 4 := by
      have := countRank_le_length c r
      omega
    unfold HandEvaluator.evaluatePartialHand
    dsimp only
    rw [if_neg h0, if_pos hge4, hres]
    dsimp only
    exact hrank
  · intro hle3
    rintro ⟨r, hr3⟩
    have hrk : r ∈ HandEvaluator.rankKeys (HandEvaluator.sortCardsDesc c) := by
      rw [mem_rankKeys, hcnt, hr3]
      omega
    have hnone4 : (if c.length ≥ 4
        then HandEvaluator.checkFourOfAKind (HandEvaluator.sortCardsDesc c)
        else Option.none) = Option.none := by
      split
      · exact checkFourOfAKind_eq_none _ (fun k _ => by
          rw [hcnt]
          have := hle3 k
          omega)
      · rfl
    obtain ⟨res, hres, hrank⟩ := checkThreeOfAKind_some (HandEvaluator.sortCardsDesc c)
      (fun k hk _ => hkreal k hk)
      ⟨r, hrk, by rw [hcnt]; exact hr3⟩
    have hge3 : c.length ≥ 3 := by
      have := countRank_le_length c r
      omega
    unfold HandEvaluator.evaluatePartialHand
    dsimp only
    rw [if_neg h0, hnone4, if_pos hge3, hres]
    dsimp only
    exact hrank
  · intro hle2
    rintro ⟨r, hr2⟩
    have hrk : r ∈ HandEvaluator.rankKeys (HandEvaluator.sortCardsDesc c) := by
      rw [mem_rankKeys, hcnt, hr2]
      omega
    have hnone4 : (if c.length ≥ 4
        then HandEvaluator.checkFourOfAKind (HandEvaluator.sortCardsDesc c)
        else Option.none) = Option.none := by
      split
      · exact checkFourOfAKind_eq_none _ (fun k _ => by
          rw [hcnt]
          have := hle2 k
          omega)
      · rfl
    have hnone3 : (if c.length ≥ 3
        then HandEvaluator.checkThreeOfAKind (HandEvaluator.sortCardsDesc c)
        else Option.none) = Option.none := by
      split
      · exact checkThreeOfAKind_eq_none _ (fun k _ => by
          rw [hcnt]
          have := hle2 k
          omega)
      · rfl
    obtain ⟨res, hres, hrank⟩ := checkOnePair_some (HandEvaluator.sortCardsDesc c)
      (fun k hk _ => hkreal k hk)
      ⟨r, hrk, by rw [hcnt]; exact hr2⟩
    unfold HandEvaluator.evaluatePartialHand
    dsimp only
    rw [if_neg h0, hnone4, hnone3, if_pos h2, hres]
    dsimp only
    exact hrank
  · intro hle1
    have hnone4 : (if c.length ≥ 4
        then HandEvaluator.checkFourOfAKind (HandEvaluator.sortCardsDesc c)
        else Option.none) = Option.none := by
      split
      · exact checkFourOfAKind_eq_none _ (fun k _ => by
          rw [hcnt]
          have := hle1 k
          omega)
      · rfl
    have hnone3 : (if c.length ≥ 3
        then HandEvaluator.checkThreeOfAKind (HandEvaluator.sortCardsDesc c)
        else Option.none) = Option.none := by
      split
      · exact checkThreeOfAKind_eq_none _ (fun k _ => by
          rw [hcnt]
          have := hle1 k
          omega)
      · rfl
    have hnone2 : (if c.length ≥ 2
        then HandEvaluator.checkOnePair (HandEvaluator.sortCardsDesc c)
        else Option.none) = Option.none := by
      split
      · exact checkOnePair_eq_none _ (fun k _ => by
          rw [hcnt]
          have := hle1 k
          omega)
      · next hcon => exact absurd h2 hcon
    unfold HandEvaluator.evaluatePartialHand
    dsimp only
    rw [if_neg h0, hnone4, hnone3, hnone2]
    rfl

/-- Claim C6, amended.  (I) With 2 ≤ n < 5 valid cards the result's
category always lies among the four the partial path checks - four of a
kind, three of a kind, one pair, high card; two pair (and straights and
flushes) are never produced.  (II) For real-ranked cards the evaluator
returns the BEST structure among those four categories, decided by the
maximal rank multiplicity: any rank appearing four times gives Four of
a Kind; else any rank appearing three times gives Three of a Kind; else
any pair gives One Pair; else High Card.  (III) In particular three
cards of equal (real) rank yield a Three-of-a-Kind result with the
positive value 3000000 + 1000·rank, which strictly outranks every
high-card result - not a degenerate zero-value result. -/
theorem c6_partial_hand_amended :
    (∀ (holeCards communityCards : List (Option Card)),
      2 ≤ ((holeCards ++ communityCards).filterMap id).length →
      ((holeCards ++ communityCards).filterMap id).length < 5 →
      ((HandEvaluator.EvaluateHand holeCards communityCards).rank = .HighCard ∨
       (HandEvaluator.EvaluateHand holeCards communityCards).rank = .OnePair ∨
       (HandEvaluator.EvaluateHand holeCards communityCards).rank = .ThreeOfAKind ∨
       (HandEvaluator.EvaluateHand holeCards communityCards).rank = .FourOfAKind)) ∧
    (∀ (holeCards communityCards : List (Option Card)),
      2 ≤ holeCards.length →
      2 ≤ ((holeCards ++ communityCards).filterMap id).length →
      ((holeCards ++ communityCards).filterMap id).length < 5 →
      (∀ x ∈ (holeCards ++ communityCards).filterMap id, x.rank ≠ Rank.none) →
      ((∃ r, HandEvaluator.countRank ((holeCards ++ communityCards).filterMap id) r = 4) →
        (HandEvaluator.EvaluateHand holeCards communityCards).rank = .FourOfAKind) ∧
      ((∀ r, HandEvaluator.countRank ((holeCards ++ communityCards).filterMap id) r ≤ 3) →
        (∃ r, HandEvaluator.countRank ((holeCards ++ communityCards).filterMap id) r = 3) →
        (HandEvaluator.EvaluateHand holeCards communityCards).rank = .ThreeOfAKind) ∧
      ((∀ r, HandEvaluator.countRank ((holeCards ++ communityCards).filterMap id) r ≤ 2) →
        (∃ r, HandEvaluator.countRank ((holeCards ++ communityCards).filterMap id) r = 2) →
        (HandEvaluator.EvaluateHand holeCards communityCards).rank = .OnePair) ∧
      ((∀ r, HandEvaluator.countRank ((holeCards ++ communityCards).filterMap id) r ≤ 1) →
        (HandEvaluator.EvaluateHand holeCards communityCards).rank = .HighCard)) ∧
    (∀ (r : Rank) (s1 s2 s3 : Suit), r ≠ .none →
      (HandEvaluator.EvaluateHand [some ⟨s1, r⟩, some ⟨s2, r⟩] [some ⟨s3, r⟩]).rank =
        .ThreeOfAKind ∧
      (HandEvaluator.EvaluateHand [some ⟨s1, r⟩, some ⟨s2, r⟩] [some ⟨s3, r⟩]).value =
        3000000 + HandEvaluator.rankValue r * 1000 ∧
      0 < (HandEvaluator.EvaluateHand [some ⟨s1, r⟩, some ⟨s2, r⟩] [some ⟨s3, r⟩]).value ∧
      (∀ cards : List Card, (HandEvaluator.checkHighCard cards).value <
        (HandEvaluator.EvaluateHand [some ⟨s1, r⟩, some ⟨s2, r⟩] [some ⟨s3, r⟩]).value)) := by
  refine ⟨?_, ?_, ?_⟩
  · intro hole cc h2 h5
    by_cases hh : hole.length < 2
    · left
      simp [HandEvaluator.EvaluateHand, hh]
    · have hv2 : ¬((hole ++ cc).filterMap id).length < 2 := by omega
      have heq : HandEvaluator.EvaluateHand hole cc =
          HandEvaluator.evaluatePartialHand ((hole ++ cc).filterMap id) := by
        simp only [HandEvaluator.EvaluateHand, HandEvaluator.findBestHand, if_neg hh,
          if_neg hv2, if_pos h5]
      rw [heq]
      exact evaluatePartialHand_rank _
  · intro hole cc hh2 h2 h5 hreal
    have hh : ¬hole.length < 2 := by omega
    have hv2 : ¬((hole ++ cc).filterMap id).length < 2 := by omega
    have heq : HandEvaluator.EvaluateHand hole cc =
        HandEvaluator.evaluatePartialHand ((hole ++ cc).filterMap id) := by
      simp only [HandEvaluator.EvaluateHand, HandEvaluator.findBestHand, if_neg hh,
        if_neg hv2, if_pos h5]
    rw [heq]
    exact evaluatePartialHand_best _ h2 h5 hreal
  · intro r s1 s2 s3 hr
    have hbne : (r == Rank.none) = false := by
      simpa using hr
    have hsort : HandEvaluator.sortCardsDesc [(⟨s1, r⟩ : Card), ⟨s2, r⟩, ⟨s3, r⟩]
        = [⟨s3, r⟩, ⟨s2, r⟩, ⟨s1, r⟩] := by
      simp [HandEvaluator.sortCardsDesc, HandEvaluator.insertCardDesc, lt_irrefl]
    have hdedup : ([r, r, r] : List Rank).dedup = [r] := by
      have h1 : ([r] : List Rank).dedup = [r] := by
        rw [List.dedup_cons_of_not_mem (by simp)]
        simp
      have h2 : ([r, r] : List Rank).dedup = [r] := by
        rw [List.dedup_cons_of_mem (by simp [h1])]
        exact h1
      rw [List.dedup_cons_of_mem (by simp [h2])]
      exact h2
    have hkeys : HandEvaluator.rankKeys [(⟨s3, r⟩ : Card), ⟨s2, r⟩, ⟨s1, r⟩] = [r] := by
      simp only [HandEvaluator.rankKeys, List.map_cons, List.map_nil]
      exact hdedup
    have hcount : HandEvaluator.countRank [(⟨s3, r⟩ : Card), ⟨s2, r⟩, ⟨s1, r⟩] r = 3 := by
      simp [HandEvaluator.countRank, List.filter]
    have hscan : HandEvaluator.tripScan [(⟨s3, r⟩ : Card), ⟨s2, r⟩, ⟨s1, r⟩] = (r, []) := by
      simp [HandEvaluator.tripScan, hkeys, hcount]
    have htrip : HandEvaluator.checkThreeOfAKind [(⟨s3, r⟩ : Card), ⟨s2, r⟩, ⟨s1, r⟩] =
        some { rank := .ThreeOfAKind,
               description := "Three of a Kind",
               value := 3000000 + HandEvaluator.rankValue r * 1000,
               cards := [⟨s3, r⟩, ⟨s2, r⟩, ⟨s1, r⟩],
               kickers := [r] } := by
      simp [HandEvaluator.checkThreeOfAKind, hscan, hbne, HandEvaluator.sortRanksDesc,
        HandEvaluator.tripsValueLoop]
    have hparteval : HandEvaluator.evaluatePartialHand
        [(⟨s1, r⟩ : Card), ⟨s2, r⟩, ⟨s3, r⟩] =
        { rank := .ThreeOfAKind,
          description := "Three of a Kind",
          value := 3000000 + HandEvaluator.rankValue r * 1000,
          cards := [⟨s3, r⟩, ⟨s2, r⟩, ⟨s1, r⟩],
          kickers := [r] } := by
      simp only [HandEvaluator.evaluatePartialHand, hsort, htrip]
      norm_num
    have heval : HandEvaluator.EvaluateHand [some ⟨s1, r⟩, some ⟨s2, r⟩] [some ⟨s3, r⟩] =
        { rank := .ThreeOfAKind,
          description := "Three of a Kind",
          value := 3000000 + HandEvaluator.rankValue r * 1000,
          cards := [⟨s3, r⟩, ⟨s2, r⟩, ⟨s1, r⟩],
          kickers := [r] } := by
      have hfm : List.filterMap id
            [some (⟨s1, r⟩ : Card), some ⟨s2, r⟩, some ⟨s3, r⟩]
          = [⟨s1, r⟩, ⟨s2, r⟩, ⟨s3, r⟩] := rfl
      simp only [HandEvaluator.EvaluateHand, HandEvaluator.findBestHand, List.cons_append,
        List.nil_append, hfm]
      norm_num [hparteval]
    refine ⟨by rw [heval], by rw [heval], ?_, ?_⟩
    · rw [heval]
      show (0 : Int) < 3000000 + HandEvaluator.rankValue r * 1000
      have := rankValue_nonneg r
      omega
    · intro cards
      have h1 := checkHighCard_value_lt cards
      have h2 := rankValue_nonneg r
      rw [heval]
      show (HandEvaluator.checkHighCard cards).value < 3000000 + HandEvaluator.rankValue r * 1000
      omega

/-- Witness for the amended C6 theorem: the 2-2-3-3 partial input lands
in the permitted category set, a pair of twos with a king kicker (three
cards) yields One Pair, four fives yield Four of a Kind, and trip fives
from three cards beat the ace-king high card. -/
theorem c6_partial_hand_amended_witness :
    ((HandEvaluator.EvaluateHand [some ⟨.heart, .two⟩, some ⟨.spade, .two⟩]
        [some ⟨.heart, .three⟩, some ⟨.spade, .three⟩]).rank = .HighCard ∨
     (HandEvaluator.EvaluateHand [some ⟨.heart, .two⟩, some ⟨.spade, .two⟩]
        [some ⟨.heart, .three⟩, some ⟨.spade, .three⟩]).rank = .OnePair ∨
     (HandEvaluator.EvaluateHand [some ⟨.heart, .two⟩, some ⟨.spade, .two⟩]
        [some ⟨.heart, .three⟩, some ⟨.spade, .three⟩]).rank = .ThreeOfAKind ∨
     (HandEvaluator.EvaluateHand [some ⟨.heart, .two⟩, some ⟨.spade, .two⟩]
        [some ⟨.heart, .three⟩, some ⟨.spade, .three⟩]).rank = .FourOfAKind) ∧
    (HandEvaluator.EvaluateHand [some ⟨.heart, .two⟩, some ⟨.spade, .two⟩]
        [some ⟨.diamond, .king⟩]).rank = .OnePair ∧
    (HandEvaluator.EvaluateHand [some ⟨.heart, .five⟩, some ⟨.spade, .five⟩]
        [some ⟨.diamond, .five⟩, some ⟨.club, .five⟩]).rank = .FourOfAKind ∧
    (HandEvaluator.EvaluateHand [some ⟨.heart, .five⟩, some ⟨.spade, .five⟩]
        [some ⟨.diamond, .five⟩]).rank = .ThreeOfAKind ∧
    (HandEvaluator.checkHighCard [⟨.spade, .ace⟩, ⟨.heart, .king⟩]).value <
      (HandEvaluator.EvaluateHand [some ⟨.heart, .five⟩, some ⟨.spade, .five⟩]
        [some ⟨.diamond, .five⟩]).value :=
  ⟨c6_partial_hand_amended.1 [some ⟨.heart, .two⟩, some ⟨.spade, .two⟩]
      [some ⟨.heart, .three⟩, some ⟨.spade, .three⟩] (by decide) (by decide),
    (c6_partial_hand_amended.2.1 [some ⟨.heart, .two⟩, some ⟨.spade, .two⟩]
      [some ⟨.diamond, .king⟩] (by decide) (by decide) (by decide) (by decide)).2.2.1
      (by decide) (by decide),
    (c6_partial_hand_amended.2.1 [some ⟨.heart, .five⟩, some ⟨.spade, .five⟩]
      [some ⟨.diamond, .five⟩, some ⟨.club, .five⟩] (by decide) (by decide) (by decide)
      (by decide)).1 (by decide),
    (c6_partial_hand_amended.2.2 .five .heart .spade .diamond (by decide)).1,
    (c6_partial_hand_amended.2.2 .five .heart .spade .diamond (by decide)).2.2.2
      [⟨.spade, .ace⟩, ⟨.heart, .king⟩]⟩

end Holdem


namespace Holdem

/- ----------------------------------------------------------------
Supporting lemmas on seats, active players and the turn pointer.
---------------------------------------------------------------- -/

/-- Reading back the slot just set (in range). -/
theorem getD_set_self {α : Type} (l : List α) (i : Nat) (p : α) (d : α) (h : i < l.length) :
    (l.set i p).getD i d = p := by
  rw [List.getD_eq_getElem?_getD, List.getElem?_set_self (by simpa using h)]
  rfl

/-- Reading any other slot after a set. -/
theorem getD_set_ne {α : Type} (l : List α) (i : Nat) (p : α) (d : α) (k : Nat) (h : i ≠ k) :
    (l.set i p).getD k d = l.getD k d := by
  rw [List.getD_eq_getElem?_getD, List.getElem?_set_ne h, ← List.getD_eq_getElem?_getD]

/-- `getElem?` of an in-range slot as a `getD`. -/
theorem getElem?_eq_some_getD {α : Type} (l : List α) (i : Nat) (d : α) (h : i < l.length) :
    l[i]? = some (l.getD i d) := by
  rw [List.getElem?_eq_getElem h, List.getD_eq_getElem l d h]

/-- Filtering an enumeration on the element and dropping the indices is
filtering the plain list. -/
theorem enumFrom_filter_map_snd {α : Type} (l : List α) (q : α → Bool) :
    ∀ n, ((l.enumFrom n).filter (fun ip => q ip.2)).map Prod.snd = l.filter q := by
  induction l with
  | nil => intro n; rfl
  | cons a l ih =>
    intro n
    by_cases ha : q a <;>
      simp [List.enumFrom, List.filter, ha, ih (n + 1)]

/-- The active pairs project to the active players. -/
theorem activePairs_map_snd (g : Game) :
    g.activePairs.map Prod.snd = g.GetActivePlayers :=
  enumFrom_filter_map_snd g.players (fun p => !p.folded) 0

/-- There are as many active pairs as active players. -/
theorem activePairs_length (g : Game) :
    g.activePairs.length = g.GetActivePlayers.length := by
  have h := congrArg List.length (activePairs_map_snd g)
  simpa using h

/-- Membership in the active pairs: the seat holds exactly that player
and the player is not folded. -/
theorem mem_activePairs (g : Game) (ix : Nat × Player) :
    ix ∈ g.activePairs ↔ (g.players[ix.1]? = some ix.2 ∧ ix.2.folded = false) := by
  unfold Game.activePairs
  rw [List.mem_filter]
  have henum : ix ∈ g.players.enum ↔ g.players[ix.1]? = some ix.2 :=
    List.mem_enum_iff_getElem?
  rw [henum]
  simp

/-- `nextPlayer` only moves the turn pointer. -/
theorem nextPlayer_eq (g : Game) :
    ∃ q, g.nextPlayer = { g with currentPlayerPosition := q } := by
  unfold Game.nextPlayer
  dsimp only
  cases (List.range g.players.length).find?
      (fun k => !(g.players.getD ((g.currentPlayerPosition + 1 + k) % g.players.length)
        default).folded) with
  | none => exact ⟨g.currentPlayerPosition, rfl⟩
  | some k => exact ⟨_, rfl⟩

/-- Number of active players as a `countP`. -/
theorem GetActivePlayers_length_countP (g : Game) :
    g.GetActivePlayers.length = g.players.countP (fun p => !p.folded) :=
  (List.countP_eq_length_filter _ _).symm

/- ----------------------------------------------------------------
C7.  Early hand end on fold.
---------------------------------------------------------------- -/

/-- Claim C7 (confirmed).  From a mid-hand state with exactly two
active seats whose turn-holder is one of them, `Fold` ends the hand at
once: it reports completion, sets the terminal phase, leaves the pot
field and the board untouched, pays the whole pot to the single
remaining active seat (and to nobody else), and never reads a card -
every seat's hole cards are untouched and the award is decided by the
folded flags alone, so the showdown/evaluator path is bypassed. -/
theorem c7_fold_early_end (g : Game)
    (hphase : g.currentPhase ≠ .Showdown)
    (hpos : g.currentPlayerPosition < g.players.length)
    (hcur : (g.GetCurrentPlayer).folded = false)
    (hact : g.GetActivePlayers.length = 2) :
    (g.Fold).2 = true ∧
    (g.Fold).1.currentPhase = .Showdown ∧
    (g.Fold).1.IsHandComplete = true ∧
    (g.Fold).1.pot = g.pot ∧
    (g.Fold).1.communityCards = g.communityCards ∧
    (∀ k, ((g.Fold).1.players.getD k default).chips =
      (g.players.getD k default).chips +
        (if (g.players.getD k default).folded = false ∧ k ≠ g.currentPlayerPosition ∧
            k < g.players.length
         then g.pot else 0)) ∧
    (∀ k, ((g.Fold).1.players.getD k default).cards = (g.players.getD k default).cards) := by
  classical
  have hcnt : g.players.countP (fun x => !x.folded) = 2 := by
    rw [← GetActivePlayers_length_countP]
    exact hact
  set g2 : Game := { g.setPlayer g.currentPlayerPosition (g.GetCurrentPlayer).Fold with
      actionsThisRound := g.actionsThisRound + 1 } with hg2
  obtain ⟨q, hnext⟩ := nextPlayer_eq g2
  set g3 : Game := { g2 with currentPlayerPosition := q } with hg3
  have hg3players : g3.players = g.players.set g.currentPlayerPosition (g.GetCurrentPlayer).Fold :=
    rfl
  -- one active seat remains after the fold
  have hcount3 : g3.players.countP (fun x => !x.folded) = 1 := by
    have hset := countP_set g.players g.currentPlayerPosition (g.GetCurrentPlayer).Fold
      (fun x => !x.folded) hpos
    rw [hg3players]
    have h1 : (!(g.players.getD g.currentPlayerPosition default).folded) = true := by
      have : g.players.getD g.currentPlayerPosition default = g.GetCurrentPlayer := rfl
      rw [this, hcur]
      rfl
    have h2 : (!((g.GetCurrentPlayer).Fold).folded) = false := rfl
    dsimp only at hset
    rw [h1, h2] at hset
    norm_num at hset
    omega
  have hlen1 : g3.GetActivePlayers.length = 1 := by
    rw [GetActivePlayers_length_countP]
    exact hcount3
  -- the fold takes the early-end branch
  have hfold : g.Fold = (g3.endHandEarly, true) := by
    have h1 : g.Fold =
        (if (g2.nextPlayer).GetActivePlayers.length ≤ 1
         then ((g2.nextPlayer).endHandEarly, true)
         else (g2.nextPlayer).checkAndAdvanceIfBettingComplete) := rfl
    rw [h1, hnext]
    rw [if_pos (by omega)]
  -- the single remaining active pair
  have hpairs1 : g3.activePairs.length = 1 := by
    rw [activePairs_length, hlen1]
  obtain ⟨iw, hiw⟩ := List.length_eq_one.mp hpairs1
  have hiwmem : iw ∈ g3.activePairs := by
    rw [hiw]
    exact List.mem_singleton.mpr rfl
  obtain ⟨hiwget, hiwfold⟩ := (mem_activePairs g3 iw).mp hiwmem
  have hiwlt : iw.1 < g.players.length := by
    obtain ⟨hl, -⟩ := List.getElem?_eq_some.mp (hg3players ▸ hiwget)
    simpa using hl
  have hiwne : iw.1 ≠ g.currentPlayerPosition := by
    intro he
    rw [hg3players, he, List.getElem?_set_self (by simpa using hpos)] at hiwget
    have : iw.2 = (g.GetCurrentPlayer).Fold := by
      simpa using hiwget.symm
    rw [this] at hiwfold
    simp [Player.Fold] at hiwfold
  have hiwval : g.players.getD iw.1 default = iw.2 := by
    rw [hg3players, List.getElem?_set_ne (fun he => hiwne he.symm)] at hiwget
    have := getElem?_eq_some_getD g.players iw.1 default hiwlt
    rw [this] at hiwget
    simpa using hiwget
  have hiwactive : (g.players.getD iw.1 default).folded = false := by
    rw [hiwval]
    exact hiwfold
  -- uniqueness: any other active non-mover seat is the winner seat
  have huniq : ∀ k, k < g.players.length → k ≠ g.currentPlayerPosition →
      (g.players.getD k default).folded = false → k = iw.1 := by
    intro k hk hkpos hkact
    have hmem : ((k, g.players.getD k default) : Nat × Player) ∈ g3.activePairs := by
      rw [mem_activePairs]
      constructor
      · rw [hg3players, List.getElem?_set_ne (fun he => hkpos he.symm)]
        exact getElem?_eq_some_getD g.players k default hk
      · exact hkact
    rw [hiw, List.mem_singleton] at hmem
    exact congrArg Prod.fst hmem
  -- the early end awards the pot to that seat
  have hend : g3.endHandEarly =
      { g3.award iw.1 g3.pot with currentPhase := .Showdown } := by
    unfold Game.endHandEarly
    rw [hiw]
  have hpot3 : g3.pot = g.pot := rfl
  have hendplayers : (g3.endHandEarly).players =
      g3.players.set iw.1 ((g3.players.getD iw.1 default).GrandChips g.pot) := by
    rw [hend, hpot3]
    rfl
  have hg3iw : g3.players.getD iw.1 default = iw.2 := by
    rw [hg3players, getD_set_ne _ _ _ _ _ (fun he => hiwne he.symm)]
    exact hiwval
  refine ⟨by rw [hfold], by rw [hfold, hend], by rw [hfold, hend]; rfl,
    by rw [hfold, hend]; rfl, by rw [hfold, hend]; rfl, ?_, ?_⟩
  · intro k
    rw [hfold]
    simp only [hendplayers]
    by_cases hk : k = iw.1
    · subst hk
      rw [getD_set_self _ _ _ _ (by rw [hg3players]; simpa using hiwlt), hg3iw]
      rw [if_pos ⟨hiwactive, hiwne, hiwlt⟩, hiwval]
      rfl
    · rw [getD_set_ne _ _ _ _ _ (fun he => hk he.symm), hg3players]
      by_cases hkpos : k = g.currentPlayerPosition
      · subst hkpos
        rw [getD_set_self _ _ _ _ hpos]
        rw [if_neg (by intro hcond; exact hcond.2.1 rfl)]
        simp [Player.Fold, Game.GetCurrentPlayer, List.getD_eq_getElem?_getD]
      · rw [getD_set_ne _ _ _ _ _ (fun he => hkpos he.symm)]
        by_cases hklt : k < g.players.length
        · rw [if_neg]
          · omega
          · intro hcond
            exact hk (huniq k hklt hkpos hcond.1)
        · rw [if_neg (by intro hcond; exact hklt hcond.2.2)]
          omega
  · intro k
    rw [hfold]
    simp only [hendplayers]
    by_cases hk : k = iw.1
    · subst hk
      rw [getD_set_self _ _ _ _ (by rw [hg3players]; simpa using hiwlt), hg3iw]
      rw [hiwval]
      rfl
    · rw [getD_set_ne _ _ _ _ _ (fun he => hk he.symm), hg3players]
      by_cases hkpos : k = g.currentPlayerPosition
      · subst hkpos
        rw [getD_set_self _ _ _ _ hpos]
        rfl
      · rw [getD_set_ne _ _ _ _ _ (fun he => hkpos he.symm)]

/-- Witness for C7 at the concrete mid-hand game: seat 0 folds, the
hand completes at once, seat 1 collects the 40-chip pot, seat 2 does
not exist, and the board and pot field are untouched. -/
theorem c7_fold_early_end_witness :
    (c7FoldGame.Fold).2 = true ∧
    (c7FoldGame.Fold).1.currentPhase = .Showdown ∧
    ((c7FoldGame.Fold).1.players.getD 1 default).chips =
      (c7FoldGame.players.getD 1 default).chips + 40 := by
  have h := c7_fold_early_end c7FoldGame (by decide) (by decide) (by decide) (by decide)
  refine ⟨h.1, h.2.1, ?_⟩
  have h1 := h.2.2.2.2.2.1 1
  rw [h1]
  decide

end Holdem

namespace Holdem

/- ----------------------------------------------------------------
C8.  Pot split at showdown: supporting lemmas.
---------------------------------------------------------------- -/

/-- The running maximum of `lo.MaxBy` is the seed or one of the
scanned values. -/
theorem loMaxValue_mem (rest : List (Nat × Int)) :
    ∀ v0 : Int, loMaxValue v0 rest = v0 ∨ ∃ r ∈ rest, r.2 = loMaxValue v0 rest := by
  induction rest with
  | nil => intro v0; exact Or.inl rfl
  | cons r t ih =>
    intro v0
    have hstep : loMaxValue v0 (r :: t) = loMaxValue (if r.2 > v0 then r.2 else v0) t := rfl
    rcases ih (if r.2 > v0 then r.2 else v0) with h | ⟨s, hs, hv⟩
    · by_cases hr : r.2 > v0
      · right
        exact ⟨r, List.mem_cons_self r t, by rw [hstep, h, if_pos hr]⟩
      · left
        rw [hstep, h, if_neg hr]
    · right
      exact ⟨s, List.mem_cons_of_mem r hs, by rw [hstep, ← hv]⟩

/-- The winner seats are the active seats whose hand value attains the
best value, in seat order. -/
theorem showdownWinners_eq (g : Game) :
    g.showdownWinners = (g.activePairs.filter
      (fun ip => (EvaluatePlayerHand ip.2 g.communityCards).value == g.showdownBestValue)).map
        Prod.fst := by
  unfold Game.showdownWinners Game.showdownResults
  rw [List.filter_map, List.map_map]
  rfl

/-- The winner-seat list is a sublist of `range (number of seats)`. -/
theorem showdownWinners_sublist (g : Game) :
    g.showdownWinners.Sublist (List.range g.players.length) := by
  rw [showdownWinners_eq]
  have h1 : (g.activePairs.filter
      (fun ip => (EvaluatePlayerHand ip.2 g.communityCards).value == g.showdownBestValue)).Sublist
      g.activePairs := List.filter_sublist _
  have h2 : g.activePairs.Sublist g.players.enum := List.filter_sublist _
  have h3 := (h1.trans h2).map Prod.fst
  rw [List.enum_map_fst] at h3
  exact h3

/-- The winner seats are distinct. -/
theorem showdownWinners_nodup (g : Game) : g.showdownWinners.Nodup :=
  (showdownWinners_sublist g).nodup (List.nodup_range _)

/-- Every winner seat is in range. -/
theorem showdownWinners_lt (g : Game) :
    ∀ k ∈ g.showdownWinners, k < g.players.length := by
  intro k hk
  have := (showdownWinners_sublist g).subset hk
  simpa using this

/-- The winner seats are listed in increasing seat order. -/
theorem showdownWinners_sorted (g : Game) :
    g.showdownWinners.Sorted (· < ·) :=
  (List.sorted_lt_range g.players.length).sublist (showdownWinners_sublist g)

/-- With at least one active player there is at least one winner. -/
theorem showdownWinners_ne_nil (g : Game) (hact : g.GetActivePlayers ≠ []) :
    g.showdownWinners ≠ [] := by
  have hpairs : g.activePairs ≠ [] := by
    intro h
    apply hact
    rw [← activePairs_map_snd, h]
    rfl
  obtain ⟨a0, rest, hsplit⟩ := List.exists_cons_of_ne_nil hpairs
  have hres : g.showdownResults =
      (a0.1, (EvaluatePlayerHand a0.2 g.communityCards).value) ::
        rest.map (fun ip => (ip.1, (EvaluatePlayerHand ip.2 g.communityCards).value)) := by
    unfold Game.showdownResults
    rw [hsplit]
    rfl
  have hbest : g.showdownBestValue =
      loMaxValue (EvaluatePlayerHand a0.2 g.communityCards).value
        (rest.map (fun ip => (ip.1, (EvaluatePlayerHand ip.2 g.communityCards).value))) := by
    unfold Game.showdownBestValue
    rw [hres]
    rfl
  have hmem : ∃ r ∈ g.showdownResults, r.2 = g.showdownBestValue := by
    rcases loMaxValue_mem
        (rest.map (fun ip => (ip.1, (EvaluatePlayerHand ip.2 g.communityCards).value)))
        (EvaluatePlayerHand a0.2 g.communityCards).value with h | ⟨s, hs, hv⟩
    · exact ⟨_, by rw [hres]; exact List.mem_cons_self _ _, by rw [hbest, h]⟩
    · exact ⟨s, by rw [hres]; exact List.mem_cons_of_mem _ hs, by rw [hbest, ← hv]⟩
  obtain ⟨r, hrmem, hrval⟩ := hmem
  intro hnil
  have hmemf : r ∈ g.showdownResults.filter (fun s => s.2 == g.showdownBestValue) := by
    rw [List.mem_filter]
    exact ⟨hrmem, by simp [hrval]⟩
  have hmemw : r.1 ∈ g.showdownWinners := by
    unfold Game.showdownWinners
    exact List.mem_map_of_mem (fun s => s.1) hmemf
  rw [hnil] at hmemw
  exact List.not_mem_nil _ hmemw

/-- Number of seats is preserved by an award. -/
theorem award_length (g : Game) (i : Nat) (amt : Int) :
    (g.award i amt).players.length = g.players.length := by
  simp [Game.award, Game.setPlayer]

/-- An award adds to the awarded seat's stack. -/
theorem award_chips_self (g : Game) (i : Nat) (amt : Int) (h : i < g.players.length) :
    ((g.award i amt).players.getD i default).chips =
      (g.players.getD i default).chips + amt := by
  show ((g.players.set i ((g.players.getD i default).GrandChips amt)).getD i default).chips = _
  rw [getD_set_self _ _ _ _ h]
  rfl

/-- An award leaves the other seats' stacks alone. -/
theorem award_chips_ne (g : Game) (i : Nat) (amt : Int) (k : Nat) (h : i ≠ k) :
    ((g.award i amt).players.getD k default).chips =
      (g.players.getD k default).chips := by
  show ((g.players.set i ((g.players.getD i default).GrandChips amt)).getD k default).chips = _
  rw [getD_set_ne _ _ _ _ _ h]

/-- Chips after the per-winner share loop: each listed (distinct,
in-range) seat gains one share. -/
theorem foldl_award_chips (ws : List Nat) :
    ∀ (g : Game) (share : Int) (k : Nat), ws.Nodup →
      (∀ w ∈ ws, w < g.players.length) →
      (((ws.foldl (fun g w => g.award w share) g).players.getD k default).chips =
        (g.players.getD k default).chips + (if k ∈ ws then share else 0)) := by
  induction ws with
  | nil => intro g share k _ _; simp
  | cons w ws ih =>
    intro g share k hnodup hall
    have hw : w < g.players.length := hall w (List.mem_cons_self w ws)
    have hall' : ∀ x ∈ ws, x < (g.award w share).players.length := by
      intro x hx
      rw [award_length]
      exact hall x (List.mem_cons_of_mem w hx)
    have hstep : (w :: ws).foldl (fun g w => g.award w share) g =
        ws.foldl (fun g w => g.award w share) (g.award w share) := rfl
    rw [hstep, ih (g.award w share) share k (List.nodup_cons.mp hnodup).2 hall']
    by_cases hk : k = w
    · subst hk
      rw [award_chips_self g k share hw]
      have hknot : k ∉ ws := (List.nodup_cons.mp hnodup).1
      simp [hknot]
    · rw [award_chips_ne g w share k (fun he => hk he.symm)]
      by_cases hkws : k ∈ ws <;> simp [hkws, hk]

/-- Claim C8 (confirmed).  At showdown with at least one active seat,
the winner list is the nonempty, duplicate-free, seat-ordered list of
active seats attaining the best hand value; each winner receives
`pot tdiv k` chips, the seat-order-first winner additionally the
remainder `pot tmod k`, every other seat's stack is untouched, and the
phase becomes Showdown. -/
theorem c8_pot_split (g : Game) (hact : g.GetActivePlayers ≠ []) :
    g.showdownWinners ≠ [] ∧
    g.showdown.currentPhase = .Showdown ∧
    g.showdownWinners.Nodup ∧
    (∀ j ∈ g.showdownWinners, g.showdownWinners.headD 0 ≤ j) ∧
    (∀ k, k ∈ g.showdownWinners →
      (g.showdown.players.getD k default).chips =
        (g.players.getD k default).chips +
          Int.tdiv g.pot g.showdownWinners.length +
          (if g.showdownWinners.headD 0 = k then Int.tmod g.pot g.showdownWinners.length
           else 0)) ∧
    (∀ k, k ∉ g.showdownWinners →
      (g.showdown.players.getD k default).chips = (g.players.getD k default).chips) := by
  classical
  have hpairs : g.activePairs ≠ [] := by
    intro h
    apply hact
    rw [← activePairs_map_snd, h]
    rfl
  obtain ⟨a0, rest, hsplit⟩ := List.exists_cons_of_ne_nil hpairs
  have hwne := showdownWinners_ne_nil g hact
  obtain ⟨w0, wrest, hw⟩ := List.exists_cons_of_ne_nil hwne
  have hshow : g.showdown =
      { g.awardWinners g.showdownWinners (Int.tdiv g.pot g.showdownWinners.length)
          (Int.tmod g.pot g.showdownWinners.length) with currentPhase := .Showdown } := by
    unfold Game.showdown
    rw [hsplit]
  have haw : g.awardWinners g.showdownWinners (Int.tdiv g.pot g.showdownWinners.length)
        (Int.tmod g.pot g.showdownWinners.length) =
      wrest.foldl (fun gg w => gg.award w (Int.tdiv g.pot g.showdownWinners.length))
        (g.award w0 (Int.tdiv g.pot g.showdownWinners.length +
          Int.tmod g.pot g.showdownWinners.length)) := by
    rw [hw]
    rfl
  have hnodup := showdownWinners_nodup g
  have hlt := showdownWinners_lt g
  have hsorted := showdownWinners_sorted g
  have hw0lt : w0 < g.players.length := hlt w0 (by rw [hw]; exact List.mem_cons_self _ _)
  have hwrestlt : ∀ x ∈ wrest, x < (g.award w0 (Int.tdiv g.pot g.showdownWinners.length +
      Int.tmod g.pot g.showdownWinners.length)).players.length := by
    intro x hx
    rw [award_length]
    exact hlt x (by rw [hw]; exact List.mem_cons_of_mem _ hx)
  have hw0notin : w0 ∉ wrest := by
    have := List.nodup_cons.mp (hw ▸ hnodup)
    exact this.1
  have hwrestnodup : wrest.Nodup := (List.nodup_cons.mp (hw ▸ hnodup)).2
  have hchips : ∀ k, ((g.showdown).players.getD k default).chips =
      (g.players.getD k default).chips +
        (if k = w0 then Int.tdiv g.pot g.showdownWinners.length +
          Int.tmod g.pot g.showdownWinners.length else 0) +
        (if k ∈ wrest then Int.tdiv g.pot g.showdownWinners.length else 0) := by
    intro k
    have h1 : (g.showdown).players.getD k default =
        ((wrest.foldl (fun gg w => gg.award w (Int.tdiv g.pot g.showdownWinners.length))
          (g.award w0 (Int.tdiv g.pot g.showdownWinners.length +
            Int.tmod g.pot g.showdownWinners.length))).players.getD k default) := by
      rw [hshow, haw]
    rw [h1, foldl_award_chips wrest _ _ k hwrestnodup hwrestlt]
    by_cases hk : k = w0
    · subst hk
      rw [award_chips_self _ _ _ hw0lt]
      simp [hw0notin]
    · rw [award_chips_ne _ _ _ _ (fun he => hk he.symm)]
      simp [hk]
  refine ⟨hwne, by rw [hshow], hnodup, ?_, ?_, ?_⟩
  · intro j hj
    rw [hw] at hj
    rw [hw]
    rcases List.mem_cons.mp hj with h | h
    · subst h; simp
    · have hpair := hw ▸ hsorted
      have hlt' := (List.sorted_cons.mp hpair).1 j h
      show w0 ≤ j
      omega
  · intro k hk
    rw [hchips k]
    rw [hw] at hk
    rcases List.mem_cons.mp hk with h | h
    · subst h
      rw [if_pos rfl, if_neg (by exact fun hkin => hw0notin hkin)]
      rw [hw]
      simp
      ring
    · have hkne : k ≠ w0 := by
        intro he
        subst he
        exact hw0notin h
      rw [if_neg hkne, if_pos h, hw]
      have hne' : (w0 :: wrest).headD 0 ≠ k := fun he => hkne (by simpa using he.symm)
      rw [if_neg hne']
      ring
  · intro k hk
    rw [hchips k]
    rw [hw] at hk
    have h1 : ¬k = w0 := fun he => hk (by rw [he]; exact List.mem_cons_self _ _)
    have h2 : k ∉ wrest := fun hin => hk (List.mem_cons_of_mem _ hin)
    rw [if_neg h1, if_neg h2]
    ring

end Holdem

namespace Holdem
set_option maxRecDepth 100000 in
/-- Witness for C8 at the concrete three-way split-pot game (pot 101,
seats 0 and 1 tie with aces, seat 2 loses): the winners are seats 0 and
1 in seat order, seat 0 receives 50 + the 1-chip remainder, seat 1
receives 50, seat 2 nothing. -/
theorem c8_pot_split_witness :
    c8SplitGame.showdownWinners = [0, 1] ∧
    (c8SplitGame.showdown.players.getD 0 default).chips = 966 + 50 + 1 ∧
    (c8SplitGame.showdown.players.getD 1 default).chips = 966 + 50 ∧
    (c8SplitGame.showdown.players.getD 2 default).chips = 967 := by
  have h := c8_pot_split c8SplitGame (by decide)
  have hw : c8SplitGame.showdownWinners = [0, 1] := by decide
  refine ⟨hw, ?_, ?_, ?_⟩
  · have h0 := h.2.2.2.2.1 0 (by rw [hw]; decide)
    rw [h0, hw]
    decide
  · have h1 := h.2.2.2.2.1 1 (by rw [hw]; decide)
    rw [h1, hw]
    decide
  · have h2 := h.2.2.2.2.2 2 (by rw [hw]; decide)
    rw [h2]
    decide
end Holdem

namespace Holdem

/- ----------------------------------------------------------------
C1.  Chip conservation: operation-level lemmas.
---------------------------------------------------------------- -/

/-- Total chips after replacing one seat (in range). -/
theorem setPlayer_totalChips (g : Game) (i : Nat) (p : Player) (h : i < g.players.length) :
    (g.setPlayer i p).totalChips =
      g.totalChips - (g.players.getD i default).chips + p.chips :=
  sum_map_set g.players i p Player.chips h

/-- Per-seat wager reset keeps every stack. -/
theorem resetBets_totalChips (g : Game) :
    ((g.players.map Player.ResetBet).map Player.chips).sum = g.totalChips := by
  rw [List.map_map]
  rfl

/-- Per-seat wager reset keeps every fold flag. -/
theorem resetBets_countP (g : Game) :
    (g.players.map Player.ResetBet).countP (fun x => !x.folded) =
      g.players.countP (fun x => !x.folded) := by
  rw [List.countP_map]
  rfl

/-- `dealFlop` only changes the deck and the board. -/
theorem dealFlop_eq (g : Game) :
    ∃ d cc, g.dealFlop = { g with deck := d, communityCards := cc } := by
  obtain ⟨pl, dk, pt, ph, cp, dp, sb, bb, cb, cc, ar⟩ := g
  unfold Game.dealFlop
  match dk with
  | [] => exact ⟨_, _, rfl⟩
  | [a] => exact ⟨_, _, rfl⟩
  | [a, b] => exact ⟨_, _, rfl⟩
  | [a, b, c] => exact ⟨_, _, rfl⟩
  | a :: b :: c :: d :: r => exact ⟨_, _, rfl⟩

/-- `dealTurn` only changes the deck and the board. -/
theorem dealTurn_eq (g : Game) :
    ∃ d cc, g.dealTurn = { g with deck := d, communityCards := cc } := by
  obtain ⟨pl, dk, pt, ph, cp, dp, sb, bb, cb, cc, ar⟩ := g
  unfold Game.dealTurn
  match dk with
  | [] => exact ⟨_, _, rfl⟩
  | [a] => exact ⟨_, _, rfl⟩
  | a :: b :: r => exact ⟨_, _, rfl⟩

/-- `dealRiver` only changes the deck and the board. -/
theorem dealRiver_eq (g : Game) :
    ∃ d cc, g.dealRiver = { g with deck := d, communityCards := cc } := by
  obtain ⟨pl, dk, pt, ph, cp, dp, sb, bb, cb, cc, ar⟩ := g
  unfold Game.dealRiver
  match dk with
  | [] => exact ⟨_, _, rfl⟩
  | [a] => exact ⟨_, _, rfl⟩
  | a :: b :: r => exact ⟨_, _, rfl⟩

/-- `setFirstPlayerPostFlop` only moves the turn pointer, into range
when any seat exists. -/
theorem setFirstPlayerPostFlop_eq (g : Game) (h0 : 0 < g.players.length) :
    ∃ q, g.setFirstPlayerPostFlop = { g with currentPlayerPosition := q } ∧
      q < g.players.length := by
  unfold Game.setFirstPlayerPostFlop
  dsimp only
  cases (List.range g.players.length).find?
      (fun k => !(g.players.getD (((g.dealerPosition + 1) % g.players.length + k) %
        g.players.length) default).folded) with
  | none =>
    exact ⟨(g.dealerPosition + 1) % g.players.length, rfl, Nat.mod_lt _ h0⟩
  | some k =>
    exact ⟨_, rfl, Nat.mod_lt _ h0⟩

/-- `nextPlayer` only moves the turn pointer, and keeps it in range. -/
theorem nextPlayer_eq_lt (g : Game) (hpos : g.currentPlayerPosition < g.players.length) :
    ∃ q, g.nextPlayer = { g with currentPlayerPosition := q } ∧
      q < g.players.length := by
  have h0 : 0 < g.players.length := Nat.lt_of_le_of_lt (Nat.zero_le _) hpos
  unfold Game.nextPlayer
  dsimp only
  cases (List.range g.players.length).find?
      (fun k => !(g.players.getD ((g.currentPlayerPosition + 1 + k) % g.players.length)
        default).folded) with
  | none => exact ⟨g.currentPlayerPosition, rfl, hpos⟩
  | some k => exact ⟨_, rfl, Nat.mod_lt _ h0⟩

/-- An award leaves the number of seats alone even when repeated. -/
theorem foldl_award_length (ws : List Nat) :
    ∀ (g : Game) (share : Int),
      (ws.foldl (fun gg w => gg.award w share) g).players.length = g.players.length := by
  induction ws with
  | nil => intro g share; rfl
  | cons w ws ih =>
    intro g share
    have hstep : (w :: ws).foldl (fun gg w => gg.award w share) g =
        ws.foldl (fun gg w => gg.award w share) (g.award w share) := rfl
    rw [hstep, ih (g.award w share) share, award_length]

/-- Awarding adds to the total. -/
theorem award_totalChips (g : Game) (i : Nat) (amt : Int) (h : i < g.players.length) :
    (g.award i amt).totalChips = g.totalChips + amt := by
  have := setPlayer_totalChips g i ((g.players.getD i default).GrandChips amt) h
  unfold Game.award
  rw [this]
  simp [Player.GrandChips]
  ring

/-- Total chips after the per-winner award loop. -/
theorem foldl_award_totalChips (ws : List Nat) :
    ∀ (g : Game) (share : Int), (∀ w ∈ ws, w < g.players.length) →
      (ws.foldl (fun gg w => gg.award w share) g).totalChips =
        g.totalChips + share * ws.length := by
  induction ws with
  | nil => intro g share _; simp [Game.totalChips]
  | cons w ws ih =>
    intro g share hall
    have hw : w < g.players.length := hall w (List.mem_cons_self w ws)
    have hall' : ∀ x ∈ ws, x < (g.award w share).players.length := by
      intro x hx
      rw [award_length]
      exact hall x (List.mem_cons_of_mem w hx)
    have hstep : (w :: ws).foldl (fun gg w => gg.award w share) g =
        ws.foldl (fun gg w => gg.award w share) (g.award w share) := rfl
    rw [hstep, ih (g.award w share) share hall', award_totalChips g w share hw]
    push_cast [List.length_cons]
    ring

/-- The showdown pays the whole pot into the stacks (with at least one
active seat), ends the hand and keeps the seat count. -/
theorem showdown_totalChips (g : Game) (hact : g.GetActivePlayers ≠ []) :
    (g.showdown).totalChips = g.totalChips + g.pot ∧
    (g.showdown).currentPhase = .Showdown ∧
    (g.showdown).players.length = g.players.length := by
  classical
  have hpairs : g.activePairs ≠ [] := by
    intro h
    apply hact
    rw [← activePairs_map_snd, h]
    rfl
  obtain ⟨a0, arest, hsplit⟩ := List.exists_cons_of_ne_nil hpairs
  have hwne := showdownWinners_ne_nil g hact
  obtain ⟨w0, wrest, hw⟩ := List.exists_cons_of_ne_nil hwne
  have hshow : g.showdown =
      { g.awardWinners g.showdownWinners (Int.tdiv g.pot g.showdownWinners.length)
          (Int.tmod g.pot g.showdownWinners.length) with currentPhase := .Showdown } := by
    unfold Game.showdown
    rw [hsplit]
  have hlt := showdownWinners_lt g
  have hw0lt : w0 < g.players.length := hlt w0 (by rw [hw]; exact List.mem_cons_self _ _)
  have haw : g.awardWinners g.showdownWinners (Int.tdiv g.pot g.showdownWinners.length)
        (Int.tmod g.pot g.showdownWinners.length) =
      wrest.foldl (fun gg w => gg.award w (Int.tdiv g.pot g.showdownWinners.length))
        (g.award w0 (Int.tdiv g.pot g.showdownWinners.length +
          Int.tmod g.pot g.showdownWinners.length)) := by
    rw [hw]
    rfl
  have hall' : ∀ x ∈ wrest, x < (g.award w0 (Int.tdiv g.pot g.showdownWinners.length +
      Int.tmod g.pot g.showdownWinners.length)).players.length := by
    intro x hx
    rw [award_length]
    exact hlt x (by rw [hw]; exact List.mem_cons_of_mem _ hx)
  have htot : (g.awardWinners g.showdownWinners (Int.tdiv g.pot g.showdownWinners.length)
      (Int.tmod g.pot g.showdownWinners.length)).totalChips = g.totalChips + g.pot := by
    rw [haw, foldl_award_totalChips wrest _ _ hall',
      award_totalChips g w0 _ hw0lt]
    have hdm := Int.tdiv_add_tmod g.pot (g.showdownWinners.length : Int)
    have hlen : (g.showdownWinners.length : Int) = (wrest.length : Int) + 1 := by
      rw [hw]
      push_cast [List.length_cons]
      ring
    rw [hlen] at hdm ⊢
    ring_nf
    ring_nf at hdm
    omega
  have hlenp : (g.awardWinners g.showdownWinners (Int.tdiv g.pot g.showdownWinners.length)
      (Int.tmod g.pot g.showdownWinners.length)).players.length = g.players.length := by
    rw [haw, foldl_award_length, award_length]
  refine ⟨?_, ?_, ?_⟩
  · rw [hshow]
    exact htot
  · rw [hshow]
  · rw [hshow]
    exact hlenp

/-- With exactly one active seat, `endHandEarly` pays the pot to it,
ends the hand and keeps the seat count. -/
theorem endHandEarly_one (g : Game) (h1 : g.GetActivePlayers.length = 1) :
    (g.endHandEarly).totalChips = g.totalChips + g.pot ∧
    (g.endHandEarly).currentPhase = .Showdown ∧
    (g.endHandEarly).players.length = g.players.length := by
  have hp1 : g.activePairs.length = 1 := by rw [activePairs_length, h1]
  obtain ⟨iw, hiw⟩ := List.length_eq_one.mp hp1
  have hmem : iw ∈ g.activePairs := by rw [hiw]; exact List.mem_cons_self _ _
  have hgetE := (mem_activePairs g iw).mp hmem
  have hlt : iw.1 < g.players.length := by
    obtain ⟨h, -⟩ := List.getElem?_eq_some.mp hgetE.1
    exact h
  have hend : g.endHandEarly = { g.award iw.1 g.pot with currentPhase := .Showdown } := by
    unfold Game.endHandEarly
    rw [hiw]
  refine ⟨?_, ?_, ?_⟩
  · rw [hend]
    exact award_totalChips g iw.1 g.pot hlt
  · rw [hend]
  · rw [hend]
    exact award_length g iw.1 g.pot

end Holdem

namespace Holdem

/-- Filtering the active seats commutes with the wager reset. -/
theorem resetBets_filter_length (l : List Player) :
    ((l.map Player.ResetBet).filter (fun p => !p.folded)).length =
      (l.filter (fun p => !p.folded)).length := by
  rw [← List.countP_eq_length_filter, ← List.countP_eq_length_filter, List.countP_map]
  rfl

/-- After a board deal, placing the post-flop first player yields a
state satisfying the running-hand money invariant, provided the
pre-deal state did. -/
theorem moneyInv_after_deal (g0 : Game) (T : Int)
    (hlen : 2 ≤ g0.players.length)
    (hsum : g0.totalChips + g0.pot = T)
    (hact : 2 ≤ g0.GetActivePlayers.length)
    (hph : g0.currentPhase ≠ .Showdown)
    (g1 : Game) (hg1 : ∃ d cc, g1 = { g0 with deck := d, communityCards := cc }) :
    Game.MoneyInv T g1.setFirstPlayerPostFlop := by
  obtain ⟨d, cc, rfl⟩ := hg1
  have h0 : 0 < ({ g0 with deck := d, communityCards := cc } : Game).players.length := by
    show 0 < g0.players.length
    omega
  obtain ⟨q, hsp, hq⟩ :=
    setFirstPlayerPostFlop_eq { g0 with deck := d, communityCards := cc } h0
  rw [hsp]
  refine ⟨?_, ?_, ?_⟩
  · exact hlen
  · intro hcon
    exact absurd hcon hph
  · intro _
    exact ⟨hsum, hact, hq⟩

/-- `advanceToNextPhase` preserves the money invariant from any
running-hand state. -/
theorem advanceToNextPhase_moneyInv (g : Game) (T : Int)
    (hphase : g.currentPhase ≠ .Showdown)
    (hlen : 2 ≤ g.players.length)
    (hsum : g.totalChips + g.pot = T)
    (hact : 2 ≤ g.GetActivePlayers.length) :
    Game.MoneyInv T (g.advanceToNextPhase).1 := by
  unfold Game.advanceToNextPhase
  dsimp only
  cases hph : g.currentPhase with
  | Preflop =>
    refine moneyInv_after_deal _ T ?_ ?_ ?_ ?_ _ (dealFlop_eq _)
    · simpa using hlen
    · show ((g.players.map Player.ResetBet).map Player.chips).sum + g.pot = T
      rw [resetBets_totalChips]
      exact hsum
    · show 2 ≤ ((g.players.map Player.ResetBet).filter (fun p => !p.folded)).length
      rw [resetBets_filter_length]
      exact hact
    · show GamePhase.Flop ≠ GamePhase.Showdown
      simp
  | Flop =>
    refine moneyInv_after_deal _ T ?_ ?_ ?_ ?_ _ (dealTurn_eq _)
    · simpa using hlen
    · show ((g.players.map Player.ResetBet).map Player.chips).sum + g.pot = T
      rw [resetBets_totalChips]
      exact hsum
    · show 2 ≤ ((g.players.map Player.ResetBet).filter (fun p => !p.folded)).length
      rw [resetBets_filter_length]
      exact hact
    · show GamePhase.Turn ≠ GamePhase.Showdown
      simp
  | Turn =>
    refine moneyInv_after_deal _ T ?_ ?_ ?_ ?_ _ (dealRiver_eq _)
    · simpa using hlen
    · show ((g.players.map Player.ResetBet).map Player.chips).sum + g.pot = T
      rw [resetBets_totalChips]
      exact hsum
    · show 2 ≤ ((g.players.map Player.ResetBet).filter (fun p => !p.folded)).length
      rw [resetBets_filter_length]
      exact hact
    · show GamePhase.River ≠ GamePhase.Showdown
      simp
  | River =>
    have hne : (Game.GetActivePlayers
        { g with
            players := g.players.map Player.ResetBet,
            currentBet := 0,
            actionsThisRound := 0,
            currentPhase := GamePhase.Showdown }) ≠ [] := by
      intro hcon
      have hl : (Game.GetActivePlayers
          { g with
              players := g.players.map Player.ResetBet,
              currentBet := 0,
              actionsThisRound := 0,
              currentPhase := GamePhase.Showdown }).length = 0 := by
        rw [hcon]
        rfl
      rw [show (Game.GetActivePlayers
        { g with
            players := g.players.map Player.ResetBet,
            currentBet := 0,
            actionsThisRound := 0,
            currentPhase := GamePhase.Showdown }) =
          ((g.players.map Player.ResetBet).filter (fun p => !p.folded)) from rfl,
        resetBets_filter_length] at hl
      have h2 : 2 ≤ (g.players.filter (fun p => !p.folded)).length := hact
      omega
    obtain ⟨htot, hph', hlen'⟩ := showdown_totalChips _ hne
    refine ⟨?_, ?_, ?_⟩
    · rw [hlen']
      simpa using hlen
    · intro _
      rw [htot]
      show ((g.players.map Player.ResetBet).map Player.chips).sum + g.pot = T
      rw [resetBets_totalChips]
      exact hsum
    · intro hcon
      exact absurd hph' hcon
  | Showdown => exact absurd hph hphase

/-- `checkAndAdvanceIfBettingComplete` preserves the money invariant
from any running-hand state. -/
theorem checkAndAdvance_moneyInv (g : Game) (T : Int)
    (hphase : g.currentPhase ≠ .Showdown)
    (hlen : 2 ≤ g.players.length)
    (hsum : g.totalChips + g.pot = T)
    (hact : 2 ≤ g.GetActivePlayers.length)
    (hpos : g.currentPlayerPosition < g.players.length) :
    Game.MoneyInv T (g.checkAndAdvanceIfBettingComplete).1 := by
  unfold Game.checkAndAdvanceIfBettingComplete
  split
  · exact advanceToNextPhase_moneyInv g T hphase hlen hsum hact
  · exact ⟨hlen, fun h => absurd h hphase, fun _ => ⟨hsum, hact, hpos⟩⟩

end Holdem

namespace Holdem

/-- Total chips after the current player wagers `amt`: the stack drop
matches the wager exactly. -/
theorem setPlayer_betCur_totalChips (g : Game) (amt : Int)
    (h : g.currentPlayerPosition < g.players.length) :
    (g.setPlayer g.currentPlayerPosition ((g.GetCurrentPlayer).Bet amt)).totalChips =
      g.totalChips - amt := by
  rw [setPlayer_totalChips g g.currentPlayerPosition ((g.GetCurrentPlayer).Bet amt) h]
  show g.totalChips - (g.GetCurrentPlayer).chips + ((g.GetCurrentPlayer).chips - amt) = _
  ring

/-- A wager never changes a fold flag. -/
theorem setPlayer_betCur_countP (g : Game) (amt : Int) :
    ((g.setPlayer g.currentPlayerPosition ((g.GetCurrentPlayer).Bet amt)).players.countP
      (fun x => !x.folded)) = g.players.countP (fun x => !x.folded) :=
  countP_set_preserve _ _ _ _ rfl

/-- `Check` preserves the money invariant from any running-hand state. -/
theorem check_moneyInv (g : Game) (T : Int)
    (hphase : g.currentPhase ≠ .Showdown)
    (hlen : 2 ≤ g.players.length)
    (hsum : g.totalChips + g.pot = T)
    (hact : 2 ≤ g.GetActivePlayers.length)
    (hpos : g.currentPlayerPosition < g.players.length) :
    Game.MoneyInv T (g.Check).1 := by
  classical
  set g2 : Game := { g with actionsThisRound := g.actionsThisRound + 1 } with hg2
  have hpos2 : g2.currentPlayerPosition < g2.players.length := hpos
  obtain ⟨q, hnext, hq⟩ := nextPlayer_eq_lt g2 hpos2
  have hcheck : g.Check = ({ g2 with currentPlayerPosition := q
      }).checkAndAdvanceIfBettingComplete := by
    have h1 : g.Check = (g2.nextPlayer).checkAndAdvanceIfBettingComplete := rfl
    rw [h1, hnext]
  rw [hcheck]
  exact checkAndAdvance_moneyInv _ T hphase hlen hsum hact hq

/-- `Fold` preserves the money invariant from any running-hand state:
either the hand ends early with the pot paid out, or it keeps running
with at least two active seats. -/
theorem fold_moneyInv (g : Game) (T : Int)
    (hphase : g.currentPhase ≠ .Showdown)
    (hlen : 2 ≤ g.players.length)
    (hsum : g.totalChips + g.pot = T)
    (hact : 2 ≤ g.GetActivePlayers.length)
    (hpos : g.currentPlayerPosition < g.players.length) :
    Game.MoneyInv T (g.Fold).1 := by
  classical
  set g2 : Game := { g.setPlayer g.currentPlayerPosition (g.GetCurrentPlayer).Fold with
      actionsThisRound := g.actionsThisRound + 1 } with hg2
  have hg2len : g2.players.length = g.players.length := by
    show (g.players.set g.currentPlayerPosition (g.GetCurrentPlayer).Fold).length = _
    simp
  have hpos2 : g2.currentPlayerPosition < g2.players.length := by
    show g.currentPlayerPosition < g2.players.length
    rw [hg2len]
    exact hpos
  obtain ⟨q, hnext, hq⟩ := nextPlayer_eq_lt g2 hpos2
  set g3 : Game := { g2 with currentPlayerPosition := q } with hg3
  have hfoldeq : g.Fold =
      (if g3.GetActivePlayers.length ≤ 1
       then (g3.endHandEarly, true)
       else g3.checkAndAdvanceIfBettingComplete) := by
    have h1 : g.Fold =
        (if (g2.nextPlayer).GetActivePlayers.length ≤ 1
         then ((g2.nextPlayer).endHandEarly, true)
         else (g2.nextPlayer).checkAndAdvanceIfBettingComplete) := rfl
    rw [h1, hnext]
  have hg3players : g3.players =
      g.players.set g.currentPlayerPosition (g.GetCurrentPlayer).Fold := rfl
  have hg3phase : g3.currentPhase = g.currentPhase := rfl
  have hg3pot : g3.pot = g.pot := rfl
  have hg3len : g3.players.length = g.players.length := hg2len
  have htotal : g3.totalChips = g.totalChips := by
    show ((g.players.set g.currentPlayerPosition (g.GetCurrentPlayer).Fold).map
      Player.chips).sum = _
    rw [map_set_preserve g.players g.currentPlayerPosition ((g.GetCurrentPlayer).Fold)
      Player.chips rfl]
    rfl
  have hcnt2 : 2 ≤ g.players.countP (fun x => !x.folded) := by
    rw [← GetActivePlayers_length_countP]
    exact hact
  have hset := countP_set g.players g.currentPlayerPosition (g.GetCurrentPlayer).Fold
    (fun x => !x.folded) hpos
  dsimp only at hset
  have hFf : (!((g.GetCurrentPlayer).Fold).folded) = false := rfl
  rw [hFf] at hset
  simp only [Bool.false_eq_true, if_false, add_zero] at hset
  have hcntge : (g.players.countP (fun x => !x.folded) : Int) - 1 ≤
      (((g.players.set g.currentPlayerPosition (g.GetCurrentPlayer).Fold).countP
        (fun x => !x.folded) : Nat) : Int) := by
    rw [hset]
    by_cases hc : (!(g.players.getD g.currentPlayerPosition default).folded) = true
    · rw [if_pos hc]
    · rw [if_neg hc]
      omega

  have hact3 := GetActivePlayers_length_countP g3
  rw [hg3players] at hact3
  rw [hfoldeq]
  by_cases hle : g3.GetActivePlayers.length ≤ 1
  · rw [if_pos hle]
    have h1 : g3.GetActivePlayers.length = 1 := by omega
    obtain ⟨htot, hph, hlenE⟩ := endHandEarly_one g3 h1
    show Game.MoneyInv T g3.endHandEarly
    refine ⟨?_, ?_, ?_⟩
    · rw [hlenE, hg3len]
      exact hlen
    · intro _
      rw [htot, htotal, hg3pot]
      exact hsum
    · intro hcon
      exact absurd hph hcon
  · rw [if_neg hle]
    have hge2 : 2 ≤ g3.GetActivePlayers.length := by omega
    refine checkAndAdvance_moneyInv g3 T ?_ ?_ ?_ hge2 ?_
    · rw [hg3phase]
      exact hphase
    · rw [hg3len]
      exact hlen
    · rw [htotal, hg3pot]
      exact hsum
    · show q < g3.players.length
      rw [hg3len, ← hg2len]
      exact hq

/-- `Call` preserves the money invariant from any running-hand state:
the wager moves chips from the stack into the pot one for one. -/
theorem call_moneyInv (g : Game) (T : Int)
    (hphase : g.currentPhase ≠ .Showdown)
    (hlen : 2 ≤ g.players.length)
    (hsum : g.totalChips + g.pot = T)
    (hact : 2 ≤ g.GetActivePlayers.length)
    (hpos : g.currentPlayerPosition < g.players.length) :
    Game.MoneyInv T (g.Call).1 := by
  classical
  set gA : Game :=
    (if g.currentBet - (g.GetCurrentPlayer).bet > 0 then
      { g.setPlayer g.currentPlayerPosition
            ((g.GetCurrentPlayer).Bet
              (min (g.currentBet - (g.GetCurrentPlayer).bet) (g.GetCurrentPlayer).chips)) with
          pot := g.pot +
            min (g.currentBet - (g.GetCurrentPlayer).bet) (g.GetCurrentPlayer).chips }
     else g) with hgA
  have hAsum : gA.totalChips + gA.pot = g.totalChips + g.pot := by
    rw [hgA]
    split
    · show (g.setPlayer g.currentPlayerPosition
          ((g.GetCurrentPlayer).Bet
            (min (g.currentBet - (g.GetCurrentPlayer).bet) (g.GetCurrentPlayer).chips))).totalChips +
          (g.pot + min (g.currentBet - (g.GetCurrentPlayer).bet) (g.GetCurrentPlayer).chips) =
          g.totalChips + g.pot
      rw [setPlayer_betCur_totalChips g _ hpos]
      ring
    · rfl
  have hAlen : gA.players.length = g.players.length := by
    rw [hgA]
    split
    · show (g.players.set g.currentPlayerPosition _).length = _
      simp
    · rfl
  have hAcnt : gA.players.countP (fun x => !x.folded) =
      g.players.countP (fun x => !x.folded) := by
    rw [hgA]
    split
    · exact setPlayer_betCur_countP g _
    · rfl
  have hAphase : gA.currentPhase = g.currentPhase := by
    rw [hgA]
    split <;> rfl
  have hApos : gA.currentPlayerPosition = g.currentPlayerPosition := by
    rw [hgA]
    split <;> rfl
  set g2 : Game := { gA with actionsThisRound := gA.actionsThisRound + 1 } with hg2
  have hpos2 : g2.currentPlayerPosition < g2.players.length := by
    show gA.currentPlayerPosition < gA.players.length
    rw [hApos, hAlen]
    exact hpos
  obtain ⟨q, hnext, hq⟩ := nextPlayer_eq_lt g2 hpos2
  have hcalleq : g.Call = ({ g2 with currentPlayerPosition := q
      }).checkAndAdvanceIfBettingComplete := by
    have h1 : g.Call = (g2.nextPlayer).checkAndAdvanceIfBettingComplete := rfl
    rw [h1, hnext]
  rw [hcalleq]
  refine checkAndAdvance_moneyInv _ T ?_ ?_ ?_ ?_ ?_
  · show gA.currentPhase ≠ .Showdown
    rw [hAphase]
    exact hphase
  · show 2 ≤ gA.players.length
    rw [hAlen]
    exact hlen
  · show gA.totalChips + gA.pot = T
    rw [hAsum]
    exact hsum
  · show 2 ≤ (Game.GetActivePlayers { g2 with currentPlayerPosition := q }).length
    have h1 : (Game.GetActivePlayers { g2 with currentPlayerPosition := q }).length =
        gA.players.countP (fun x => !x.folded) := by
      rw [GetActivePlayers_length_countP]
    rw [h1, hAcnt, ← GetActivePlayers_length_countP]
    exact hact
  · show q < gA.players.length
    rw [hAlen]
    have h2 : g2.players.length = g.players.length := hAlen
    rw [← h2]
    exact hq

/-- `Raise` preserves the money invariant from any running-hand state:
like `Call`, the wager moves chips from the stack into the pot one for
one, and the current-bet bump touches no money. -/
theorem raise_moneyInv (g : Game) (raiseAmount : Int) (T : Int)
    (hphase : g.currentPhase ≠ .Showdown)
    (hlen : 2 ≤ g.players.length)
    (hsum : g.totalChips + g.pot = T)
    (hact : 2 ≤ g.GetActivePlayers.length)
    (hpos : g.currentPlayerPosition < g.players.length) :
    Game.MoneyInv T (g.Raise raiseAmount).1 := by
  classical
  set gA : Game :=
    { g.setPlayer g.currentPlayerPosition
          ((g.GetCurrentPlayer).Bet
            (min (g.currentBet + raiseAmount - (g.GetCurrentPlayer).bet)
              (g.GetCurrentPlayer).chips)) with
        pot := g.pot +
          min (g.currentBet + raiseAmount - (g.GetCurrentPlayer).bet)
            (g.GetCurrentPlayer).chips } with hgA
  set gB : Game :=
    (if ((g.GetCurrentPlayer).Bet
          (min (g.currentBet + raiseAmount - (g.GetCurrentPlayer).bet)
            (g.GetCurrentPlayer).chips)).bet > gA.currentBet then
      { gA with
          currentBet := ((g.GetCurrentPlayer).Bet
            (min (g.currentBet + raiseAmount - (g.GetCurrentPlayer).bet)
              (g.GetCurrentPlayer).chips)).bet }
     else gA) with hgB
  have hAsum : gA.totalChips + gA.pot = g.totalChips + g.pot := by
    rw [hgA]
    show (g.setPlayer g.currentPlayerPosition
        ((g.GetCurrentPlayer).Bet
          (min (g.currentBet + raiseAmount - (g.GetCurrentPlayer).bet)
            (g.GetCurrentPlayer).chips))).totalChips +
        (g.pot + min (g.currentBet + raiseAmount - (g.GetCurrentPlayer).bet)
          (g.GetCurrentPlayer).chips) = g.totalChips + g.pot
    rw [setPlayer_betCur_totalChips g _ hpos]
    ring
  have hAlen : gA.players.length = g.players.length := by
    show (g.players.set g.currentPlayerPosition _).length = _
    simp
  have hAcnt : gA.players.countP (fun x => !x.folded) =
      g.players.countP (fun x => !x.folded) := setPlayer_betCur_countP g _
  have hBsum : gB.totalChips + gB.pot = gA.totalChips + gA.pot := by
    rw [hgB]
    split <;> rfl
  have hBlen : gB.players.length = gA.players.length := by
    rw [hgB]
    split <;> rfl
  have hBcnt : gB.players.countP (fun x => !x.folded) =
      gA.players.countP (fun x => !x.folded) := by
    rw [hgB]
    split <;> rfl
  have hBphase : gB.currentPhase = g.currentPhase := by
    rw [hgB]
    split <;> rfl
  have hBpos : gB.currentPlayerPosition = g.currentPlayerPosition := by
    rw [hgB]
    split <;> rfl
  set g2 : Game := { gB with actionsThisRound := gB.actionsThisRound + 1 } with hg2
  have hpos2 : g2.currentPlayerPosition < g2.players.length := by
    show gB.currentPlayerPosition < gB.players.length
    rw [hBpos, hBlen, hAlen]
    exact hpos
  obtain ⟨q, hnext, hq⟩ := nextPlayer_eq_lt g2 hpos2
  have hraiseeq : g.Raise raiseAmount = ({ g2 with currentPlayerPosition := q
      }).checkAndAdvanceIfBettingComplete := by
    have h1 : g.Raise raiseAmount = (g2.nextPlayer).checkAndAdvanceIfBettingComplete := rfl
    rw [h1, hnext]
  rw [hraiseeq]
  refine checkAndAdvance_moneyInv _ T ?_ ?_ ?_ ?_ ?_
  · show gB.currentPhase ≠ .Showdown
    rw [hBphase]
    exact hphase
  · show 2 ≤ gB.players.length
    rw [hBlen, hAlen]
    exact hlen
  · show gB.totalChips + gB.pot = T
    rw [hBsum, hAsum]
    exact hsum
  · show 2 ≤ (Game.GetActivePlayers { g2 with currentPlayerPosition := q }).length
    have h1 : (Game.GetActivePlayers { g2 with currentPlayerPosition := q }).length =
        gB.players.countP (fun x => !x.folded) := by
      rw [GetActivePlayers_length_countP]
    rw [h1, hBcnt, hAcnt, ← GetActivePlayers_length_countP]
    exact hact
  · show q < gB.players.length
    have h2 : g2.players.length = gB.players.length := rfl
    rw [← h2]
    exact hq

end Holdem

namespace Holdem

/-- Total chips after any seat wagers `amt`: the stack drop matches the
wager exactly. -/
theorem setPlayer_betAt_totalChips (g : Game) (i : Nat) (amt : Int)
    (h : i < g.players.length) :
    (g.setPlayer i ((g.players.getD i default).Bet amt)).totalChips =
      g.totalChips - amt := by
  rw [setPlayer_totalChips g i _ h]
  show g.totalChips - (g.players.getD i default).chips +
    ((g.players.getD i default).chips - amt) = _
  ring

/-- Equal folded-flag lists give equal active-seat counts. -/
theorem countP_notFolded_of_map_folded {l1 l2 : List Player}
    (h : l1.map (fun p => p.folded) = l2.map (fun p => p.folded)) :
    l1.countP (fun x => !x.folded) = l2.countP (fun x => !x.folded) := by
  have h2 := congrArg (List.countP (fun b => !b)) h
  rw [List.countP_map, List.countP_map] at h2
  exact h2

/-- Posting the blinds moves chips into the pot one for one and touches
no fold flag, seat count or phase. -/
theorem postBlinds_moneyFacts (g : Game) (hlen : 2 ≤ g.players.length) :
    (g.postBlinds).totalChips + (g.postBlinds).pot = g.totalChips + g.pot ∧
    (g.postBlinds).players.length = g.players.length ∧
    (g.postBlinds).players.countP (fun x => !x.folded) =
      g.players.countP (fun x => !x.folded) ∧
    (g.postBlinds).currentPhase = g.currentPhase := by
  have h0 : 0 < g.players.length := by omega
  have hsblt : (g.dealerPosition + 1) % g.players.length < g.players.length :=
    Nat.mod_lt _ h0
  set sbPos := (g.dealerPosition + 1) % g.players.length with hsbp
  set bbPos := (g.dealerPosition + 2) % g.players.length with hbbp
  set amt1 : Int := min g.smallBlind (g.players.getD sbPos default).chips with ha1
  set g1 : Game := { g.setPlayer sbPos ((g.players.getD sbPos default).Bet amt1) with
      pot := g.pot + amt1 } with hg1
  set amt2 : Int := min g1.bigBlind (g1.players.getD bbPos default).chips with ha2
  have heq : g.postBlinds =
      { g1.setPlayer bbPos ((g1.players.getD bbPos default).Bet amt2) with
          pot := g1.pot + amt2,
          currentBet := amt2 } := rfl
  have hg1len : g1.players.length = g.players.length := by
    show (g.players.set sbPos _).length = _
    simp
  have hbblt : bbPos < g1.players.length := by
    rw [hg1len, hbbp]
    exact Nat.mod_lt _ h0
  have hg1sum : g1.totalChips + g1.pot = g.totalChips + g.pot := by
    show (g.setPlayer sbPos ((g.players.getD sbPos default).Bet amt1)).totalChips +
      (g.pot + amt1) = _
    rw [setPlayer_betAt_totalChips g sbPos amt1 hsblt]
    ring
  have hg1cnt : g1.players.countP (fun x => !x.folded) =
      g.players.countP (fun x => !x.folded) :=
    countP_set_preserve g.players sbPos _ _ rfl
  refine ⟨?_, ?_, ?_, ?_⟩
  · rw [heq]
    show (g1.setPlayer bbPos ((g1.players.getD bbPos default).Bet amt2)).totalChips +
      (g1.pot + amt2) = _
    rw [setPlayer_betAt_totalChips g1 bbPos amt2 hbblt]
    have h := hg1sum
    omega
  · rw [heq]
    show (g1.players.set bbPos _).length = _
    rw [List.length_set]
    exact hg1len
  · rw [heq]
    show (g1.players.set bbPos ((g1.players.getD bbPos default).Bet amt2)).countP
      (fun x => !x.folded) = _
    rw [countP_set_preserve g1.players bbPos ((g1.players.getD bbPos default).Bet amt2)
      (fun x => !x.folded) rfl]
    exact hg1cnt
  · rw [heq]
    rfl

/-- `setFirstPlayerToAct` only moves the turn pointer, into range. -/
theorem setFirstPlayerToAct_eq (g : Game) (h0 : 0 < g.players.length) :
    ∃ q, g.setFirstPlayerToAct = { g with currentPlayerPosition := q } ∧
      q < g.players.length := by
  unfold Game.setFirstPlayerToAct
  dsimp only
  split
  · exact ⟨_, rfl, Nat.mod_lt _ h0⟩
  · exact ⟨_, rfl, Nat.mod_lt _ h0⟩

/-- `StartHand` establishes the money invariant for the starting total
(the stacks before the hand), for any post-shuffle deck. -/
theorem startHand_moneyInv (g : Game) (deck : List Card)
    (hlen : 2 ≤ g.players.length) :
    Game.MoneyInv g.totalChips (g.StartHand deck) := by
  classical
  set gD : Game := ((g.resetForNewHand).createDeck deck).dealHoleCards with hgD
  have hsh : g.StartHand deck = (gD.postBlinds).setFirstPlayerToAct := rfl
  have hCchips : (((g.resetForNewHand).createDeck deck).players.map Player.chips) =
      g.players.map Player.chips := by
    show ((g.players.map Player.ResetForNewHand).map Player.chips) = _
    rw [List.map_map]
    rfl
  have hCcnt : (((g.resetForNewHand).createDeck deck).players.countP (fun x => !x.folded)) =
      g.players.length := by
    show (g.players.map Player.ResetForNewHand).countP (fun x => !x.folded) = _
    rw [List.countP_map]
    have hcomp : ((fun (x : Player) => !x.folded) ∘ Player.ResetForNewHand) =
        (fun _ => true) := by
      funext p
      rfl
    rw [hcomp, List.countP_true]
  have hDchips : gD.players.map Player.chips = g.players.map Player.chips := by
    rw [hgD, dealHoleCards_chips]
    exact hCchips
  have hDlen : gD.players.length = g.players.length := by
    have h := congrArg List.length hDchips
    simpa using h
  have hDcnt : gD.players.countP (fun x => !x.folded) = g.players.length := by
    rw [hgD]
    rw [countP_notFolded_of_map_folded
      (dealHoleCards_folded ((g.resetForNewHand).createDeck deck))]
    exact hCcnt
  have hDpot : gD.pot = 0 := by
    rw [hgD, dealHoleCards_pot]
    rfl
  have hDphase : gD.currentPhase = .Preflop := by
    rw [hgD, dealHoleCards_phase]
    rfl
  have hDtotal : gD.totalChips = g.totalChips := congrArg List.sum hDchips
  obtain ⟨hPsum, hPlen, hPcnt, hPphase⟩ := postBlinds_moneyFacts gD (by
    rw [hDlen]
    exact hlen)
  obtain ⟨q, hsfp, hqlt⟩ := setFirstPlayerToAct_eq (gD.postBlinds) (by
    rw [hPlen, hDlen]
    omega)
  rw [hsh, hsfp]
  have hphase : (gD.postBlinds).currentPhase = GamePhase.Preflop := by
    rw [hPphase, hDphase]
  refine ⟨?_, ?_, ?_⟩
  · show 2 ≤ (gD.postBlinds).players.length
    rw [hPlen, hDlen]
    exact hlen
  · intro hcon
    have hcon2 : (gD.postBlinds).currentPhase = GamePhase.Showdown := hcon
    rw [hphase] at hcon2
    exact absurd hcon2 (by decide)
  · intro _
    refine ⟨?_, ?_, ?_⟩
    · show (gD.postBlinds).totalChips + (gD.postBlinds).pot = g.totalChips
      rw [hPsum, hDpot, hDtotal]
      ring
    · show 2 ≤ (Game.GetActivePlayers { gD.postBlinds with currentPlayerPosition := q }).length
      rw [GetActivePlayers_length_countP]
      show 2 ≤ (gD.postBlinds).players.countP (fun x => !x.folded)
      rw [hPcnt, hDcnt]
      exact hlen
    · exact hqlt

/-- Applying one within-hand action preserves the money invariant. -/
theorem applyWithinHand_moneyInv (g : Game) (a : PlayerAction) (T : Int)
    (hinv : Game.MoneyInv T g) : Game.MoneyInv T (g.applyWithinHand a) := by
  obtain ⟨hlen, hsd, hrun⟩ := hinv
  unfold Game.applyWithinHand
  by_cases hph : g.currentPhase = .Showdown
  · rw [if_pos (by simp [Game.IsHandComplete, hph])]
    exact ⟨hlen, hsd, hrun⟩
  · rw [if_neg (by simp [Game.IsHandComplete, hph])]
    obtain ⟨hsum, hact, hpos⟩ := hrun hph
    cases a with
    | call => exact call_moneyInv g T hph hlen hsum hact hpos
    | raise amount => exact raise_moneyInv g amount T hph hlen hsum hact hpos
    | check => exact check_moneyInv g T hph hlen hsum hact hpos
    | fold => exact fold_moneyInv g T hph hlen hsum hact hpos

/-- Applying any within-hand action sequence preserves the money
invariant. -/
theorem applySeq_moneyInv (acts : List PlayerAction) :
    ∀ (g : Game) (T : Int), Game.MoneyInv T g → Game.MoneyInv T (g.applySeq acts) := by
  induction acts with
  | nil => intro g T h; exact h
  | cons a acts ih =>
    intro g T h
    exact ih (g.applyWithinHand a) T (applyWithinHand_moneyInv g a T h)

end Holdem

namespace Holdem

/-- Claim C1, counterexample.  Heads-up game, blinds 5/10, stacks
1000/1000: the hand's starting total is 2000, and immediately after
`StartHand` (the empty action sequence, a step of every sequence) the
claim's quantity - sum over seats of stack plus current wager, plus the
pot - is 2015, not 2000, because each posted wager is subtracted from
the stack, recorded as the seat's wager AND added to the pot at once;
the conserved quantity is stacks plus pot, without the wagers. -/
theorem c1_wager_double_count_counterexample :
    (NewGame ["A", "B"] 5 10).totalChips = 2000 ∧
    ((NewGame ["A", "B"] 5 10).StartHand []).claimedMoneySum = 2015 ∧
    ¬(((NewGame ["A", "B"] 5 10).StartHand []).claimedMoneySum = 2000) ∧
    ((NewGame ["A", "B"] 5 10).StartHand []).totalChips +
      ((NewGame ["A", "B"] 5 10).StartHand []).pot = 2000 := by
  decide

/-- Claim C1 (corrected).  Chip conservation as the code maintains it:
for every game with at least two seats, every post-shuffle deck and
every sequence of within-hand actions applied after `StartHand`, at
every step (the sequence is universally quantified, so every prefix is
an instance) the sum of the chip stacks plus the pot equals the hand's
starting total while the hand is running; once the hand has completed,
the pot has been paid out into the stacks, and the stacks alone sum to
the starting total.  The spec's stated quantity, which also adds each
seat's current-round wager, is NOT conserved (see the counterexample):
the code moves each wager into the pot at once while also recording it
on the seat. -/
theorem c1_chip_conservation_amended (g : Game) (deck : List Card)
    (acts : List PlayerAction) (h2 : 2 ≤ g.players.length) :
    ((((g.StartHand deck).applySeq acts).currentPhase ≠ .Showdown →
        ((g.StartHand deck).applySeq acts).totalChips +
          ((g.StartHand deck).applySeq acts).pot = g.totalChips) ∧
      (((g.StartHand deck).applySeq acts).currentPhase = .Showdown →
        ((g.StartHand deck).applySeq acts).totalChips = g.totalChips)) := by
  have h := applySeq_moneyInv acts (g.StartHand deck) g.totalChips
    (startHand_moneyInv g deck h2)
  obtain ⟨-, hsd, hrun⟩ := h
  exact ⟨fun hne => (hrun hne).1, hsd⟩

/-- Claim C1, witness: the corrected conservation statement evaluated
on a concrete heads-up hand that ends by an immediate fold. -/
theorem c1_chip_conservation_amended_witness :
    2 ≤ (NewGame ["A", "B"] 5 10).players.length ∧
    (((((NewGame ["A", "B"] 5 10).StartHand []).applySeq
          [PlayerAction.fold]).currentPhase ≠ .Showdown →
        (((NewGame ["A", "B"] 5 10).StartHand []).applySeq
            [PlayerAction.fold]).totalChips +
          (((NewGame ["A", "B"] 5 10).StartHand []).applySeq
            [PlayerAction.fold]).pot = (NewGame ["A", "B"] 5 10).totalChips) ∧
      ((((NewGame ["A", "B"] 5 10).StartHand []).applySeq
          [PlayerAction.fold]).currentPhase = .Showdown →
        (((NewGame ["A", "B"] 5 10).StartHand []).applySeq
            [PlayerAction.fold]).totalChips = (NewGame ["A", "B"] 5 10).totalChips)) :=
  ⟨by decide, c1_chip_conservation_amended (NewGame ["A", "B"] 5 10) []
    [PlayerAction.fold] (by decide)⟩

end Holdem
